import Mathlib

/-!
# ccr-syncer: the replication job core (`pkg/ccr/job.go`)

A shallow embedding of the per-job state machine.  Go state mutated through the
`*Job` receiver becomes a `Job` record passed through every function; calls to
external collaborators (frontend RPC, Specer, Meta cache, store, ingest sub-job,
`encoding/json`, clock and random source) are answered by an `Env` of oracles that
see the history of calls made so far, and every such call is appended to the
`trace` of the job.
-/

namespace Ccr

/-! ## Go maps keyed by `int64` -/

/-- A Go `map[int64]β` as an association list; iteration order is the list order. -/
abbrev GoMap (β : Type) := List (Int × β)

/-- Go `v, ok := m[k]`. -/
def GoMap.lookup {β : Type} : GoMap β → Int → Option β
  | [], _ => none
  | (k, v) :: m, x => if k = x then some v else GoMap.lookup m x

/-- Go `m[k] = v`. -/
def GoMap.set {β : Type} : GoMap β → Int → β → GoMap β
  | [], x, b => [(x, b)]
  | (k, v) :: m, x, b => if k = x then (k, b) :: m else (k, v) :: GoMap.set m x b

/-- Go `delete(m, k)`. -/
def GoMap.delete {β : Type} : GoMap β → Int → GoMap β
  | [], _ => []
  | (k, v) :: m, x => if k = x then GoMap.delete m x else (k, v) :: GoMap.delete m x

/-- Go `len(m)` of a possibly nil map. -/
def GoMap.len {β : Type} : Option (GoMap β) → Nat
  | none => 0
  | some m => m.length

/-! ## Enumerations of `job.go` -/

/-- `type SyncType int` with `DBSync = 0`, `TableSync = 1`; every other value takes the
`default` branch of each switch and is `UnknownSync` here. -/
inductive SyncType where
  | DBSync
  | TableSync
  | UnknownSync
  deriving DecidableEq, Repr

/-- `func (s SyncType) String() string`. -/
def SyncType.String : SyncType → String
  | .DBSync => "db_sync"
  | .TableSync => "table_sync"
  | .UnknownSync => "unknown_sync"

/-- `type JobState int` with `JobRunning = 0`, `JobPaused = 1`. -/
inductive JobState where
  | JobRunning
  | JobPaused
  deriving DecidableEq, Repr

/-! ## The progress model (`job_progress.go`, not among the sources) -/

/-- Modelled from the spec: the major state `SyncState` of `JobProgress`, declared in
`job_progress.go`; the six values the spec lists in section 3. -/
inductive SyncState where
  | DBFullSync
  | DBTablesIncrementalSync
  | DBSpecificTableFullSync
  | DBIncrementalSync
  | TableFullSync
  | TableIncrementalSync
  deriving DecidableEq, Repr

/-- Modelled from the spec: the binlog-type tag carried by a sub-state, declared in
`job_progress.go`; `job.go` names `BinlogUpsert` only. -/
inductive BinlogType where
  | BinlogNone
  | BinlogUpsert
  | BinlogOther
  deriving DecidableEq, Repr

/-- Modelled from the spec: the phase number of a sub-state (`job_progress.go`). -/
inductive SubState where
  | Done
  | BeginCreateSnapshot
  | GetSnapshotInfo
  | AddExtraInfo
  | RestoreSnapshot
  | PersistRestoreInfo
  | BeginTransaction
  | IngestBinlog
  | CommitTransaction
  | RollbackTransaction
  deriving DecidableEq, Repr

/-- Modelled from the spec: `SubSyncState` of `job_progress.go`, a phase tagged with the
binlog record type being handled (`j.progress.SubSyncState.BinlogType` in `job.go`).
The switches of `job.go` compare the whole value with the named constants below. -/
structure SubSyncState where
  State : SubState
  BinlogType : BinlogType
  deriving DecidableEq, Repr

/-- Modelled from the spec: the common sub-state `Done`. -/
def Done : SubSyncState := ⟨.Done, .BinlogNone⟩
/-- Modelled from the spec: full-sync sub-state. -/
def BeginCreateSnapshot : SubSyncState := ⟨.BeginCreateSnapshot, .BinlogNone⟩
/-- Modelled from the spec: full-sync sub-state. -/
def GetSnapshotInfo : SubSyncState := ⟨.GetSnapshotInfo, .BinlogNone⟩
/-- Modelled from the spec: full-sync sub-state. -/
def AddExtraInfo : SubSyncState := ⟨.AddExtraInfo, .BinlogNone⟩
/-- Modelled from the spec: full-sync sub-state. -/
def RestoreSnapshot : SubSyncState := ⟨.RestoreSnapshot, .BinlogNone⟩
/-- Modelled from the spec: full-sync sub-state. -/
def PersistRestoreInfo : SubSyncState := ⟨.PersistRestoreInfo, .BinlogNone⟩
/-- Modelled from the spec: upsert sub-state, tagged with the upsert binlog type. -/
def BeginTransaction : SubSyncState := ⟨.BeginTransaction, .BinlogUpsert⟩
/-- Modelled from the spec: upsert sub-state, tagged with the upsert binlog type. -/
def IngestBinlog : SubSyncState := ⟨.IngestBinlog, .BinlogUpsert⟩
/-- Modelled from the spec: upsert sub-state, tagged with the upsert binlog type. -/
def CommitTransaction : SubSyncState := ⟨.CommitTransaction, .BinlogUpsert⟩
/-- Modelled from the spec: upsert sub-state, tagged with the upsert binlog type. -/
def RollbackTransaction : SubSyncState := ⟨.RollbackTransaction, .BinlogUpsert⟩

/-! ## Errors (`pkg/xerror`, not among the sources) and thrift statuses -/

/-- Modelled from the spec: the error categories of `pkg/xerror` (section 7). -/
inductive ErrType where
  | Normal
  | DB
  | FE
  | BE
  | Meta
  | XPanic
  deriving DecidableEq, Repr

/-- Modelled from the spec: `xerror.XError` (the package is not among the sources), an
error with a category and a severity flag (section 7); `ErrType` and the message of the inner
`Err` are the fields `xerror_test.go` reads. -/
structure XError where
  ErrType : ErrType
  Err : String
  Panic : Bool
  deriving DecidableEq, Repr

/-- Modelled from the spec: `func (e *XError) IsPanic() bool`. -/
def XError.IsPanic (e : XError) : Bool := e.Panic

/-- Modelled from the spec: `func (e *XError) Category() ErrType`. -/
def XError.Category (e : XError) : Ccr.ErrType := e.ErrType

/-- A Go `error` value: an `XError` or an error of some other library. -/
inductive GoError where
  | xerror (e : XError)
  | other (msg : String)
  deriving DecidableEq, Repr

/-- The message of an error, `err.Error()`. -/
def GoError.Error : GoError → String
  | .xerror e => e.Err
  | .other msg => msg

/-- Modelled from the spec: `xerror.Errorf(category, format, ...)` and `xerror.New`, a
non-panic XError of the category.  The messages of `job.go` are shortened: no property
depends on their text. -/
def Errorf (c : ErrType) (msg : String) : GoError := .xerror ⟨c, msg, false⟩

/-- Modelled from the spec: `xerror.Panicf(category, format, ...)`, an XError flagged
panic. -/
def Panicf (c : ErrType) (msg : String) : GoError := .xerror ⟨c, msg, true⟩

/-- Modelled from the spec: `xerror.Wrap(err, category, message)` and `xerror.Wrapf`, a
non-panic XError of the category around `err`, whose inner message is that of `err`
(`xerror_test.go`). -/
def Wrap (err : GoError) (c : ErrType) : GoError := .xerror ⟨c, err.Error, false⟩

/-- `tstatus.TStatusCode`, the codes `job.go` names and all the others. -/
inductive TStatusCode where
  | OK
  | PUBLISH_TIMEOUT
  | BINLOG_DISABLE
  | BINLOG_TOO_OLD_COMMIT_SEQ
  | BINLOG_TOO_NEW_COMMIT_SEQ
  | BINLOG_NOT_FOUND_DB
  | BINLOG_NOT_FOUND_TABLE
  | Other (code : Nat)
  deriving DecidableEq, Repr

/-- `tstatus.TStatus`. -/
structure TStatus where
  StatusCode : TStatusCode
  ErrorMsgs : List String
  deriving DecidableEq, Repr

/-! ## Records and RPC payloads -/

/-- `base.Spec`, the fields `job.go` reads and writes. -/
structure Spec where
  Database : String
  Table : String
  DbId : Int
  TableId : Int
  deriving DecidableEq, Repr

/-- `record.TableRecord`: the table id and its partition records. -/
structure TableRecord where
  Id : Int
  PartitionRecords : List (Int × Int)
  deriving DecidableEq, Repr

/-- `record.Upsert`: the fields `job.go` reads. -/
structure Upsert where
  CommitSeq : Int
  TableRecords : GoMap TableRecord
  deriving DecidableEq, Repr

/-- `ttypes.TTabletCommitInfo`. -/
structure TTabletCommitInfo where
  TabletId : Int
  BackendId : Int
  deriving DecidableEq, Repr

/-- `festruct.TGetSnapshotResult_`: status and the optional `job_info` bytes. -/
structure TGetSnapshotResult where
  Status : TStatus
  JobInfo : Option String
  deriving DecidableEq, Repr

/-- `festruct.TTableRef`: table and alias name. -/
structure TTableRef where
  Table : String
  AliasName : String
  deriving DecidableEq, Repr

/-- `festruct.TBeginTxnResult_`. -/
structure TBeginTxnResult where
  Status : TStatus
  TxnId : Int
  DbId : Int
  deriving DecidableEq, Repr

/-- `base.NetworkAddr`. -/
structure NetworkAddr where
  Ip : String
  Port : Int
  deriving DecidableEq, Repr

/-- `base.Backend`: the fields `genExtraInfo` reads. -/
structure Backend where
  Id : Int
  Host : String
  HttpPort : Int
  deriving DecidableEq, Repr

/-- `base.ExtraInfo`. -/
structure ExtraInfo where
  BeNetworkMap : GoMap NetworkAddr
  Token : String
  deriving DecidableEq, Repr

/-- The `map[string]interface{}` that `json.Unmarshal` makes of `job_info`: the value
under key `extra_info` and the other keys. -/
structure JobInfoMap where
  Rest : String
  ExtraInfo : Option ExtraInfo
  deriving DecidableEq, Repr

/-- `TableMeta`: the fields `job.go` reads. -/
structure TableMeta where
  Id : Int
  Name : String
  deriving DecidableEq, Repr

/-- `festruct.TBinlogType`, the types `handleBinlog` names and all the others. -/
inductive TBinlogType where
  | UPSERT
  | ADD_PARTITION
  | CREATE_TABLE
  | DROP_PARTITION
  | DROP_TABLE
  | ALTER_JOB
  | MODIFY_TABLE_ADD_OR_DROP_COLUMNS
  | DUMMY
  | ALTER_DATABASE_PROPERTY
  | MODIFY_TABLE_PROPERTY
  | BARRIER
  | TRUNCATE_TABLE
  | Other (code : Nat)
  deriving DecidableEq, Repr

/-- `festruct.TBinlog`: optional commit seq, type and the JSON payload. -/
structure TBinlog where
  CommitSeq : Option Int
  Type_ : TBinlogType
  Data : String
  deriving DecidableEq, Repr

/-- `binlog.GetCommitSeq()`: the commit seq, 0 when unset. -/
def TBinlog.GetCommitSeq (b : TBinlog) : Int := b.CommitSeq.getD 0

/-- `record.AddPartition`: the table id and the statement text. -/
structure AddPartition where
  TableId : Int
  Sql : String
  deriving DecidableEq, Repr

/-- `record.DropPartition`. -/
structure DropPartition where
  TableId : Int
  Sql : String
  deriving DecidableEq, Repr

/-- `record.CreateTable`. -/
structure CreateTable where
  TableId : Int
  Sql : String
  deriving DecidableEq, Repr

/-- `record.DropTable`. -/
structure DropTable where
  TableId : Int
  TableName : String
  deriving DecidableEq, Repr

/-- `record.AlterJobV2`: table name and whether the job state is finished. -/
structure AlterJobV2 where
  TableName : String
  Finished : Bool
  deriving DecidableEq, Repr

/-- `alterJob.IsFinished()`. -/
def AlterJobV2.IsFinished (a : AlterJobV2) : Bool := a.Finished

/-- `record.ModifyTableAddOrDropColumns`. -/
structure ModifyTableAddOrDropColumns where
  RawSql : String
  deriving DecidableEq, Repr

/-- `record.TruncateTable`. -/
structure TruncateTable where
  TableId : Int
  TableName : String
  RawSql : String
  deriving DecidableEq, Repr

/-- `festruct.TGetBinlogResult_`: status and the records (`nil` entries allowed). -/
structure TGetBinlogResult where
  Status : TStatus
  Binlogs : List (Option TBinlog)
  deriving DecidableEq, Repr

/-! ## In-memory data and the progress record -/

/-- The local `inMemoryData` struct of `fullSync`. -/
structure FullSyncData where
  SnapshotName : String
  SnapshotResp : TGetSnapshotResult
  TableCommitSeqMap : Option (GoMap Int)
  deriving DecidableEq, Repr

/-- The local `inMemoryData` struct of `handleUpsert`. -/
structure UpsertData where
  CommitSeq : Int
  TxnId : Int
  DestTableIds : List Int
  TableRecords : List TableRecord
  CommitInfos : List TTabletCommitInfo
  deriving DecidableEq, Repr

/-- The Go `any` held in `JobProgress.InMemoryData` or handed to a transition: `nil`, a
string, or a pointer to one of the two local `inMemoryData` structs. -/
inductive InMemoryData where
  | null
  | str (s : String)
  | fullSync (d : FullSyncData)
  | upsert (d : UpsertData)
  deriving DecidableEq, Repr

/-- Modelled from the spec: `JobProgress` of `job_progress.go`, the durable cursor with
the fields of section 3. -/
structure JobProgress where
  SyncState : SyncState
  SubSyncState : SubSyncState
  CommitSeq : Int
  PersistData : String
  InMemoryData : InMemoryData
  TableCommitSeqMap : Option (GoMap Int)
  TableMapping : Option (GoMap Int)
  deriving DecidableEq, Repr

/-- `encoding/json` on the two `inMemoryData` structs: `json.Marshal` and
`json.Unmarshal` (`none` when it returns an error). -/
structure JsonCodec where
  MarshalFullSync : FullSyncData → String
  UnmarshalFullSync : String → Option FullSyncData
  MarshalUpsert : UpsertData → String
  UnmarshalUpsert : String → Option UpsertData

/-- Modelled from the spec: the string checkpointed for a value handed to a persisting
transition, the string itself or the marshalled in-memory structure (section 3,
`PersistData`). -/
def persistString (c : JsonCodec) : InMemoryData → String
  | .null => ""
  | .str s => s
  | .fullSync d => c.MarshalFullSync d
  | .upsert d => c.MarshalUpsert d

/-- Modelled from the spec: `StartHandle(cs)` of `job_progress.go`, "sets `CommitSeq = cs`";
`job.go` passes the commit seq only, the type tag is carried by the sub-state constants. -/
def JobProgress.StartHandle (p : JobProgress) (commitSeq : Int) : JobProgress :=
  { p with CommitSeq := commitSeq }

/-- Modelled from the spec: `NextSubVolatile(sub, inMem)` of `job_progress.go`, "advance
sub-state, keep InMemoryData, do NOT persist". -/
def JobProgress.NextSubVolatile (p : JobProgress) (sub : Ccr.SubSyncState) (inMem : Ccr.InMemoryData) :
    JobProgress :=
  { p with SubSyncState := sub, InMemoryData := inMem }

/-- Modelled from the spec: `NextSubCheckpoint(sub, persistStr)` of `job_progress.go`,
"advance sub-state and persist with persistStr (also updates InMemoryData decoded form)". -/
def JobProgress.NextSubCheckpoint (c : JsonCodec) (p : JobProgress) (sub : Ccr.SubSyncState)
    (data : Ccr.InMemoryData) : JobProgress :=
  { p with SubSyncState := sub, PersistData := persistString c data, InMemoryData := data }

/-- Modelled from the spec: `CommitNextSubWithPersist(cs, sub, inMem)` of `job_progress.go`,
"set CommitSeq, advance sub, persist marshalled InMemoryData". -/
def JobProgress.CommitNextSubWithPersist (c : JsonCodec) (p : JobProgress) (commitSeq : Int)
    (sub : Ccr.SubSyncState) (inMem : Ccr.InMemoryData) : JobProgress :=
  { p with CommitSeq := commitSeq, SubSyncState := sub, PersistData := persistString c inMem,
           InMemoryData := inMem }

/-- Modelled from the spec: `NextWithPersist(cs, major, sub, persistStr)` of
`job_progress.go`, "change major state, sub-state, CommitSeq, and persist". -/
def JobProgress.NextWithPersist (p : JobProgress) (commitSeq : Int) (major : Ccr.SyncState)
    (sub : Ccr.SubSyncState) (persistData : String) : JobProgress :=
  { p with CommitSeq := commitSeq, SyncState := major, SubSyncState := sub,
           PersistData := persistData }

/-- Modelled from the spec: `Done()` of `job_progress.go`, "set sub-state to Done and
persist". -/
def JobProgress.Done (p : JobProgress) : JobProgress :=
  { p with SubSyncState := Ccr.Done }

/-- Modelled from the spec: `IsDone()` of `job_progress.go`, the sub-state is `Done`
(section 3, I2). -/
def JobProgress.IsDone (p : JobProgress) : Bool :=
  decide (p.SubSyncState = Ccr.Done)

/-- Modelled from the spec: `Rollback(skipError)` of `job_progress.go`, "if skipError,
advance CommitSeq past the failed record and reset to Done; else reset sub-state to Done
but leave CommitSeq".  The failed record is the one in flight, whose commit seq
`StartHandle` stored in `CommitSeq`. -/
def JobProgress.Rollback (p : JobProgress) (skipError : Bool) : JobProgress :=
  if skipError then { p with CommitSeq := p.CommitSeq + 1, SubSyncState := Ccr.Done }
  else { p with SubSyncState := Ccr.Done }

/-- Modelled from the spec: `Persist()` of `job_progress.go`, "force a write"; the record
itself is unchanged. -/
def JobProgress.Persist (p : JobProgress) : JobProgress := p

/-! ## Calls across the boundary of `job.go` -/

/-- Source or destination side of a collaborator (`srcMeta` / `destMeta`, `&j.Src` /
`&j.Dest`). -/
inductive Side where
  | Src
  | Dest
  deriving DecidableEq, Repr

/-- A call of a `JobProgress` transition. -/
inductive ProgressCall where
  | StartHandle (commitSeq : Int)
  | NextSubVolatile (sub : SubSyncState)
  | NextSubCheckpoint (sub : SubSyncState)
  | CommitNextSubWithPersist (commitSeq : Int) (sub : SubSyncState)
  | NextWithPersist (commitSeq : Int) (major : SyncState) (sub : SubSyncState)
      (persistData : String)
  | Done
  | Rollback (skipError : Bool)
  | Persist
  deriving DecidableEq, Repr

/-- The json-tagged fields of `Job`, as written by `persistJob`. -/
structure JobJson where
  SyncType : SyncType
  Name : String
  Src : Spec
  Dest : Spec
  SkipError : Bool
  State : JobState
  deriving DecidableEq, Repr

/-- One call made by `job.go` to a collaborator, with its arguments. -/
inductive Event where
  | NewFeRpc (side : Side)
  | GetBinlog (commitSeq : Int)
  | GetSnapshot (snapshotName : String)
  | RestoreSnapshot (tableRefs : List TTableRef) (restoreName : String)
      (snapshotResp : TGetSnapshotResult)
  | BeginTransaction (label : String) (tableIds : List Int)
  | CommitTransaction (txnId : Int) (commitInfos : List TTabletCommitInfo)
  | RollbackTransaction (txnId : Int)
  | WaitTransactionDone (txnId : Int)
  | CreateSnapshotAndWaitForDone (tables : List String)
  | CheckRestoreFinished (name : String)
  | DbExec (sql : String)
  | Exec (sql : String)
  | MetaDbExec (sql : String)
  | SpecValid (side : Side)
  | GetTables (side : Side)
  | DirtyGetTables
  | GetTableNameById (side : Side) (id : Int)
  | GetTableId (side : Side) (name : String)
  | UpdateTable (name : String) (id : Int)
  | ClearTable (side : Side) (db : String) (table : String)
  | GetMasterToken
  | GetBackends
  | IsJobExist (name : String)
  | UpdateJob (name : String) (data : JobJson)
  | RemoveJob (name : String)
  | IngestBinlog (txnId : Int) (tableRecords : List TableRecord)
  | progress (call : ProgressCall)
  deriving DecidableEq, Repr

/-- The collaborators of a job.  Every oracle sees the calls made before it (the trace)
and its arguments; `Option GoError` is a Go `error` (`none` is `nil`), `Except GoError α`
a Go `(α, error)`. -/
structure Env where
  /-- `j.factory.NewFeRpc(spec)`. -/
  NewFeRpc : List Event → Side → Option GoError
  /-- `srcRpc.GetBinlog(src, commitSeq)`. -/
  GetBinlog : List Event → Int → Except GoError TGetBinlogResult
  /-- `srcRpc.GetSnapshot(src, snapshotName)`. -/
  GetSnapshot : List Event → String → Except GoError TGetSnapshotResult
  /-- `destRpc.RestoreSnapshot(dest, tableRefs, name, snapshotResp)`: the status. -/
  RestoreSnapshot : List Event → List TTableRef → String → TGetSnapshotResult →
    Except GoError TStatus
  /-- `destRpc.BeginTransaction(dest, label, tableIds)`. -/
  BeginTransaction : List Event → String → List Int → Except GoError TBeginTxnResult
  /-- `destRpc.CommitTransaction(dest, txnId, commitInfos)`: the status. -/
  CommitTransaction : List Event → Int → List TTabletCommitInfo → Except GoError TStatus
  /-- `destRpc.RollbackTransaction(dest, txnId)`: the status. -/
  RollbackTransaction : List Event → Int → Except GoError TStatus
  /-- `j.ISrc.CreateSnapshotAndWaitForDone(tables)`. -/
  CreateSnapshotAndWaitForDone : List Event → List String → Except GoError String
  /-- `j.IDest.CheckRestoreFinished(name)`. -/
  CheckRestoreFinished : List Event → String → Except GoError Bool
  /-- `j.IDest.DbExec(sql)`. -/
  DbExec : List Event → String → Option GoError
  /-- `j.IDest.Exec(sql)`. -/
  Exec : List Event → String → Option GoError
  /-- `j.destMeta.DbExec(sql)`. -/
  MetaDbExec : List Event → String → Option GoError
  /-- `j.ISrc.Valid()` / `j.IDest.Valid()`. -/
  SpecValid : List Event → Side → Option GoError
  /-- `meta.GetTables()`. -/
  GetTables : List Event → Side → Except GoError (GoMap TableMeta)
  /-- `j.srcMeta.DirtyGetTables()`. -/
  DirtyGetTables : List Event → GoMap TableMeta
  /-- `meta.GetTableNameById(id)`. -/
  GetTableNameById : List Event → Side → Int → Except GoError String
  /-- `meta.GetTableId(name)`. -/
  GetTableId : List Event → Side → String → Except GoError Int
  /-- `j.destMeta.UpdateTable(name, id)`. -/
  UpdateTable : List Event → String → Int → Except GoError TableMeta
  /-- `j.srcMeta.GetMasterToken(j.factory)`. -/
  GetMasterToken : List Event → Except GoError String
  /-- `j.srcMeta.GetBackends()`. -/
  GetBackends : List Event → Except GoError (List Backend)
  /-- `j.db.IsJobExist(name)`. -/
  IsJobExist : List Event → String → Except GoError Bool
  /-- `j.db.UpdateJob(name, data)`. -/
  UpdateJob : List Event → String → JobJson → Option GoError
  /-- The ingest sub-job run by `ingestBinlog`: its error or its commit infos. -/
  Ingest : List Event → Int → List TableRecord → Option (GoMap Int) →
    Except GoError (List TTabletCommitInfo)
  /-- `rand.Intn(65536)`; the value is taken modulo 65536. -/
  RandIntn : List Event → Nat
  /-- `time.Now().Unix()`. -/
  Now : List Event → Int
  /-- `encoding/json` on the in-memory structs. -/
  Json : JsonCodec
  /-- `json.Unmarshal(jobInfo, &jobInfoMap)` into a `map[string]interface{}`: an error, or
  the map, which stays nil (`none`) when the document is `null`. -/
  UnmarshalJobInfo : String → Except GoError (Option JobInfoMap)
  /-- `json.Marshal(jobInfoMap)`. -/
  MarshalJobInfo : JobInfoMap → Except GoError String
  /-- `ExtractTableCommitSeqMap(jobInfo)`. -/
  ExtractTableCommitSeqMap : String → Except GoError (Option (GoMap Int))
  /-- `record.NewUpsertFromJson(data)`. -/
  NewUpsertFromJson : String → Except GoError Upsert
  /-- `record.NewAddPartitionFromJson(data)`. -/
  NewAddPartitionFromJson : String → Except GoError AddPartition
  /-- `addPartition.GetSql(destTableName)`. -/
  AddPartitionGetSql : AddPartition → String → String
  /-- `record.NewDropPartitionFromJson(data)`. -/
  NewDropPartitionFromJson : String → Except GoError DropPartition
  /-- `record.NewCreateTableFromJson(data)`. -/
  NewCreateTableFromJson : String → Except GoError CreateTable
  /-- `record.NewDropTableFromJson(data)`. -/
  NewDropTableFromJson : String → Except GoError DropTable
  /-- `record.NewAlterJobV2FromJson(data)`. -/
  NewAlterJobV2FromJson : String → Except GoError AlterJobV2
  /-- `record.NewModifyTableAddOrDropColumnsFromJson(data)`. -/
  NewModifyTableAddOrDropColumnsFromJson : String → Except GoError ModifyTableAddOrDropColumns
  /-- `record.NewTruncateTableFromJson(data)`. -/
  NewTruncateTableFromJson : String → Except GoError TruncateTable

/-! ## The job -/

/-- `type Job struct`: the json-tagged fields, the progress, the stop channel (closed or
not), the deleted marker, and the trace of calls made so far. -/
structure Job where
  SyncType : SyncType
  Name : String
  Src : Spec
  Dest : Spec
  SkipError : Bool
  State : JobState
  progress : JobProgress
  stopClosed : Bool
  isDeleted : Bool
  trace : List Event
  deriving DecidableEq, Repr

/-- How a call of a `Job` method ends: it returns a value, the goroutine panics (a failed
type assertion, `log.Fatalf`), or the fuel given to its loops runs out.  Each carries the
job as it stands at that point. -/
inductive Outcome (α : Type) where
  | ret (a : α) (j : Job)
  | panic (j : Job)
  | outOfFuel (j : Job)
  deriving DecidableEq, Repr

/-- The job held by an outcome. -/
def Outcome.job {α : Type} : Outcome α → Job
  | .ret _ j => j
  | .panic j => j
  | .outOfFuel j => j

/-- The value returned, when the call returns. -/
def Outcome.value? {α : Type} : Outcome α → Option α
  | .ret a _ => some a
  | .panic _ => none
  | .outOfFuel _ => none

/-- Appends one call to the trace. -/
def Job.log (j : Job) (e : Event) : Job := { j with trace := j.trace ++ [e] }

/-- `j.progress.StartHandle(commitSeq)`. -/
def Job.StartHandle (j : Job) (commitSeq : Int) : Job :=
  { j with progress := j.progress.StartHandle commitSeq,
           trace := j.trace ++ [.progress (.StartHandle commitSeq)] }

/-- `j.progress.NextSubVolatile(sub, inMem)`. -/
def Job.NextSubVolatile (j : Job) (sub : SubSyncState) (inMem : InMemoryData) : Job :=
  { j with progress := j.progress.NextSubVolatile sub inMem,
           trace := j.trace ++ [.progress (.NextSubVolatile sub)] }

/-- `j.progress.NextSubCheckpoint(sub, data)`. -/
def Job.NextSubCheckpoint (env : Env) (j : Job) (sub : SubSyncState) (data : InMemoryData) :
    Job :=
  { j with progress := j.progress.NextSubCheckpoint env.Json sub data,
           trace := j.trace ++ [.progress (.NextSubCheckpoint sub)] }

/-- `j.progress.CommitNextSubWithPersist(commitSeq, sub, inMem)`. -/
def Job.CommitNextSubWithPersist (env : Env) (j : Job) (commitSeq : Int) (sub : SubSyncState)
    (inMem : InMemoryData) : Job :=
  { j with progress := j.progress.CommitNextSubWithPersist env.Json commitSeq sub inMem,
           trace := j.trace ++ [.progress (.CommitNextSubWithPersist commitSeq sub)] }

/-- `j.progress.NextWithPersist(commitSeq, major, sub, persistData)`. -/
def Job.NextWithPersist (j : Job) (commitSeq : Int) (major : SyncState) (sub : SubSyncState)
    (persistData : String) : Job :=
  { j with progress := j.progress.NextWithPersist commitSeq major sub persistData,
           trace := j.trace ++ [.progress (.NextWithPersist commitSeq major sub persistData)] }

/-- `j.progress.Done()`. -/
def Job.Done (j : Job) : Job :=
  { j with progress := j.progress.Done, trace := j.trace ++ [.progress .Done] }

/-- `j.progress.Rollback(skipError)`. -/
def Job.Rollback (j : Job) (skipError : Bool) : Job :=
  { j with progress := j.progress.Rollback skipError,
           trace := j.trace ++ [.progress (.Rollback skipError)] }

/-- `j.progress.Persist()`. -/
def Job.Persist (j : Job) : Job :=
  { j with progress := j.progress.Persist, trace := j.trace ++ [.progress .Persist] }

/-! ## Strings: `fmt`, `strings`, `regexp` -/

/-- Whether the characters `p` open the characters `s`. -/
def startsWith : List Char → List Char → Bool
  | _, [] => true
  | [], _ :: _ => false
  | c :: s, d :: p => c == d && startsWith s p

/-- Whether `sub` occurs in `s`. -/
def containsChars : List Char → List Char → Bool
  | [], sub => startsWith [] sub
  | c :: s, sub => startsWith (c :: s) sub || containsChars s sub

/-- `strings.Contains(s, substr)`. -/
def stringsContains (s substr : String) : Bool := containsChars s.data substr.data

/-- Removes the first occurrence of `old` from `s`. -/
def removeFirst : List Char → List Char → List Char
  | [], _ => []
  | c :: s, old =>
    if startsWith (c :: s) old then (c :: s).drop old.length else c :: removeFirst s old

/-- `strings.Replace(s, old, "", 1)`. -/
def stringsRemoveFirst (s old : String) : String := ⟨removeFirst s.data old.data⟩

/-- Whether the regular expression `transaction \[\d+\] not found` matches at the head
of `s`. -/
def txnNotFoundAt (s : List Char) : Bool :=
  startsWith s "transaction [".data &&
    (match s.drop 13 with
     | [] => false
     | c :: r => c.isDigit && startsWith ((c :: r).dropWhile Char.isDigit) "] not found".data)

/-- `regexp.MustCompile("transaction \[\d+\] not found").MatchString(s)` on the
characters of `s`: the expression matches somewhere. -/
def txnNotFoundMatch : List Char → Bool
  | [] => false
  | c :: s => txnNotFoundAt (c :: s) || txnNotFoundMatch s

/-- `fmt` verb `%x` of a non-negative number: lower-case hexadecimal, no padding. -/
def fmtHex (n : Nat) : String := ⟨Nat.toDigits 16 n⟩

/-- `fmt` verb `%d`. -/
def fmtInt (i : Int) : String := toString i

/-- `func isTxnCommitted(status *tstatus.TStatus) bool`. -/
def isTxnCommitted (status : TStatus) : Bool :=
  status.ErrorMsgs.any (fun errMessage => stringsContains errMessage "is already COMMITTED")

/-- `func isTxnNotFound(status *tstatus.TStatus) bool`. -/
def isTxnNotFound (status : TStatus) : Bool :=
  status.ErrorMsgs.any (fun errMessage =>
    stringsContains errMessage "transaction not found" || txnNotFoundMatch errMessage.data)

/-- `func isTxnAborted(status *tstatus.TStatus) bool`. -/
def isTxnAborted (status : TStatus) : Bool :=
  status.ErrorMsgs.any (fun errMessage => stringsContains errMessage "is already aborted")

/-- `func restoreSnapshotName(snapshotName string) string`, the clock read through the
environment. -/
def restoreSnapshotName (env : Env) (hist : List Event) (snapshotName : String) : String :=
  if snapshotName = "" then "" else snapshotName ++ "_r_" ++ fmtInt (env.Now hist)

/-! ## Full sync -/

/-- A Go `error` result, `none` for `nil`. -/
abbrev Err := Option GoError

/-- What one pass through the switch of a self-recursive method does: it falls out of
the switch into the closing `return j.method()`, or it returns (or panics, or runs out of
fuel) on the spot. -/
inductive Step where
  | recurse (j : Job)
  | done (o : Outcome Err)

/-- The job held by a step. -/
def Step.job : Step → Job
  | .recurse j => j
  | .done o => o.job

/-- `math.MaxInt64`. -/
def MaxInt64 : Int := 9223372036854775807

/-- `func (j *Job) isIncrementalSync() bool`. -/
def isIncrementalSync (j : Job) : Bool :=
  match j.progress.SyncState with
  | .TableIncrementalSync => true
  | .DBIncrementalSync => true
  | .DBTablesIncrementalSync => true
  | _ => false

/-- `func (j *Job) newSnapshot(commitSeq int64) error`; `log.Fatalf` on an unknown sync
type ends the process and is a panic here. -/
def newSnapshot (j : Job) (commitSeq : Int) : Outcome Err :=
  match j.SyncType with
  | .TableSync => .ret none (j.NextWithPersist commitSeq .TableFullSync BeginCreateSnapshot "")
  | .DBSync => .ret none (j.NextWithPersist commitSeq .DBFullSync BeginCreateSnapshot "")
  | .UnknownSync => .panic j

/-- The json-tagged fields of the job. -/
def Job.toJson (j : Job) : JobJson :=
  ⟨j.SyncType, j.Name, j.Src, j.Dest, j.SkipError, j.State⟩

/-- `func (j *Job) persistJob() error`. -/
def persistJob (env : Env) (j : Job) : Err × Job :=
  (env.UpdateJob j.trace j.Name j.toJson, j.log (.UpdateJob j.Name j.toJson))

/-- `func (j *Job) genExtraInfo() (*base.ExtraInfo, error)`. -/
def genExtraInfo (env : Env) (j : Job) : Except GoError ExtraInfo × Job :=
  let j1 := j.log .GetMasterToken
  match env.GetMasterToken j.trace with
  | .error e => (.error e, j1)
  | .ok masterToken =>
    let j2 := j1.log .GetBackends
    match env.GetBackends j1.trace with
    | .error e => (.error e, j2)
    | .ok backends =>
      (.ok ⟨backends.foldl (fun m backend =>
              GoMap.set m backend.Id ⟨backend.Host, backend.HttpPort⟩) [], masterToken⟩, j2)

/-- The `commitSeq` chosen in the `AddExtraInfo` case of `fullSync`:
`math.MaxInt64` lowered to every value of the map for `DBSync`, the map's value at the
source table id (0 when absent) for `TableSync`. -/
def restoreCommitSeq (syncType : SyncType) (tableCommitSeqMap : Option (GoMap Int))
    (srcTableId : Int) : Int :=
  match syncType with
  | .DBSync => (tableCommitSeqMap.getD []).foldl (fun commitSeq e => min commitSeq e.2) MaxInt64
  | .TableSync => (GoMap.lookup (tableCommitSeqMap.getD []) srcTableId).getD 0
  | .UnknownSync => MaxInt64

/-- The polling loop of the `RestoreSnapshot` case: `for { CheckRestoreFinished ... }`. -/
def waitRestoreFinished (env : Env) : Nat → Job → String → Step
  | 0, j, _ => .done (.outOfFuel j)
  | fuel + 1, j, restoreName =>
    let j1 := j.log (.CheckRestoreFinished restoreName)
    match env.CheckRestoreFinished j.trace restoreName with
    | .error e => .done (.ret (some e) j1)
    | .ok true => .recurse (j1.NextSubCheckpoint env PersistRestoreInfo (.str restoreName))
    | .ok false => waitRestoreFinished env fuel j1 restoreName

/-- The loop of the `PersistRestoreInfo` case for `DBSync`: one meta lookup pair per source
table id of `TableCommitSeqMap`. -/
def buildTableMapping (env : Env) : GoMap Int → Job → GoMap Int → Except GoError (GoMap Int) × Job
  | [], j, tableMapping => (.ok tableMapping, j)
  | (srcTableId, _) :: rest, j, tableMapping =>
    let j1 := j.log (.GetTableNameById .Src srcTableId)
    match env.GetTableNameById j.trace .Src srcTableId with
    | .error e => (.error e, j1)
    | .ok srcTableName =>
      let j2 := j1.log (.GetTableId .Dest srcTableName)
      match env.GetTableId j1.trace .Dest srcTableName with
      | .error e => (.error e, j2)
      | .ok destTableId =>
        buildTableMapping env rest j2 (GoMap.set tableMapping srcTableId destTableId)

/-- `case Done:` of the switch of `fullSync`. -/
def fullSyncCaseDone (j : Job) : Step :=
  match newSnapshot j j.progress.CommitSeq with
  | .ret none j1 => .recurse j1
  | o => .done o

/-- `case BeginCreateSnapshot:` of the switch of `fullSync`. -/
def fullSyncCaseBeginCreateSnapshot (env : Env) (j : Job) : Step :=
  let create (j0 : Job) (backupTableList : List String) : Step :=
    let j1 := j0.log (.CreateSnapshotAndWaitForDone backupTableList)
    match env.CreateSnapshotAndWaitForDone j0.trace backupTableList with
    | .error e => .done (.ret (some e) j1)
    | .ok snapshotName => .recurse (j1.NextSubCheckpoint env GetSnapshotInfo (.str snapshotName))
  match j.SyncType with
  | .DBSync =>
    let j1 := j.log (.GetTables .Src)
    match env.GetTables j.trace .Src with
    | .error e => .done (.ret (some e) j1)
    | .ok tables => create j1 (tables.map (fun t => t.2.Name))
  | .TableSync => create j [j.Src.Table]
  | .UnknownSync => .done (.ret (some (Errorf .Normal "invalid sync type")) j)

/-- `case GetSnapshotInfo:` of the switch of `fullSync`. -/
def fullSyncCaseGetSnapshotInfo (env : Env) (j : Job) : Step :=
  let snapshotName := j.progress.PersistData
  let j1 := j.log (.NewFeRpc .Src)
  match env.NewFeRpc j.trace .Src with
  | some e => .done (.ret (some e) j1)
  | none =>
    let j2 := j1.log (.GetSnapshot snapshotName)
    match env.GetSnapshot j1.trace snapshotName with
    | .error e => .done (.ret (some e) j2)
    | .ok snapshotResp =>
      if snapshotResp.Status.StatusCode ≠ .OK then
        .done (.ret (some (Errorf .FE "get snapshot failed")) j2)
      else
        match snapshotResp.JobInfo with
        | none => .done (.ret (some (Errorf .Normal "jobInfo is not set")) j2)
        | some jobInfo =>
          match env.ExtractTableCommitSeqMap jobInfo with
          | .error e => .done (.ret (some e) j2)
          | .ok tableCommitSeqMap =>
            if j.SyncType = .TableSync ∧
                GoMap.lookup (tableCommitSeqMap.getD []) j.Src.TableId = none then
              .done (.ret (some (Errorf .Normal "tableid, commit seq not found")) j2)
            else
              .recurse (j2.NextSubVolatile AddExtraInfo
                (.fullSync ⟨snapshotName, snapshotResp, tableCommitSeqMap⟩))

/-- `case AddExtraInfo:` of the switch of `fullSync`.  The assignment
`jobInfoMap["extra_info"] = extraInfo` panics when `json.Unmarshal` has left the map nil
(the job info is `null`). -/
def fullSyncCaseAddExtraInfo (env : Env) (j : Job) : Step :=
  match j.progress.InMemoryData with
  | .fullSync inMemoryData =>
    let snapshotResp := inMemoryData.SnapshotResp
    let jobInfo := snapshotResp.JobInfo.getD ""
    let tableCommitSeqMap := inMemoryData.TableCommitSeqMap
    match env.UnmarshalJobInfo jobInfo with
    | .error err => .done (.ret (some (Wrap err .Normal)) j)
    | .ok decodedJobInfo =>
      match genExtraInfo env j with
      | (.error e, j1) => .done (.ret (some e) j1)
      | (.ok extraInfo, j1) =>
        match decodedJobInfo with
        | none => .done (.panic j1)
        | some jobInfoMap =>
          match env.MarshalJobInfo { jobInfoMap with ExtraInfo := some extraInfo } with
          | .error _ => .done (.ret (some (Errorf .Normal "marshal jobInfo failed")) j1)
          | .ok jobInfoBytes =>
            let inMemoryData1 : FullSyncData :=
              { inMemoryData with
                SnapshotResp := { snapshotResp with JobInfo := some jobInfoBytes } }
            let commitSeq := restoreCommitSeq j.SyncType tableCommitSeqMap j.Src.TableId
            let j2 : Job :=
              match j.SyncType with
              | .DBSync =>
                { j1 with progress := { j1.progress with TableCommitSeqMap := tableCommitSeqMap } }
              | _ => j1
            .recurse (j2.CommitNextSubWithPersist env commitSeq RestoreSnapshot
              (.fullSync inMemoryData1))
  | _ => .done (.panic j)

/-- `case RestoreSnapshot:` of the switch of `fullSync`; `fuel` bounds the polling loop. -/
def fullSyncCaseRestoreSnapshot (env : Env) (fuel : Nat) (j : Job) : Step :=
  let decoded : Except GoError Job :=
    if j.progress.InMemoryData = .null then
      match env.Json.UnmarshalFullSync j.progress.PersistData with
      | none => .error (Errorf .Normal "unmarshal persistData failed")
      | some d => .ok { j with progress := { j.progress with InMemoryData := .fullSync d } }
    else .ok j
  match decoded with
  | .error e => .done (.ret (some e) j)
  | .ok j0 =>
    match j0.progress.InMemoryData with
    | .fullSync inMemoryData =>
      let snapshotName := inMemoryData.SnapshotName
      let restoreName := restoreSnapshotName env j0.trace snapshotName
      let snapshotResp := inMemoryData.SnapshotResp
      let j1 := j0.log (.NewFeRpc .Dest)
      match env.NewFeRpc j0.trace .Dest with
      | some e => .done (.ret (some e) j1)
      | none =>
        let tableRefs : List TTableRef :=
          if j.SyncType = .TableSync ∧ j.Src.Table ≠ j.Dest.Table then
            [⟨j.Src.Table, j.Dest.Table⟩]
          else []
        let j2 := j1.log (.RestoreSnapshot tableRefs restoreName snapshotResp)
        match env.RestoreSnapshot j1.trace tableRefs restoreName snapshotResp with
        | .error e => .done (.ret (some e) j2)
        | .ok status =>
          if status.StatusCode ≠ .OK then
            .done (.ret (some (Errorf .Normal "restore snapshot failed")) j2)
          else waitRestoreFinished env fuel j2 restoreName
    | _ => .done (.panic j0)

/-- `case PersistRestoreInfo:` of the switch of `fullSync`. -/
def fullSyncCasePersistRestoreInfo (env : Env) (j : Job) : Step :=
  match j.SyncType with
  | .DBSync =>
    match buildTableMapping env (j.progress.TableCommitSeqMap.getD []) j [] with
    | (.error e, j1) => .done (.ret (some e) j1)
    | (.ok tableMapping, j1) =>
      let j2 : Job := { j1 with progress := { j1.progress with TableMapping := some tableMapping } }
      .done (.ret none (j2.NextWithPersist j2.progress.CommitSeq .DBTablesIncrementalSync Done ""))
  | .TableSync =>
    let j1 := j.log (.UpdateTable j.Dest.Table 0)
    match env.UpdateTable j.trace j.Dest.Table 0 with
    | .error e => .done (.ret (some e) j1)
    | .ok destTable =>
      let j2 : Job := { j1 with Dest := { j1.Dest with TableId := destTable.Id } }
      match persistJob env j2 with
      | (some e, j3) => .done (.ret (some e) j3)
      | (none, j3) =>
        let j4 : Job :=
          { j3 with progress := { j3.progress with TableCommitSeqMap := none, TableMapping := none } }
        .done (.ret none (j4.NextWithPersist j4.progress.CommitSeq .TableIncrementalSync Done ""))
  | .UnknownSync => .done (.ret (some (Errorf .Normal "invalid sync type")) j)

/-- One pass through the switch of `func (j *Job) fullSync() error`; `fuel` bounds the
polling loop of the `RestoreSnapshot` case. -/
def fullSyncStep (env : Env) (fuel : Nat) (j : Job) : Step :=
  if j.progress.SubSyncState = Done then fullSyncCaseDone j
  else if j.progress.SubSyncState = BeginCreateSnapshot then fullSyncCaseBeginCreateSnapshot env j
  else if j.progress.SubSyncState = GetSnapshotInfo then fullSyncCaseGetSnapshotInfo env j
  else if j.progress.SubSyncState = AddExtraInfo then fullSyncCaseAddExtraInfo env j
  else if j.progress.SubSyncState = RestoreSnapshot then fullSyncCaseRestoreSnapshot env fuel j
  else if j.progress.SubSyncState = PersistRestoreInfo then fullSyncCasePersistRestoreInfo env j
  else
    .done (.ret (some (Errorf .Normal "invalid job sub sync state")) j)

/-- `func (j *Job) fullSync() error`: passes through the switch until one returns; `fuel`
bounds the number of passes and the polling loop of each. -/
def fullSync (env : Env) : Nat → Job → Outcome Err
  | 0, j => .outOfFuel j
  | fuel + 1, j =>
    match fullSyncStep env fuel j with
    | .recurse j1 => fullSync env fuel j1
    | .done o => o

/-! ## Upsert -/

/-- `func (j *Job) newLabel(commitSeq int64) string`, the random number read through the
environment. -/
def newLabel (env : Env) (j : Job) (commitSeq : Int) : String :=
  let randNum := env.RandIntn j.trace % 65536
  if j.SyncType = .DBSync then
    "ccrj-" ++ fmtHex randNum ++ ":" ++ j.SyncType.String ++ ":" ++ fmtInt j.Src.DbId ++ ":" ++
      fmtInt j.Dest.DbId ++ ":" ++ fmtInt commitSeq
  else
    "ccrj-" ++ fmtHex randNum ++ ":" ++ j.SyncType.String ++ ":" ++ fmtInt j.Src.DbId ++ "_" ++
      fmtInt j.Src.TableId ++ ":" ++ fmtInt j.Dest.DbId ++ "_" ++ fmtInt j.Dest.TableId ++ ":" ++
      fmtInt commitSeq

/-- `func (j *Job) getDestTableIdBySrc(srcTableId int64) (int64, error)`. -/
def getDestTableIdBySrc (env : Env) (j : Job) (srcTableId : Int) : Except GoError Int × Job :=
  match (match j.progress.TableMapping with
         | some tableMapping => GoMap.lookup tableMapping srcTableId
         | none => none) with
  | some destTableId => (.ok destTableId, j)
  | none =>
    let j0 : Job :=
      match j.progress.TableMapping with
      | some _ => j
      | none => { j with progress := { j.progress with TableMapping := some [] } }
    let j1 := j0.log (.GetTableNameById .Src srcTableId)
    match env.GetTableNameById j0.trace .Src srcTableId with
    | .error e => (.error e, j1)
    | .ok srcTableName =>
      let j2 := j1.log (.GetTableId .Dest srcTableName)
      match env.GetTableId j1.trace .Dest srcTableName with
      | .error e => (.error e, j2)
      | .ok destTableId =>
        (.ok destTableId,
         { j2 with progress := { j2.progress with
             TableMapping := some (GoMap.set (j2.progress.TableMapping.getD []) srcTableId destTableId) } })

/-- The loop of `getDbSyncTableRecords` over `upsert.TableRecords`. -/
def filterTableRecords (commitSeq : Int) (tableCommitSeqMap : Option (GoMap Int)) :
    GoMap TableRecord → List TableRecord
  | [] => []
  | (tableId, tableRecord) :: rest =>
    match tableCommitSeqMap with
    | none => tableRecord :: filterTableRecords commitSeq tableCommitSeqMap rest
    | some m =>
      match GoMap.lookup m tableId with
      | some tableCommitSeq =>
        if commitSeq > tableCommitSeq then
          tableRecord :: filterTableRecords commitSeq tableCommitSeqMap rest
        else filterTableRecords commitSeq tableCommitSeqMap rest
      | none => filterTableRecords commitSeq tableCommitSeqMap rest

/-- `func (j *Job) getDbSyncTableRecords(upsert *record.Upsert) ([]*record.TableRecord, error)`. -/
def getDbSyncTableRecords (j : Job) (upsert : Upsert) : List TableRecord × Err :=
  (filterTableRecords upsert.CommitSeq j.progress.TableCommitSeqMap upsert.TableRecords, none)

/-- `func (j *Job) getReleatedTableRecords(upsert *record.Upsert) ([]*record.TableRecord, error)`. -/
def getReleatedTableRecords (j : Job) (upsert : Upsert) : List TableRecord × Err :=
  match j.SyncType with
  | .DBSync =>
    match getDbSyncTableRecords j upsert with
    | (_, some e) => ([], some e)
    | (records, none) => if records.length = 0 then ([], none) else (records, none)
  | .TableSync =>
    match GoMap.lookup upsert.TableRecords j.Src.TableId with
    | none => ([], some (Errorf .Normal "table record not found"))
    | some tableRecord => ([tableRecord], none)
  | .UnknownSync => ([], some (Errorf .Normal "invalid sync type"))

/-- `func (j *Job) ingestBinlog(txnId int64, tableRecords []*record.TableRecord)`: the
ingest sub-job is created from the transaction id, the table records and the table
mapping, run, and asked for its error and commit infos. -/
def ingestBinlog (env : Env) (j : Job) (txnId : Int) (tableRecords : List TableRecord) :
    Except GoError (List TTabletCommitInfo) × Job :=
  (env.Ingest j.trace txnId tableRecords j.progress.TableMapping,
   j.log (.IngestBinlog txnId tableRecords))

/-- The closure `updateInMemory` of `handleUpsert`. -/
def updateInMemory (env : Env) (j : Job) : Err × Job :=
  if j.progress.InMemoryData = .null then
    match env.Json.UnmarshalUpsert j.progress.PersistData with
    | none => (some (Errorf .Normal "unmarshal persistData failed"), j)
    | some d => (none, { j with progress := { j.progress with InMemoryData := .upsert d } })
  else (none, j)

/-- The closure `rollback` of `handleUpsert`. -/
def rollback (env : Env) (j : Job) (inMemoryData : UpsertData) : Job :=
  j.NextSubCheckpoint env RollbackTransaction (.upsert inMemoryData)

/-- The loop of the closure `committed` over `destTableIds`. -/
def liftTableCommitSeq (commitSeq : Int) : List Int → GoMap Int → GoMap Int
  | [], m => m
  | tableId :: rest, m =>
    match GoMap.lookup m tableId with
    | none => liftTableCommitSeq commitSeq rest m
    | some tableCommitSeq =>
      if tableCommitSeq < commitSeq then
        liftTableCommitSeq commitSeq rest (GoMap.set m tableId commitSeq)
      else liftTableCommitSeq commitSeq rest m

/-- The closure `committed` of `handleUpsert`; the type assertion on `InMemoryData`
panics on anything but the upsert data. -/
def committed (j : Job) : Outcome Unit :=
  match j.progress.InMemoryData with
  | .upsert inMemoryData =>
    let commitSeq := j.progress.CommitSeq
    let destTableIds := inMemoryData.DestTableIds
    if j.SyncType = .DBSync ∧ GoMap.len j.progress.TableCommitSeqMap > 0 then
      let j1 : Job :=
        { j with progress := { j.progress with
            TableCommitSeqMap :=
              some (liftTableCommitSeq commitSeq destTableIds (j.progress.TableCommitSeqMap.getD [])) } }
      .ret () j1.Persist.Done
    else .ret () j.Done
  | _ => .panic j

/-- The statements `committed(); return nil` of `handleUpsert`. -/
def committedReturnNil (j : Job) : Step :=
  match committed j with
  | .ret _ j1 => .done (.ret none j1)
  | .panic j1 => .done (.panic j1)
  | .outOfFuel j1 => .done (.outOfFuel j1)

/-- The loop of the `Done` case of `handleUpsert` for `DBSync`: the destination table id
of every table record. -/
def destTableIdsOf (env : Env) : List TableRecord → Job → List Int → Except GoError (List Int) × Job
  | [], j, destTableIds => (.ok destTableIds, j)
  | tableRecord :: rest, j, destTableIds =>
    match getDestTableIdBySrc env j tableRecord.Id with
    | (.error e, j1) => (.error e, j1)
    | (.ok destTableId, j1) => destTableIdsOf env rest j1 (destTableIds ++ [destTableId])

/-- `case Done:` of the switch of `handleUpsert`. -/
def upsertCaseDone (env : Env) (j : Job) (binlog : Option TBinlog) : Step :=
  match binlog with
  | none => .done (.ret none j)
  | some b =>
    match env.NewUpsertFromJson b.Data with
    | .error e => .done (.ret (some e) j)
    | .ok upsert =>
      let tableRecords := (getReleatedTableRecords j upsert).1
      if tableRecords.length = 0 then .done (.ret none j)
      else
        match (if j.SyncType = .DBSync then destTableIdsOf env tableRecords j []
               else (.ok [j.Dest.TableId], j)) with
        | (.error e, j1) => .done (.ret (some e) j1)
        | (.ok destTableIds, j1) =>
          .recurse (j1.NextSubVolatile BeginTransaction
            (.upsert ⟨upsert.CommitSeq, 0, destTableIds, tableRecords, []⟩))

/-- `case BeginTransaction:` of the switch of `handleUpsert`. -/
def upsertCaseBeginTransaction (env : Env) (j : Job) : Step :=
  match j.progress.InMemoryData with
  | .upsert inMemoryData =>
    let commitSeq := inMemoryData.CommitSeq
    let j1 := j.log (.NewFeRpc .Dest)
    match env.NewFeRpc j.trace .Dest with
    | some e => .done (.ret (some e) j1)
    | none =>
      let label := newLabel env j1 commitSeq
      let j2 := j1.log (.BeginTransaction label inMemoryData.DestTableIds)
      match env.BeginTransaction j1.trace label inMemoryData.DestTableIds with
      | .error e => .done (.ret (some e) j2)
      | .ok beginTxnResp =>
        if beginTxnResp.Status.StatusCode ≠ .OK then
          .done (.ret (some (Errorf .Normal "begin txn failed")) j2)
        else
          .recurse (j2.NextSubCheckpoint env IngestBinlog
            (.upsert { inMemoryData with TxnId := beginTxnResp.TxnId }))
  | _ => .done (.panic j)

/-- `case IngestBinlog:` of the switch of `handleUpsert`. -/
def upsertCaseIngestBinlog (env : Env) (j : Job) : Step :=
  match updateInMemory env j with
  | (some e, j0) => .done (.ret (some e) j0)
  | (none, j0) =>
    match j0.progress.InMemoryData with
    | .upsert inMemoryData =>
      match ingestBinlog env j0 inMemoryData.TxnId inMemoryData.TableRecords with
      | (.error _, j1) => .recurse (rollback env j1 inMemoryData)
      | (.ok commitInfos, j1) =>
        .recurse (j1.NextSubCheckpoint env CommitTransaction
          (.upsert { inMemoryData with CommitInfos := commitInfos }))
    | _ => .done (.panic j0)

/-- `case CommitTransaction:` of the switch of `handleUpsert`. -/
def upsertCaseCommitTransaction (env : Env) (j : Job) : Step :=
  match updateInMemory env j with
  | (some e, j0) => .done (.ret (some e) j0)
  | (none, j0) =>
    match j0.progress.InMemoryData with
    | .upsert inMemoryData =>
      let txnId := inMemoryData.TxnId
      let j1 := j0.log (.NewFeRpc .Dest)
      match env.NewFeRpc j0.trace .Dest with
      | some _ => .recurse (rollback env j1 inMemoryData)
      | none =>
        let j2 := j1.log (.CommitTransaction txnId inMemoryData.CommitInfos)
        match env.CommitTransaction j1.trace txnId inMemoryData.CommitInfos with
        | .error _ => .recurse (rollback env j2 inMemoryData)
        | .ok status =>
          if status.StatusCode = .PUBLISH_TIMEOUT then
            committedReturnNil (j2.log (.WaitTransactionDone txnId))
          else if status.StatusCode ≠ .OK then .recurse (rollback env j2 inMemoryData)
          else committedReturnNil j2
    | _ => .done (.panic j0)

/-- `case RollbackTransaction:` of the switch of `handleUpsert`. -/
def upsertCaseRollbackTransaction (env : Env) (j : Job) : Step :=
  match updateInMemory env j with
  | (some e, j0) => .done (.ret (some e) j0)
  | (none, j0) =>
    match j0.progress.InMemoryData with
    | .upsert inMemoryData =>
      let txnId := inMemoryData.TxnId
      let j1 := j0.log (.NewFeRpc .Dest)
      match env.NewFeRpc j0.trace .Dest with
      | some e => .done (.ret (some e) j1)
      | none =>
        let j2 := j1.log (.RollbackTransaction txnId)
        match env.RollbackTransaction j1.trace txnId with
        | .error e => .done (.ret (some e) j2)
        | .ok status =>
          if status.StatusCode ≠ .OK then
            if isTxnNotFound status then .done (.ret none (j2.Rollback j2.SkipError))
            else if isTxnAborted status then .done (.ret none (j2.Rollback j2.SkipError))
            else if isTxnCommitted status then committedReturnNil j2
            else .done (.ret (some (Errorf .Normal "rollback txn failed")) j2)
          else .done (.ret none (j2.Rollback j2.SkipError))
    | _ => .done (.panic j0)

/-- One pass through the switch of `func (j *Job) handleUpsert(binlog *festruct.TBinlog) error`. -/
def handleUpsertStep (env : Env) (j : Job) (binlog : Option TBinlog) : Step :=
  if j.progress.SubSyncState = Done then upsertCaseDone env j binlog
  else if j.progress.SubSyncState = BeginTransaction then upsertCaseBeginTransaction env j
  else if j.progress.SubSyncState = IngestBinlog then upsertCaseIngestBinlog env j
  else if j.progress.SubSyncState = CommitTransaction then upsertCaseCommitTransaction env j
  else if j.progress.SubSyncState = RollbackTransaction then upsertCaseRollbackTransaction env j
  else
    .done (.ret (some (Errorf .Normal "invalid job sub sync state")) j)

/-- `func (j *Job) handleUpsert(binlog *festruct.TBinlog) error`: passes through the switch
until one returns; `fuel` bounds the number of passes. -/
def handleUpsert (env : Env) : Nat → Job → Option TBinlog → Outcome Err
  | 0, j, _ => .outOfFuel j
  | fuel + 1, j, binlog =>
    match handleUpsertStep env j binlog with
    | .recurse j1 => handleUpsert env fuel j1 binlog
    | .done o => o

/-! ## Binlog handlers -/

/-- The destination table name resolved by `handleAddPartition` and `handleDropPartition`
for a source table id. -/
def destTableNameOf (env : Env) (j : Job) (tableId : Int) : Except GoError String × Job :=
  match j.SyncType with
  | .TableSync => (.ok j.Dest.Table, j)
  | .DBSync =>
    match getDestTableIdBySrc env j tableId with
    | (.error e, j1) => (.error e, j1)
    | (.ok destTableId, j1) =>
      let j2 := j1.log (.GetTableNameById .Dest destTableId)
      match env.GetTableNameById j1.trace .Dest destTableId with
      | .error e => (.error e, j2)
      | .ok destTableName =>
        if destTableName = "" then (.error (Errorf .Normal "tableId not found in destMeta"), j2)
        else (.ok destTableName, j2)
  | .UnknownSync => (.ok "", j)

/-- `func (j *Job) handleAddPartition(binlog *festruct.TBinlog) error`. -/
def handleAddPartition (env : Env) (j : Job) (binlog : TBinlog) : Outcome Err :=
  match env.NewAddPartitionFromJson binlog.Data with
  | .error e => .ret (some e) j
  | .ok addPartition =>
    match destTableNameOf env j addPartition.TableId with
    | (.error e, j1) => .ret (some e) j1
    | (.ok destTableName, j1) =>
      let addPartitionSql := env.AddPartitionGetSql addPartition destTableName
      .ret (env.DbExec j1.trace addPartitionSql) (j1.log (.DbExec addPartitionSql))

/-- `func (j *Job) handleDropPartition(binlog *festruct.TBinlog) error`. -/
def handleDropPartition (env : Env) (j : Job) (binlog : TBinlog) : Outcome Err :=
  match env.NewDropPartitionFromJson binlog.Data with
  | .error e => .ret (some e) j
  | .ok dropPartition =>
    match destTableNameOf env j dropPartition.TableId with
    | (.error e, j1) => .ret (some e) j1
    | (.ok destTableName, j1) =>
      let dropPartitionSql :=
        "ALTER TABLE " ++ j.Dest.Database ++ "." ++ destTableName ++ " " ++ dropPartition.Sql
      .ret (env.Exec j1.trace dropPartitionSql) (j1.log (.Exec dropPartitionSql))

/-- `func (j *Job) handleCreateTable(binlog *festruct.TBinlog) error`. -/
def handleCreateTable (env : Env) (j : Job) (binlog : TBinlog) : Outcome Err :=
  if j.SyncType ≠ .DBSync then .ret (some (Errorf .Normal "invalid sync type")) j
  else
    match env.NewCreateTableFromJson binlog.Data with
    | .error e => .ret (some e) j
    | .ok createTable =>
      let j1 := j.log (.DbExec createTable.Sql)
      match env.DbExec j.trace createTable.Sql with
      | some e => .ret (some e) j1
      | none =>
        let j2 := (j1.log (.GetTables .Src)).log (.GetTables .Dest)
        let j3 := j2.log (.GetTableNameById .Src createTable.TableId)
        match env.GetTableNameById j2.trace .Src createTable.TableId with
        | .error e => .ret (some e) j3
        | .ok srcTableName =>
          let j4 := j3.log (.GetTableId .Dest srcTableName)
          match env.GetTableId j3.trace .Dest srcTableName with
          | .error e => .ret (some e) j4
          | .ok destTableId =>
            let j5 : Job :=
              { j4 with progress := { j4.progress with
                  TableMapping :=
                    some (GoMap.set (j4.progress.TableMapping.getD []) createTable.TableId destTableId) } }
            .ret none j5.Done

/-- `func (j *Job) handleDropTable(binlog *festruct.TBinlog) error`. -/
def handleDropTable (env : Env) (j : Job) (binlog : TBinlog) : Outcome Err :=
  if j.SyncType ≠ .DBSync then .ret (some (Errorf .Normal "invalid sync type")) j
  else
    match env.NewDropTableFromJson binlog.Data with
    | .error e => .ret (some e) j
    | .ok dropTable =>
      let named : Except GoError String × Job :=
        if dropTable.TableName = "" then
          let j1 := j.log .DirtyGetTables
          match GoMap.lookup (env.DirtyGetTables j.trace) dropTable.TableId with
          | none => (.error (Errorf .Normal "table not found"), j1)
          | some srcTable => (.ok srcTable.Name, j1)
        else (.ok dropTable.TableName, j)
      match named with
      | (.error e, j1) => .ret (some e) j1
      | (.ok tableName, j1) =>
        let sql := "DROP TABLE " ++ tableName ++ " FORCE"
        let j2 := j1.log (.DbExec sql)
        match env.DbExec j1.trace sql with
        | some e => .ret (some e) j2
        | none =>
          let j3 := (j2.log (.GetTables .Src)).log (.GetTables .Dest)
          match j3.progress.TableMapping with
          | some tableMapping =>
            let j4 : Job :=
              { j3 with progress := { j3.progress with
                  TableMapping := some (GoMap.delete tableMapping dropTable.TableId) } }
            .ret none j4.Done
          | none => .ret none j3

/-- `func (j *Job) handleDummy(binlog *festruct.TBinlog) error`. -/
def handleDummy (j : Job) (binlog : TBinlog) : Outcome Err :=
  newSnapshot j binlog.GetCommitSeq

/-- The loop of `handleAlterJob`: `DROP TABLE ... FORCE` on the destination until it
succeeds. -/
def dropUntilDone (env : Env) (dropTableSql : String) : Nat → Job → Outcome Unit
  | 0, j => .outOfFuel j
  | fuel + 1, j =>
    let j1 := j.log (.MetaDbExec dropTableSql)
    match env.MetaDbExec j.trace dropTableSql with
    | none => .ret () j1
    | some _ => dropUntilDone env dropTableSql fuel j1

/-- `func (j *Job) handleAlterJob(binlog *festruct.TBinlog) error`; `fuel` bounds the
drop loop. -/
def handleAlterJob (env : Env) (fuel : Nat) (j : Job) (binlog : TBinlog) : Outcome Err :=
  match env.NewAlterJobV2FromJson binlog.Data with
  | .error e => .ret (some e) j
  | .ok alterJob =>
    if alterJob.TableName = "" then .ret (some (Errorf .Normal "invalid alter job")) j
    else if !alterJob.IsFinished then .ret none j
    else
      let dropTableSql :=
        if j.SyncType = .TableSync then "DROP TABLE " ++ j.Dest.Table ++ " FORCE"
        else "DROP TABLE " ++ alterJob.TableName ++ " FORCE"
      match dropUntilDone env dropTableSql fuel j with
      | .ret _ j1 => newSnapshot j1 j1.progress.CommitSeq
      | .panic j1 => .panic j1
      | .outOfFuel j1 => .outOfFuel j1

/-- `func (j *Job) handleLightningSchemaChange(binlog *festruct.TBinlog) error`. -/
def handleLightningSchemaChange (env : Env) (j : Job) (binlog : TBinlog) : Outcome Err :=
  match env.NewModifyTableAddOrDropColumnsFromJson binlog.Data with
  | .error e => .ret (some e) j
  | .ok lightningSchemaChange =>
    let rawSql := lightningSchemaChange.RawSql
    let sql :=
      if stringsContains rawSql ("`default_cluster:" ++ j.Src.Database ++ "`.") then
        stringsRemoveFirst rawSql ("`default_cluster:" ++ j.Src.Database ++ "`.")
      else stringsRemoveFirst rawSql ("`" ++ j.Src.Database ++ "`.")
    .ret (env.DbExec j.trace sql) (j.log (.DbExec sql))

/-- `func (j *Job) handleTruncateTable(binlog *festruct.TBinlog) error`. -/
def handleTruncateTable (env : Env) (j : Job) (binlog : TBinlog) : Outcome Err :=
  match env.NewTruncateTableFromJson binlog.Data with
  | .error e => .ret (some e) j
  | .ok truncateTable =>
    match (match j.SyncType with
           | .DBSync => some truncateTable.TableName
           | .TableSync => some j.Dest.Table
           | .UnknownSync => none) with
    | none => .ret (some (Panicf .Normal "invalid sync type")) j
    | some destTableName =>
      let sql :=
        if truncateTable.RawSql = "" then "TRUNCATE TABLE " ++ destTableName
        else "TRUNCATE TABLE " ++ destTableName ++ " " ++ truncateTable.RawSql
      let j1 := j.log (.DbExec sql)
      match env.DbExec j.trace sql with
      | some e => .ret (some e) j1
      | none =>
        let j2 := j1.log (.GetTableNameById .Src truncateTable.TableId)
        let j3 :=
          match env.GetTableNameById j1.trace .Src truncateTable.TableId with
          | .ok srcTableName => j2.log (.ClearTable .Src j.Src.Database srcTableName)
          | .error _ => j2
        .ret none (j3.log (.ClearTable .Dest j.Dest.Database destTableName))

/-- `func (j *Job) handleBinlog(binlog *festruct.TBinlog) error`; `fuel` bounds the loops
of the handlers. -/
def handleBinlog (env : Env) (fuel : Nat) (j : Job) (binlog : Option TBinlog) : Outcome Err :=
  match binlog with
  | none => .ret (some (Errorf .Normal "invalid binlog")) j
  | some b =>
    if b.CommitSeq = none then .ret (some (Errorf .Normal "invalid binlog")) j
    else
      let j1 := j.StartHandle b.GetCommitSeq
      match b.Type_ with
      | .UPSERT => handleUpsert env fuel j1 binlog
      | .ADD_PARTITION => handleAddPartition env j1 b
      | .CREATE_TABLE => handleCreateTable env j1 b
      | .DROP_PARTITION => handleDropPartition env j1 b
      | .DROP_TABLE => handleDropTable env j1 b
      | .ALTER_JOB => handleAlterJob env fuel j1 b
      | .MODIFY_TABLE_ADD_OR_DROP_COLUMNS => handleLightningSchemaChange env j1 b
      | .DUMMY => handleDummy j1 b
      | .ALTER_DATABASE_PROPERTY => .ret none j1
      | .MODIFY_TABLE_PROPERTY => .ret none j1
      | .BARRIER => .ret none j1
      | .TRUNCATE_TABLE => handleTruncateTable env j1 b
      | .Other _ => .ret (some (Errorf .Normal "unknown binlog type")) j1

/-- The loop of `handleBinlogs` that decides `reachSwitchToDBIncrementalSync`: false at
the first floor above `commitSeq`. -/
def reachSwitchToDBIncrementalSync (commitSeq : Int) : GoMap Int → Bool
  | [] => true
  | (_, tableCommitSeq) :: rest =>
    if tableCommitSeq > commitSeq then false else reachSwitchToDBIncrementalSync commitSeq rest

/-- The body of the loop of `handleBinlogs` after the record has been dispatched without
error: the switch to `DBIncrementalSync`, the update of the progress, and `true` when the
job has left incremental sync (`return nil, true`). -/
def afterHandle (j : Job) (commitSeq : Int) : Bool × Job :=
  let j1 : Job :=
    match j.SyncType, j.progress.TableCommitSeqMap with
    | .DBSync, some tableCommitSeqMap =>
      if reachSwitchToDBIncrementalSync commitSeq tableCommitSeqMap then
        let j0 : Job := { j with progress := { j.progress with TableCommitSeqMap := none } }
        j0.NextWithPersist j0.progress.CommitSeq .DBIncrementalSync Done ""
      else j
    | _, _ => j
  let j2 := if !j1.progress.IsDone then j1.Done else j1
  (!isIncrementalSync j2, j2)

/-- `func (j *Job) handleBinlogs(binlogs []*festruct.TBinlog) (error, bool)`; `fuel` bounds
the loops of the handlers. -/
def handleBinlogs (env : Env) (fuel : Nat) : Job → List (Option TBinlog) → Outcome (Err × Bool)
  | j, [] => .ret (none, false) j
  | j, binlog :: rest =>
    match handleBinlog env fuel j binlog with
    | .ret (some e) j1 => .ret (some e, false) j1
    | .panic j1 => .panic j1
    | .outOfFuel j1 => .outOfFuel j1
    | .ret none j1 =>
      match afterHandle j1 ((binlog.map TBinlog.GetCommitSeq).getD 0) with
      | (true, j2) => .ret (none, true) j2
      | (false, j2) => handleBinlogs env fuel j2 rest

/-! ## Creating a job -/

/-- `type jobContext struct`: the specs and the skip-error flag; the store and the factory
of the context are collaborators of the environment. -/
structure JobContext where
  src : Spec
  dest : Spec
  skipError : Bool
  deriving DecidableEq, Repr

/-- The progress record that stands for `progress: nil` in a job whose progress has not
been loaded yet; no method modelled here reads it before `Run` loads the progress. -/
def nilProgress : JobProgress := ⟨.DBFullSync, Done, 0, "", .null, none, none⟩

/-- `func (j *Job) valid() error`. -/
def valid (env : Env) (j : Job) : Err × Job :=
  let j1 := j.log (.IsJobExist j.Name)
  match env.IsJobExist j.trace j.Name with
  | .error err => (some (Wrap err .Normal), j1)
  | .ok true => (some (Errorf .Normal "job already exist"), j1)
  | .ok false =>
    if j.Name = "" then (some (Errorf .Normal "name is empty"), j1)
    else
      let j2 := j1.log (.SpecValid .Src)
      match env.SpecValid j1.trace .Src with
      | some err => (some (Wrap err .Normal), j2)
      | none =>
        let j3 := j2.log (.SpecValid .Dest)
        match env.SpecValid j2.trace .Dest with
        | some err => (some (Wrap err .Normal), j3)
        | none =>
          if (j.Src.Table = "" ∧ j.Dest.Table ≠ "") ∨ (j.Src.Table ≠ "" ∧ j.Dest.Table = "") then
            (some (Errorf .Normal "src/dest are not both db or table sync"), j3)
          else (none, j3)

/-- `func NewJobFromService(name string, ctx context.Context) (*Job, error)`; `ctx` is
`none` when the context is not a `*jobContext`.  The job literal leaves `SyncType` at its
zero value `DBSync` until it is assigned after `valid`; the stop channel is open. -/
def NewJobFromService (env : Env) (name : String) (ctx : Option JobContext) :
    Except GoError Job :=
  match ctx with
  | none => .error (Errorf .Normal "invalid context type")
  | some jobContext =>
    let job : Job :=
      { SyncType := .DBSync, Name := name, Src := jobContext.src, Dest := jobContext.dest,
        SkipError := jobContext.skipError, State := .JobRunning, progress := nilProgress,
        stopClosed := false, isDeleted := false, trace := [] }
    match valid env job with
    | (some err, _) => .error (Wrap err .Normal)
    | (none, job1) =>
      if job1.Src.Table = "" then .ok { job1 with SyncType := .DBSync }
      else .ok { job1 with SyncType := .TableSync }

/-! ## Incremental sync and the run loop -/

/-- `func (j *Job) recoverIncrementalSync() error`. -/
def recoverIncrementalSync (env : Env) (fuel : Nat) (j : Job) : Outcome Err :=
  match j.progress.SubSyncState.BinlogType with
  | .BinlogUpsert => handleUpsert env fuel j none
  | _ => .ret none (j.Rollback j.SkipError)

/-- The `for` loop of `incrementalSync`: one `GetBinlog` per pass; `fuel` bounds the number
of passes and the loops of the handlers. -/
def incrementalSyncLoop (env : Env) : Nat → Job → Outcome Err
  | 0, j => .outOfFuel j
  | fuel + 1, j =>
    let commitSeq := j.progress.CommitSeq
    let j1 := j.log (.GetBinlog commitSeq)
    match env.GetBinlog j.trace commitSeq with
    | .error err => .ret (some err) j1
    | .ok getBinlogResp =>
      let handle : Outcome Err :=
        if getBinlogResp.Binlogs.length = 0 then
          .ret (some (Errorf .Normal "no binlog, but status code is")) j1
        else
          match handleBinlogs env fuel j1 getBinlogResp.Binlogs with
          | .ret (some err, _) j2 => .ret (some err) j2
          | .ret (none, true) j2 => .ret none j2
          | .ret (none, false) j2 => incrementalSyncLoop env fuel j2
          | .panic j2 => .panic j2
          | .outOfFuel j2 => .outOfFuel j2
      match getBinlogResp.Status.StatusCode with
      | .OK => handle
      | .BINLOG_TOO_OLD_COMMIT_SEQ => handle
      | .BINLOG_TOO_NEW_COMMIT_SEQ => .ret none j1
      | .BINLOG_DISABLE => .ret (some (Errorf .Normal "binlog is disabled")) j1
      | .BINLOG_NOT_FOUND_DB => .ret (some (Errorf .Normal "can't found db")) j1
      | .BINLOG_NOT_FOUND_TABLE => .ret (some (Errorf .Normal "can't found table")) j1
      | _ => .ret (some (Errorf .Normal "invalid binlog status type")) j1

/-- `func (j *Job) incrementalSync() error`. -/
def incrementalSync (env : Env) (fuel : Nat) (j : Job) : Outcome Err :=
  if !j.progress.IsDone then recoverIncrementalSync env fuel j
  else
    let j1 := j.log (.NewFeRpc .Src)
    match env.NewFeRpc j.trace .Src with
    | some err => .ret (some err) j1
    | none => incrementalSyncLoop env fuel j1

/-- `func (j *Job) tableSync() error`. -/
def tableSync (env : Env) (fuel : Nat) (j : Job) : Outcome Err :=
  match j.progress.SyncState with
  | .TableFullSync => fullSync env fuel j
  | .TableIncrementalSync => incrementalSync env fuel j
  | _ => .ret (some (Errorf .Normal "unknown sync state")) j

/-- `func (j *Job) dbSync() error`, with `dbTablesIncrementalSync` and
`dbSpecificTableFullSync` written in place. -/
def dbSync (env : Env) (fuel : Nat) (j : Job) : Outcome Err :=
  match j.progress.SyncState with
  | .DBFullSync => fullSync env fuel j
  | .DBTablesIncrementalSync => incrementalSync env fuel j
  | .DBSpecificTableFullSync => .ret none j
  | .DBIncrementalSync => incrementalSync env fuel j
  | _ => .ret (some (Errorf .Normal "unknown db sync state")) j

/-- `func (j *Job) sync() error`. -/
def sync (env : Env) (fuel : Nat) (j : Job) : Outcome Err :=
  match j.SyncType with
  | .TableSync => tableSync env fuel j
  | .DBSync => dbSync env fuel j
  | .UnknownSync => .ret (some (Errorf .Normal "unknown table sync type")) j

/-- `func (j *Job) handleError(err error) error`: `errors.As` finds an `XError` exactly in
the errors built by `xerror`; the result of `newSnapshot` is dropped (its `log.Fatalf` is
not); the metrics counter is not modelled. -/
def handleError (j : Job) (err : GoError) : Outcome Err :=
  match err with
  | .other _ => .ret none j
  | .xerror xerr =>
    if xerr.IsPanic then .ret (some err) j
    else if xerr.Category = .Meta then
      match newSnapshot j j.progress.CommitSeq with
      | .ret _ j1 => .ret none j1
      | .panic j1 => .panic j1
      | .outOfFuel j1 => .outOfFuel j1
    else .ret none j

/-- `func (j *Job) maybeDeleted() bool`; the error of `RemoveJob` is only logged. -/
def maybeDeleted (j : Job) : Bool × Job :=
  if !j.isDeleted then (false, j) else (true, j.log (.RemoveJob j.Name))

/-- `func (j *Job) getJobState() JobState`. -/
def getJobState (j : Job) : JobState := j.State

/-- What the `select` of `run` receives: the stop channel or a tick of the ticker. -/
inductive Wake where
  | stop
  | tick
  deriving DecidableEq, Repr

/-- The body of `case <-ticker.C:` in `run`, from the local variable `panicError` to its
new value. -/
def runTick (env : Env) (fuel : Nat) (j : Job) (panicError : Err) : Outcome Err :=
  if getJobState j ≠ .JobRunning then .ret panicError j
  else if panicError ≠ none then .ret panicError j
  else
    match sync env fuel j with
    | .ret none j1 => .ret panicError j1
    | .ret (some err) j1 => handleError j1 err
    | .panic j1 => .panic j1
    | .outOfFuel j1 => .outOfFuel j1

/-- `func (j *Job) run()`: the loop over the wake-ups the `select` receives, started with
the value of `panicError`.  The result holds `panicError` and whether `run` has returned
(the job is deleted or stopped) before the wake-ups ran out; `fuel` bounds each `sync`. -/
def run (env : Env) (fuel : Nat) : Job → Err → List Wake → Outcome (Err × Bool)
  | j, panicError, [] => .ret (panicError, false) j
  | j, panicError, wake :: wakes =>
    match maybeDeleted j with
    | (true, j1) => .ret (panicError, true) j1
    | (false, j1) =>
      match wake with
      | .stop => .ret (panicError, true) j1
      | .tick =>
        match runTick env fuel j1 panicError with
        | .ret panicError1 j2 => run env fuel j2 panicError1 wakes
        | .panic j2 => .panic j2
        | .outOfFuel j2 => .outOfFuel j2

/-! ## Operations on a running job -/

/-- `func (j *Job) UpdateSkipError(skipError bool) error`. -/
def UpdateSkipError (env : Env) (j : Job) (skipError : Bool) : Err × Job :=
  let originSkipError := j.SkipError
  if originSkipError = skipError then (none, j)
  else
    let j1 : Job := { j with SkipError := skipError }
    match persistJob env j1 with
    | (some err, j2) => (some err, { j2 with SkipError := originSkipError })
    | (none, j2) => (none, j2)

/-- `func (j *Job) changeJobState(state JobState) error`. -/
def changeJobState (env : Env) (j : Job) (state : JobState) : Err × Job :=
  if j.State = state then (none, j)
  else
    let originState := j.State
    let j1 : Job := { j with State := state }
    match persistJob env j1 with
    | (some err, j2) => (some err, { j2 with State := originState })
    | (none, j2) => (none, j2)

/-- `func (j *Job) Pause() error`. -/
def Pause (env : Env) (j : Job) : Err × Job := changeJobState env j .JobPaused

/-- `func (j *Job) Resume() error`. -/
def Resume (env : Env) (j : Job) : Err × Job := changeJobState env j .JobRunning

/-- `func (j *Job) Stop()`: `close(j.stop)`; closing a closed channel panics. -/
def Stop (j : Job) : Outcome Unit :=
  if j.stopClosed then .panic j else .ret () { j with stopClosed := true }

/-- `func (j *Job) Delete()`: `j.isDeleted.Store(true)`, then `close(j.stop)`; closing a
closed channel panics. -/
def Delete (j : Job) : Outcome Unit :=
  let j1 : Job := { j with isDeleted := true }
  if j1.stopClosed then .panic j1 else .ret () { j1 with stopClosed := true }

/-! ## The package `xerror` as its test reads it -/

/-- Modelled from the spec: `errors.As(err, &xerr)` with `xerr` a `*xerror.XError` (the
package `pkg/xerror` is not among the sources, `xerror_test.go` is): the XError carried by
an error built by `xerror`, nothing for nil or an error of another library. -/
def errorsAs : Option GoError → Option XError
  | some (.xerror e) => some e
  | _ => none

/-- Modelled from the spec: `xerror.Wrap(err, category, message)` of `pkg/xerror` (not among
the sources) with its message argument: `xerror_test.go` reads the category and, as the
message of the inner `Err`, the message of `err`; the wrap message is not part of either. -/
def xerrorWrap (err : GoError) (c : ErrType) (_message : String) : GoError := Wrap err c

/-- Modelled from the spec: `xerror.Wrapf(err, category, format, args...)` of `pkg/xerror`
(not among the sources), as `xerror_test.go` reads it: the category and the inner `Err` are
those of `xerror.Wrap`; the message formatted from `format` and `args` is not part of
either. -/
def xerrorWrapf (err : GoError) (c : ErrType) (_format : String) (_args : List String) :
    GoError :=
  Wrap err c

/-! ## Notions used to state the properties -/

/-- The events a call appended: `new` are the events of `j1` after those of `j`. -/
def Extends (j j1 : Job) (new : List Event) : Prop := j1.trace = j.trace ++ new

/-- The job with the upsert in-memory data `d` in place. -/
def Job.withUpsert (j : Job) (d : UpsertData) : Job :=
  { j with progress := { j.progress with InMemoryData := .upsert d } }

/-- The in-flight upsert data of a job is `d`: held in memory, or absent from memory and
decoded from `PersistData`. -/
def InFlight (env : Env) (j : Job) (d : UpsertData) : Prop :=
  j.progress.InMemoryData = .upsert d ∨
  (j.progress.InMemoryData = .null ∧ env.Json.UnmarshalUpsert j.progress.PersistData = some d)

/-- The upsert machine is past `BeginTransaction`: the sub-state is `IngestBinlog`,
`CommitTransaction` or `RollbackTransaction`. -/
def PastBegin (j : Job) : Prop :=
  j.progress.SubSyncState = IngestBinlog ∨ j.progress.SubSyncState = CommitTransaction ∨
    j.progress.SubSyncState = RollbackTransaction

/-- No `BeginTransaction` RPC among the events. -/
def NoBeginTransaction (new : List Event) : Prop :=
  ∀ label ids, Event.BeginTransaction label ids ∉ new

/-! ## Concrete environments and jobs -/

/-- An environment all of whose collaborators succeed: transaction id 7, snapshot
`snap_1` whose job info holds the table commit seq map `{100: 500}`, destination table
id 200, a restore that is finished at the first poll. -/
def envOk : Env where
  NewFeRpc := fun _ _ => none
  GetBinlog := fun _ _ => .ok ⟨⟨.OK, []⟩, []⟩
  GetSnapshot := fun _ _ => .ok ⟨⟨.OK, []⟩, some "job_info"⟩
  RestoreSnapshot := fun _ _ _ _ => .ok ⟨.OK, []⟩
  BeginTransaction := fun _ _ _ => .ok ⟨⟨.OK, []⟩, 7, 1⟩
  CommitTransaction := fun _ _ _ => .ok ⟨.OK, []⟩
  RollbackTransaction := fun _ _ => .ok ⟨.OK, []⟩
  CreateSnapshotAndWaitForDone := fun _ _ => .ok "snap_1"
  CheckRestoreFinished := fun _ _ => .ok true
  DbExec := fun _ _ => none
  Exec := fun _ _ => none
  MetaDbExec := fun _ _ => none
  SpecValid := fun _ _ => none
  GetTables := fun _ _ => .ok []
  DirtyGetTables := fun _ => []
  GetTableNameById := fun _ _ _ => .ok "t"
  GetTableId := fun _ _ _ => .ok 200
  UpdateTable := fun _ name _ => .ok ⟨200, name⟩
  GetMasterToken := fun _ => .ok "token"
  GetBackends := fun _ => .ok []
  IsJobExist := fun _ _ => .ok false
  UpdateJob := fun _ _ _ => none
  Ingest := fun _ _ _ _ => .ok []
  RandIntn := fun _ => 0
  Now := fun _ => 0
  Json := ⟨fun _ => "", fun _ => none, fun _ => "", fun _ => none⟩
  UnmarshalJobInfo := fun s => .ok (some ⟨s, none⟩)
  MarshalJobInfo := fun m => .ok m.Rest
  ExtractTableCommitSeqMap := fun _ => .ok (some [(100, 500)])
  NewUpsertFromJson := fun _ => .error (.other "not an upsert")
  NewAddPartitionFromJson := fun _ => .error (.other "not an add partition")
  AddPartitionGetSql := fun a t => "ALTER TABLE " ++ t ++ " " ++ a.Sql
  NewDropPartitionFromJson := fun _ => .error (.other "not a drop partition")
  NewCreateTableFromJson := fun _ => .error (.other "not a create table")
  NewDropTableFromJson := fun _ => .error (.other "not a drop table")
  NewAlterJobV2FromJson := fun _ => .error (.other "not an alter job")
  NewModifyTableAddOrDropColumnsFromJson := fun _ => .error (.other "not a schema change")
  NewTruncateTableFromJson := fun _ => .error (.other "not a truncate table")

/-- A progress record at `CommitSeq` 0 with no maps and nothing in memory. -/
def progress0 (major : SyncState) (sub : SubSyncState) : JobProgress :=
  ⟨major, sub, 0, "", .null, none, none⟩

/-- A `DBSync` job `db1 -> db2` with the given progress. -/
def dbJob (p : JobProgress) : Job :=
  ⟨.DBSync, "job", ⟨"db1", "", 10, 0⟩, ⟨"db2", "", 20, 0⟩, false, .JobRunning, p, false, false, []⟩

/-- A `TableSync` job `db1.T -> db2.T`, source table id 100, with the given progress. -/
def tableJob (p : JobProgress) : Job :=
  ⟨.TableSync, "job", ⟨"db1", "T", 10, 100⟩, ⟨"db2", "T", 20, 0⟩, false, .JobRunning, p, false,
    false, []⟩

/-- A binlog record of the given type and commit seq with an empty payload. -/
def binlogOf (t : TBinlogType) (commitSeq : Int) : TBinlog := ⟨some commitSeq, t, ""⟩

/-- An upsert of the given commit seq touching one source table. -/
def upsertOf (commitSeq tableId : Int) : Upsert := ⟨commitSeq, [(tableId, ⟨tableId, []⟩)]⟩

/-- Scenario 2 of the spec (section 8): every collaborator succeeds and the four payloads
decode to upserts 85 (table 2), 100 (table 1), 125 (table 1), 130 (table 2). -/
def envScenario : Env :=
  { envOk with
    NewUpsertFromJson := fun data =>
      if data = "85" then .ok (upsertOf 85 2)
      else if data = "100" then .ok (upsertOf 100 1)
      else if data = "125" then .ok (upsertOf 125 1)
      else if data = "130" then .ok (upsertOf 130 2)
      else .error (.other "not an upsert") }

/-- Scenario 2 of the spec: the job after restore, `DBTablesIncrementalSync` / `Done` at
`CommitSeq` 80 with `TableCommitSeqMap = {1: 120, 2: 80}` and `TableMapping = {1: 11, 2: 22}`. -/
def scenarioJob : Job :=
  dbJob ⟨.DBTablesIncrementalSync, Done, 80, "", .null, some [(1, 120), (2, 80)],
    some [(1, 11), (2, 22)]⟩

/-- Scenario 2 of the spec: the four upsert records of the binlog stream. -/
def scenarioBinlogs : List (Option TBinlog) :=
  [some ⟨some 85, .UPSERT, "85"⟩, some ⟨some 100, .UPSERT, "100"⟩,
   some ⟨some 125, .UPSERT, "125"⟩, some ⟨some 130, .UPSERT, "130"⟩]

/-- The `n`-th record of `binlogs` is the first one after which `handleBinlogs` leaves the
major state `DBIncrementalSync`: the first `n` records are handled without error and end
there, and no shorter run of records does. -/
abbrev firstInDBIncrementalSyncAfter (env : Env) (fuel : Nat) (j : Job)
    (binlogs : List (Option TBinlog)) (n : Nat) : Prop :=
  (handleBinlogs env fuel j (binlogs.take n)).value? = some (none, false) ∧
  (handleBinlogs env fuel j (binlogs.take n)).job.progress.SyncState = .DBIncrementalSync ∧
  ∀ k, k < n →
    (handleBinlogs env fuel j (binlogs.take k)).job.progress.SyncState ≠ .DBIncrementalSync

/-- In-flight upsert data: commit seq 700, transaction 7, destination table 200. -/
def upsertData7 : UpsertData := ⟨700, 7, [200], [⟨100, []⟩], [⟨1, 2⟩]⟩

/-- `envOk` with a JSON codec that writes `upsertData7` as `txn7` and reads it back. -/
def envCodec : Env :=
  { envOk with
    Json := ⟨fun _ => "", fun _ => none, fun _ => "txn7",
      fun s => if s = "txn7" then some upsertData7 else none⟩ }

/-- A `TableSync` job as reloaded after a crash at the given upsert sub-state: `CommitSeq`
700, `PersistData` the serialization of `upsertData7`, nothing in memory. -/
def crashedJob (sub : SubSyncState) : Job :=
  tableJob ⟨.TableIncrementalSync, sub, 700, "txn7", .null, none, none⟩

/-- No `RollbackTransaction` RPC among the events. -/
def NoRollbackTransaction (new : List Event) : Prop :=
  ∀ txnId, Event.RollbackTransaction txnId ∉ new

/-- Whether the event is a `CommitTransaction` RPC. -/
def Event.isCommitTransaction : Event → Bool
  | .CommitTransaction _ _ => true
  | _ => false

/-- `envCodec` whose `CommitTransaction` answers with a status that is neither `OK` nor
`PUBLISH_TIMEOUT`, and whose factory hands out an RPC client until the commit has been
tried and fails afterwards. -/
def envCommitRefused : Env :=
  { envCodec with
    CommitTransaction := fun _ _ _ => .ok ⟨.Other 1, ["commit refused"]⟩
    NewFeRpc := fun hist _ =>
      if hist.any Event.isCommitTransaction then some (.other "no frontend") else none }

/-- `envCodec` whose `CommitTransaction` answers `PUBLISH_TIMEOUT` (scenario 3 of the spec). -/
def envPublishTimeout : Env :=
  { envCodec with CommitTransaction := fun _ _ _ => .ok ⟨.PUBLISH_TIMEOUT, []⟩ }

/-- No call of `progress.Rollback` among the events. -/
def NoProgressRollback (new : List Event) : Prop :=
  ∀ skipError, Event.progress (.Rollback skipError) ∉ new

/-- `envCodec` whose `RollbackTransaction` answers a non-OK status with two messages, one
saying the transaction is already aborted and one saying it is already committed. -/
def envRollbackBoth : Env :=
  { envCodec with
    RollbackTransaction := fun _ _ =>
      .ok ⟨.Other 1, ["transaction [7] is already aborted", "transaction [7] is already COMMITTED"]⟩ }

/-- `envCodec` whose `RollbackTransaction` answers a non-OK status saying the transaction
is already committed. -/
def envRollbackCommitted : Env :=
  { envCodec with
    RollbackTransaction := fun _ _ => .ok ⟨.Other 1, ["transaction [7] is already COMMITTED"]⟩ }

/-- In-memory data of `fullSync` after `GetSnapshotInfo`: snapshot `snap_1` with the given
table commit seq map. -/
def snapshotData (m : GoMap Int) : FullSyncData :=
  ⟨"snap_1", ⟨⟨.OK, []⟩, some "job_info"⟩, some m⟩

/-- A `DBSync` job that has reached `CommitSeq` 500 and is re-bootstrapping: it stands at
`DBFullSync` / `AddExtraInfo` with a snapshot whose tables were last written at commit seqs
120 and 80. -/
def rebootstrapJob : Job :=
  dbJob ⟨.DBFullSync, AddExtraInfo, 500, "snap_1", .fullSync (snapshotData [(1, 120), (2, 80)]),
    none, none⟩

/-- A `TableSync` job in its first full sync at `AddExtraInfo`: `CommitSeq` 0 and a snapshot
holding `{100: 500}`. -/
def firstSyncJob : Job :=
  tableJob ⟨.TableFullSync, AddExtraInfo, 0, "snap_1", .fullSync (snapshotData [(100, 500)]),
    none, none⟩

/-- `envOk` whose snapshot holds two tables last written at commit seqs 120 and 80. -/
def envTwoTables : Env :=
  { envOk with ExtractTableCommitSeqMap := fun _ => .ok (some [(1, 120), (2, 80)]) }

/-- Source table names of the restore scenario: table 1 is `t1`, every other table `t2`. -/
def scenarioNameOf (srcTableId : Int) : String := if srcTableId = 1 then "t1" else "t2"

/-- Destination table ids of the restore scenario: `t1` is 11, every other table 22. -/
def scenarioDestIdOf (tableName : String) : Int := if tableName = "t1" then 11 else 22

/-- The environment `envOk` with the meta data of the restore scenario. -/
def envMeta : Env :=
  { envOk with
    GetTableNameById := fun _ _ id => .ok (scenarioNameOf id)
    GetTableId := fun _ _ name => .ok (scenarioDestIdOf name) }

/-- A `DBSync` job at `DBFullSync` / `PersistRestoreInfo`, `CommitSeq` 80, restored from a
snapshot with `TableCommitSeqMap = {1: 120, 2: 80}`. -/
def restoredJob : Job :=
  dbJob ⟨.DBFullSync, PersistRestoreInfo, 80, "snap_1_r_0", .str "snap_1_r_0",
    some [(1, 120), (2, 80)], none⟩

/-- The environment `envOk` whose source answers every `GetBinlog` with status
`BINLOG_TOO_NEW_COMMIT_SEQ` and one upsert record of commit seq 5. -/
def envTooNew : Env :=
  { envOk with
    GetBinlog := fun _ _ => .ok ⟨⟨.BINLOG_TOO_NEW_COMMIT_SEQ, []⟩, [some (binlogOf .UPSERT 5)]⟩ }

/-- The commit seqs of the `GetBinlog` calls of a trace, in the order of the calls. -/
def getBinlogCalls (trace : List Event) : List Int :=
  trace.filterMap (fun e => match e with
    | .GetBinlog commitSeq => some commitSeq
    | _ => none)

/-- A `TableSync` job that crashed in the middle of a DDL record: `TableIncrementalSync` with
a sub-state that is not `Done` and is not tagged as an upsert, `CommitSeq` 0. -/
def midDdlJob : Job :=
  tableJob (progress0 .TableIncrementalSync ⟨.BeginTransaction, .BinlogOther⟩)

/-- The list `r` is `s` with the first occurrence of `old` removed: `s` is `pre ++ old ++ post`
with no occurrence of `old` starting before the end of `pre`, and `r` is `pre ++ post`. -/
def RemovedFirstOccurrence (s old r : List Char) : Prop :=
  ∃ pre post, s = pre ++ old ++ post ∧ r = pre ++ post ∧
    ∀ pre1 post1, s = pre1 ++ old ++ post1 → pre.length ≤ pre1.length

/-- The environment `envOk` whose schema-change decoder takes the payload as the raw SQL and
whose alter-job decoder reads a finished alter job of the table named by the payload. -/
def envDdl : Env :=
  { envOk with
    NewModifyTableAddOrDropColumnsFromJson := fun data => .ok ⟨data⟩
    NewAlterJobV2FromJson := fun data => .ok ⟨data, true⟩ }

/-- A `DBSync` job `ccr -> ccr` at `DBIncrementalSync` / `Done`, `CommitSeq` 0. -/
def ccrJob : Job :=
  { dbJob (progress0 .DBIncrementalSync Done) with
    Src := ⟨"ccr", "", 10, 0⟩, Dest := ⟨"ccr", "", 20, 0⟩ }

/-- A `DBSync` job that has reached `CommitSeq` 500 and stands at `DBFullSync` /
`AddExtraInfo` with a snapshot that holds no table. -/
def emptySnapshotJob : Job :=
  dbJob ⟨.DBFullSync, AddExtraInfo, 500, "snap_1", .fullSync (snapshotData []), none, none⟩

/-- The number of `CheckRestoreFinished` polls in a trace. -/
def restorePolls (trace : List Event) : Nat :=
  trace.countP (fun e => match e with
    | .CheckRestoreFinished _ => true
    | _ => false)

/-- The calls of a `TableSync` full sync from `BeginCreateSnapshot` up to the persisted
restore baseline `c`: the snapshot, its info, the extra info, and the progress calls between
them. -/
def fullSyncCallsBeforeRestore (j : Job) (snapshotName : String) (c : Int) : List Event :=
  [.CreateSnapshotAndWaitForDone [j.Src.Table], .progress (.NextSubCheckpoint GetSnapshotInfo),
   .NewFeRpc .Src, .GetSnapshot snapshotName, .progress (.NextSubVolatile AddExtraInfo),
   .GetMasterToken, .GetBackends, .progress (.CommitNextSubWithPersist c RestoreSnapshot)]

/-- The environment `envOk` whose restore is reported unfinished at the first poll and
finished from the second poll on. -/
def envSlowRestore : Env :=
  { envOk with CheckRestoreFinished := fun hist _ => .ok (decide (1 ≤ restorePolls hist)) }

/-! ## Lemmas on Go maps -/

theorem GoMap.lookup_set {β : Type} (m : GoMap β) (k x : Int) (b : β) :
    GoMap.lookup (GoMap.set m k b) x = if k = x then some b else GoMap.lookup m x := by
  induction m with
  | nil => simp [GoMap.set, GoMap.lookup]
  | cons e m ih =>
    obtain ⟨k0, v0⟩ := e
    by_cases h : k0 = k
    · subst h
      by_cases hx : k0 = x <;> simp [GoMap.set, GoMap.lookup, hx]
    · by_cases hx : k0 = x
      · subst hx
        have : ¬ k = k0 := fun h2 => h h2.symm
        simp [GoMap.set, GoMap.lookup, h, this]
      · simp [GoMap.set, GoMap.lookup, h, hx, ih]

theorem GoMap.keys_set_of_lookup {β : Type} (m : GoMap β) (k : Int) (v b : β)
    (h : GoMap.lookup m k = some v) :
    (GoMap.set m k b).map Prod.fst = m.map Prod.fst := by
  induction m with
  | nil => simp [GoMap.lookup] at h
  | cons e m ih =>
    obtain ⟨k0, v0⟩ := e
    by_cases hk : k0 = k
    · simp [GoMap.set, hk]
    · simp [GoMap.lookup, hk] at h
      simp [GoMap.set, hk, ih h]

/-! ## Frame lemmas of the progress calls -/

@[simp] theorem Outcome.job_ret {α : Type} (a : α) (j : Job) : (Outcome.ret a j).job = j := rfl
@[simp] theorem Outcome.job_panic {α : Type} (j : Job) : (Outcome.panic j : Outcome α).job = j :=
  rfl
@[simp] theorem Outcome.job_outOfFuel {α : Type} (j : Job) :
    (Outcome.outOfFuel j : Outcome α).job = j := rfl
@[simp] theorem Outcome.value_ret {α : Type} (a : α) (j : Job) :
    (Outcome.ret a j).value? = some a := rfl
@[simp] theorem Step.job_done (o : Outcome Err) : (Step.done o).job = o.job := rfl
@[simp] theorem Step.job_recurse (j : Job) : (Step.recurse j).job = j := rfl

@[simp] theorem Job.log_progress (j : Job) (e : Event) : (j.log e).progress = j.progress := rfl
@[simp] theorem Job.log_trace (j : Job) (e : Event) : (j.log e).trace = j.trace ++ [e] := rfl
@[simp] theorem Job.log_SyncType (j : Job) (e : Event) : (j.log e).SyncType = j.SyncType := rfl
@[simp] theorem Job.log_SkipError (j : Job) (e : Event) : (j.log e).SkipError = j.SkipError := rfl
@[simp] theorem Job.log_Src (j : Job) (e : Event) : (j.log e).Src = j.Src := rfl
@[simp] theorem Job.log_Dest (j : Job) (e : Event) : (j.log e).Dest = j.Dest := rfl

@[simp] theorem Job.NextSubCheckpoint_trace (env : Env) (j : Job) (sub : SubSyncState)
    (data : InMemoryData) :
    (j.NextSubCheckpoint env sub data).trace = j.trace ++ [.progress (.NextSubCheckpoint sub)] :=
  rfl
@[simp] theorem Job.NextSubCheckpoint_sub (env : Env) (j : Job) (sub : SubSyncState)
    (data : InMemoryData) : (j.NextSubCheckpoint env sub data).progress.SubSyncState = sub := rfl
@[simp] theorem Job.NextSubCheckpoint_mem (env : Env) (j : Job) (sub : SubSyncState)
    (data : InMemoryData) : (j.NextSubCheckpoint env sub data).progress.InMemoryData = data := rfl
@[simp] theorem Job.NextSubCheckpoint_commitSeq (env : Env) (j : Job) (sub : SubSyncState)
    (data : InMemoryData) :
    (j.NextSubCheckpoint env sub data).progress.CommitSeq = j.progress.CommitSeq := rfl
@[simp] theorem Job.NextSubCheckpoint_SyncType (env : Env) (j : Job) (sub : SubSyncState)
    (data : InMemoryData) : (j.NextSubCheckpoint env sub data).SyncType = j.SyncType := rfl
@[simp] theorem Job.NextSubCheckpoint_SkipError (env : Env) (j : Job) (sub : SubSyncState)
    (data : InMemoryData) : (j.NextSubCheckpoint env sub data).SkipError = j.SkipError := rfl

@[simp] theorem Job.Rollback_trace (j : Job) (skipError : Bool) :
    (j.Rollback skipError).trace = j.trace ++ [.progress (.Rollback skipError)] := rfl
@[simp] theorem Job.Done_trace (j : Job) : j.Done.trace = j.trace ++ [.progress .Done] := rfl
@[simp] theorem Job.Persist_trace (j : Job) : j.Persist.trace = j.trace ++ [.progress .Persist] :=
  rfl
@[simp] theorem Job.Done_sub (j : Job) : j.Done.progress.SubSyncState = Ccr.Done := rfl
@[simp] theorem Job.Done_commitSeq (j : Job) : j.Done.progress.CommitSeq = j.progress.CommitSeq :=
  rfl
@[simp] theorem Job.Persist_progress (j : Job) : j.Persist.progress = j.progress := rfl

theorem Extends.trans {j j1 j2 : Job} {a b : List Event} (h1 : Extends j j1 a)
    (h2 : Extends j1 j2 b) : Extends j j2 (a ++ b) := by
  unfold Extends at *
  rw [h2, h1, List.append_assoc]

/-! ## What `committed` does -/

theorem committed_of_upsert (j : Job) (d : UpsertData)
    (hd : j.progress.InMemoryData = .upsert d) :
    (committed j).value? = some () ∧
    (committed j).job.progress.SubSyncState = Done ∧
    (committed j).job.progress.CommitSeq = j.progress.CommitSeq ∧
    (committed j).job.progress.SyncState = j.progress.SyncState ∧
    ((committed j).job.trace = j.trace ++ [.progress .Persist, .progress .Done] ∨
      (committed j).job.trace = j.trace ++ [.progress .Done]) := by
  by_cases hc : j.SyncType = .DBSync ∧ GoMap.len j.progress.TableCommitSeqMap > 0
  · simp only [committed, hd]
    rw [if_pos hc]
    refine ⟨rfl, rfl, rfl, rfl, Or.inl ?_⟩
    simp [Outcome.job]
  · simp only [committed, hd]
    rw [if_neg hc]
    exact ⟨rfl, rfl, rfl, rfl, Or.inr rfl⟩

@[simp] theorem Job.withUpsert_trace (j : Job) (d : UpsertData) :
    (j.withUpsert d).trace = j.trace := rfl
@[simp] theorem Job.withUpsert_mem (j : Job) (d : UpsertData) :
    (j.withUpsert d).progress.InMemoryData = .upsert d := rfl
@[simp] theorem Job.withUpsert_sub (j : Job) (d : UpsertData) :
    (j.withUpsert d).progress.SubSyncState = j.progress.SubSyncState := rfl
@[simp] theorem Job.withUpsert_commitSeq (j : Job) (d : UpsertData) :
    (j.withUpsert d).progress.CommitSeq = j.progress.CommitSeq := rfl
@[simp] theorem Job.withUpsert_SkipError (j : Job) (d : UpsertData) :
    (j.withUpsert d).SkipError = j.SkipError := rfl

theorem Job.withUpsert_self (j : Job) (d : UpsertData)
    (h : j.progress.InMemoryData = .upsert d) : j.withUpsert d = j := by
  obtain ⟨_, _, _, _, _, _, p, _, _, _⟩ := j
  obtain ⟨_, _, _, _, _, _, _⟩ := p
  simp only at h
  simp [Job.withUpsert, h]

theorem updateInMemory_inFlight (env : Env) (j : Job) (d : UpsertData) (h : InFlight env j d) :
    updateInMemory env j = (none, j.withUpsert d) := by
  rcases h with h | ⟨h1, h2⟩
  · simp [updateInMemory, h, Job.withUpsert_self j d h]
  · simp [updateInMemory, h1, h2, Job.withUpsert]

/-! ## The dispatch of `handleUpsertStep` -/

theorem handleUpsertStep_ingest (env : Env) (j : Job) (b : Option TBinlog)
    (h : j.progress.SubSyncState = IngestBinlog) :
    handleUpsertStep env j b = upsertCaseIngestBinlog env j := by
  simp [handleUpsertStep, h, IngestBinlog, Done, BeginTransaction]

theorem handleUpsertStep_commit (env : Env) (j : Job) (b : Option TBinlog)
    (h : j.progress.SubSyncState = CommitTransaction) :
    handleUpsertStep env j b = upsertCaseCommitTransaction env j := by
  simp [handleUpsertStep, h, IngestBinlog, Done, BeginTransaction, CommitTransaction]

theorem handleUpsertStep_rollback (env : Env) (j : Job) (b : Option TBinlog)
    (h : j.progress.SubSyncState = RollbackTransaction) :
    handleUpsertStep env j b = upsertCaseRollbackTransaction env j := by
  simp [handleUpsertStep, h, IngestBinlog, Done, BeginTransaction, CommitTransaction,
    RollbackTransaction]

theorem handleUpsertStep_begin (env : Env) (j : Job) (b : Option TBinlog)
    (h : j.progress.SubSyncState = BeginTransaction) :
    handleUpsertStep env j b = upsertCaseBeginTransaction env j := by
  simp [handleUpsertStep, h, Done, BeginTransaction]

theorem handleUpsertStep_done (env : Env) (j : Job) (b : Option TBinlog)
    (h : j.progress.SubSyncState = Done) :
    handleUpsertStep env j b = upsertCaseDone env j b := by
  simp [handleUpsertStep, h]

/-! ## `strings.Contains` -/

theorem startsWith_iff (s p : List Char) : startsWith s p = true ↔ p <+: s := by
  induction p generalizing s with
  | nil => simp [startsWith]
  | cons d p ih =>
    cases s with
    | nil => simp [startsWith]
    | cons c s =>
      simp only [startsWith, Bool.and_eq_true, beq_iff_eq, ih, List.cons_prefix_cons]
      constructor
      · rintro ⟨h1, h2⟩
        exact ⟨h1.symm, h2⟩
      · rintro ⟨h1, h2⟩
        exact ⟨h1.symm, h2⟩

theorem containsChars_iff (s sub : List Char) : containsChars s sub = true ↔ sub <:+: s := by
  induction s with
  | nil =>
    simp only [containsChars, startsWith_iff, List.prefix_nil, List.infix_nil]
  | cons c s ih =>
    simp only [containsChars, Bool.or_eq_true, startsWith_iff, ih, List.infix_cons_iff]

theorem stringsContains_iff (s sub : String) :
    stringsContains s sub = true ↔ sub.data <:+: s.data :=
  containsChars_iff _ _

theorem isTxnCommitted_iff (status : TStatus) :
    isTxnCommitted status = true ↔
      ∃ msg ∈ status.ErrorMsgs, "is already COMMITTED".data <:+: msg.data := by
  simp [isTxnCommitted, stringsContains_iff]

/-! ## Frames of `updateInMemory` and `committedReturnNil` -/

theorem updateInMemory_frame (env : Env) (j : Job) :
    (updateInMemory env j).2.trace = j.trace ∧
    (updateInMemory env j).2.progress.SubSyncState = j.progress.SubSyncState ∧
    (updateInMemory env j).2.progress.CommitSeq = j.progress.CommitSeq ∧
    (updateInMemory env j).2.SkipError = j.SkipError := by
  unfold updateInMemory
  split
  · split <;> exact ⟨rfl, rfl, rfl, rfl⟩
  · exact ⟨rfl, rfl, rfl, rfl⟩

theorem committedReturnNil_job (j : Job) : (committedReturnNil j).job = (committed j).job := by
  unfold committedReturnNil
  cases committed j <;> rfl

theorem committedReturnNil_not_recurse (j j1 : Job) : committedReturnNil j ≠ .recurse j1 := by
  unfold committedReturnNil
  cases committed j <;> simp


/-! ## C1: the cursor `CommitSeq` across a step -/

@[simp] theorem Job.NextSubVolatile_commitSeq (j : Job) (sub : SubSyncState) (d : InMemoryData) :
    (j.NextSubVolatile sub d).progress.CommitSeq = j.progress.CommitSeq := rfl
@[simp] theorem Job.NextWithPersist_commitSeq (j : Job) (c : Int) (major : SyncState)
    (sub : SubSyncState) (s : String) : (j.NextWithPersist c major sub s).progress.CommitSeq = c :=
  rfl
@[simp] theorem Job.CommitNextSubWithPersist_commitSeq (env : Env) (j : Job) (c : Int)
    (sub : SubSyncState) (d : InMemoryData) :
    (j.CommitNextSubWithPersist env c sub d).progress.CommitSeq = c := rfl
@[simp] theorem Job.StartHandle_commitSeq (j : Job) (c : Int) :
    (j.StartHandle c).progress.CommitSeq = c := rfl

theorem newSnapshot_commitSeq (j : Job) (c : Int) :
    (newSnapshot j c).job.progress.CommitSeq = c ∨
    (newSnapshot j c).job.progress.CommitSeq = j.progress.CommitSeq := by
  unfold newSnapshot
  split <;> simp

theorem fullSyncCaseDone_commitSeq (j : Job) :
    (fullSyncCaseDone j).job.progress.CommitSeq = j.progress.CommitSeq := by
  have h := newSnapshot_commitSeq j j.progress.CommitSeq
  unfold fullSyncCaseDone
  split
  · next j1 heq =>
    rw [heq] at h
    simpa using h
  · simpa using h

theorem fullSyncCaseBeginCreateSnapshot_commitSeq (env : Env) (j : Job) :
    (fullSyncCaseBeginCreateSnapshot env j).job.progress.CommitSeq = j.progress.CommitSeq := by
  unfold fullSyncCaseBeginCreateSnapshot
  repeat' (first | split | (dsimp only; split))
  all_goals simp

theorem fullSyncCaseGetSnapshotInfo_commitSeq (env : Env) (j : Job) :
    (fullSyncCaseGetSnapshotInfo env j).job.progress.CommitSeq = j.progress.CommitSeq := by
  unfold fullSyncCaseGetSnapshotInfo
  repeat' (first | split | (dsimp only; split))
  all_goals simp

theorem genExtraInfo_progress (env : Env) (j : Job) :
    (genExtraInfo env j).2.progress = j.progress := by
  unfold genExtraInfo
  repeat' (first | split | (dsimp only; split))
  all_goals simp

theorem fullSyncCaseAddExtraInfo_commitSeq (env : Env) (j : Job) :
    (fullSyncCaseAddExtraInfo env j).job.progress.CommitSeq = j.progress.CommitSeq ∨
    ∃ d, j.progress.InMemoryData = .fullSync d ∧
      (fullSyncCaseAddExtraInfo env j).job.progress.CommitSeq =
        restoreCommitSeq j.SyncType d.TableCommitSeqMap j.Src.TableId := by
  have hg := genExtraInfo_progress env j
  unfold fullSyncCaseAddExtraInfo
  cases hd : j.progress.InMemoryData with
  | fullSync d =>
    dsimp only
    cases env.UnmarshalJobInfo (d.SnapshotResp.JobInfo.getD "") with
    | error e => simp
    | ok decodedJobInfo =>
      dsimp only
      rcases hx : genExtraInfo env j with ⟨e | extraInfo, j1⟩ <;> rw [hx] at hg <;>
        simp only at hg ⊢
      · simp [hg]
      · cases decodedJobInfo with
        | none => simp [hg]
        | some jobInfoMap =>
          dsimp only
          cases env.MarshalJobInfo { jobInfoMap with ExtraInfo := some extraInfo } with
          | error e => simp [hg]
          | ok jobInfoBytes => exact Or.inr ⟨d, rfl, by simp⟩
  | null => simp
  | str s => simp
  | upsert d => simp

theorem waitRestoreFinished_commitSeq (env : Env) (fuel : Nat) (j : Job) (name : String) :
    (waitRestoreFinished env fuel j name).job.progress.CommitSeq = j.progress.CommitSeq := by
  induction fuel generalizing j with
  | zero => simp [waitRestoreFinished]
  | succ fuel ih =>
    unfold waitRestoreFinished
    split
    · simp
    · simp
    · rw [ih]
      simp

theorem fullSyncCaseRestoreSnapshot_commitSeq (env : Env) (fuel : Nat) (j : Job) :
    (fullSyncCaseRestoreSnapshot env fuel j).job.progress.CommitSeq = j.progress.CommitSeq := by
  unfold fullSyncCaseRestoreSnapshot
  repeat' (first | split | (dsimp only; split))
  all_goals simp_all [waitRestoreFinished_commitSeq]

theorem buildTableMapping_commitSeq (env : Env) (m : GoMap Int) (j : Job) (acc : GoMap Int) :
    (buildTableMapping env m j acc).2.progress.CommitSeq = j.progress.CommitSeq := by
  induction m generalizing j acc with
  | nil => simp [buildTableMapping]
  | cons e rest ih =>
    obtain ⟨k, v⟩ := e
    unfold buildTableMapping
    repeat' (first | split | (dsimp only; split))
    · simp
    · simp
    · rw [ih]
      simp

theorem fullSyncCasePersistRestoreInfo_commitSeq (env : Env) (j : Job) :
    (fullSyncCasePersistRestoreInfo env j).job.progress.CommitSeq = j.progress.CommitSeq := by
  have hb := buildTableMapping_commitSeq env (j.progress.TableCommitSeqMap.getD []) j []
  unfold fullSyncCasePersistRestoreInfo
  cases j.SyncType with
  | DBSync =>
    dsimp only
    rcases hx : buildTableMapping env (j.progress.TableCommitSeqMap.getD []) j [] with
      ⟨e | tableMapping, j1⟩ <;> rw [hx] at hb <;> simp only at hb ⊢
    · simp [hb]
    · simp [hb]
  | TableSync =>
    dsimp only
    cases env.UpdateTable j.trace j.Dest.Table 0 with
    | error e => simp
    | ok destTable =>
      dsimp only
      generalize hj2 : ({ j.log (.UpdateTable j.Dest.Table 0) with
        Dest := { (j.log (.UpdateTable j.Dest.Table 0)).Dest with TableId := destTable.Id } } : Job)
        = j2
      have h2 : j2.progress.CommitSeq = j.progress.CommitSeq := by rw [← hj2]; rfl
      have hp : (persistJob env j2).2.progress = j2.progress := rfl
      rcases hx : persistJob env j2 with ⟨_ | e, j3⟩ <;> rw [hx] at hp <;> simp only at hp ⊢
      · simp [hp, h2]
      · simp [hp, h2]
  | UnknownSync => simp

/-- Every sub-step of `fullSync` other than `AddExtraInfo` leaves `CommitSeq` as it was;
`AddExtraInfo` leaves it or installs the restore commit seq. -/
theorem fullSyncStep_commitSeq (env : Env) (fuel : Nat) (j : Job) :
    (fullSyncStep env fuel j).job.progress.CommitSeq = j.progress.CommitSeq ∨
    (j.progress.SubSyncState = AddExtraInfo ∧
      ∃ d, j.progress.InMemoryData = .fullSync d ∧
        (fullSyncStep env fuel j).job.progress.CommitSeq =
          restoreCommitSeq j.SyncType d.TableCommitSeqMap j.Src.TableId) := by
  unfold fullSyncStep
  split_ifs with h1 h2 h3 h4 h5 h6
  · exact Or.inl (fullSyncCaseDone_commitSeq j)
  · exact Or.inl (fullSyncCaseBeginCreateSnapshot_commitSeq env j)
  · exact Or.inl (fullSyncCaseGetSnapshotInfo_commitSeq env j)
  · rcases fullSyncCaseAddExtraInfo_commitSeq env j with h | h
    · exact Or.inl h
    · exact Or.inr ⟨h4, h⟩
  · exact Or.inl (fullSyncCaseRestoreSnapshot_commitSeq env fuel j)
  · exact Or.inl (fullSyncCasePersistRestoreInfo_commitSeq env j)
  · exact Or.inl rfl

theorem getDestTableIdBySrc_commitSeq (env : Env) (j : Job) (srcTableId : Int) :
    (getDestTableIdBySrc env j srcTableId).2.progress.CommitSeq = j.progress.CommitSeq := by
  unfold getDestTableIdBySrc
  repeat' (first | split | (dsimp only; split))
  all_goals simp

theorem destTableIdsOf_commitSeq (env : Env) (records : List TableRecord) (j : Job)
    (acc : List Int) :
    (destTableIdsOf env records j acc).2.progress.CommitSeq = j.progress.CommitSeq := by
  induction records generalizing j acc with
  | nil => simp [destTableIdsOf]
  | cons r rest ih =>
    have hg := getDestTableIdBySrc_commitSeq env j r.Id
    unfold destTableIdsOf
    rcases hx : getDestTableIdBySrc env j r.Id with ⟨e | destTableId, j1⟩ <;> rw [hx] at hg <;>
      simp only at hg ⊢
    · exact hg
    · rw [ih, hg]

theorem destTableNameOf_commitSeq (env : Env) (j : Job) (tableId : Int) :
    (destTableNameOf env j tableId).2.progress.CommitSeq = j.progress.CommitSeq := by
  have hg := getDestTableIdBySrc_commitSeq env j tableId
  unfold destTableNameOf
  cases j.SyncType with
  | TableSync => simp
  | UnknownSync => simp
  | DBSync =>
    dsimp only
    rcases hx : getDestTableIdBySrc env j tableId with ⟨e | destTableId, j1⟩ <;> rw [hx] at hg <;>
      simp only at hg ⊢
    · exact hg
    · repeat' split
      all_goals simp [hg]

theorem committed_commitSeq (j : Job) :
    (committed j).job.progress.CommitSeq = j.progress.CommitSeq := by
  unfold committed
  repeat' split
  all_goals simp

theorem committedReturnNil_commitSeq (j : Job) :
    (committedReturnNil j).job.progress.CommitSeq = j.progress.CommitSeq := by
  rw [committedReturnNil_job, committed_commitSeq]

theorem Job.Rollback_commitSeq_le (j : Job) (skipError : Bool) :
    j.progress.CommitSeq ≤ (j.Rollback skipError).progress.CommitSeq := by
  cases skipError <;> simp [Job.Rollback, JobProgress.Rollback]

theorem upsertCaseDone_commitSeq (env : Env) (j : Job) (b : Option TBinlog) :
    (upsertCaseDone env j b).job.progress.CommitSeq = j.progress.CommitSeq := by
  unfold upsertCaseDone
  cases b with
  | none => simp
  | some b =>
    dsimp only
    cases env.NewUpsertFromJson b.Data with
    | error e => simp
    | ok upsert =>
      dsimp only
      split_ifs with h1 h2
      · simp
      · have hg := destTableIdsOf_commitSeq env (getReleatedTableRecords j upsert).1 j []
        rcases hx : destTableIdsOf env (getReleatedTableRecords j upsert).1 j [] with
          ⟨e | ids, j1⟩ <;> rw [hx] at hg <;> simp only at hg ⊢
        · simpa using hg
        · simpa using hg
      · simp

theorem upsertCaseBeginTransaction_commitSeq (env : Env) (j : Job) :
    (upsertCaseBeginTransaction env j).job.progress.CommitSeq = j.progress.CommitSeq := by
  unfold upsertCaseBeginTransaction
  repeat' (first | split | (dsimp only; split))
  all_goals simp

theorem upsertCaseIngestBinlog_commitSeq (env : Env) (j : Job) :
    (upsertCaseIngestBinlog env j).job.progress.CommitSeq = j.progress.CommitSeq := by
  have hu := (updateInMemory_frame env j).2.2.1
  unfold upsertCaseIngestBinlog
  rcases hx : updateInMemory env j with ⟨_ | e, j0⟩ <;> rw [hx] at hu <;> simp only at hu ⊢
  · cases j0.progress.InMemoryData with
    | upsert d =>
      dsimp only [ingestBinlog]
      cases env.Ingest j0.trace d.TxnId d.TableRecords j0.progress.TableMapping <;>
        simp [rollback, hu]
    | null => simpa using hu
    | str s => simpa using hu
    | fullSync s => simpa using hu
  · simpa using hu

theorem upsertCaseCommitTransaction_commitSeq (env : Env) (j : Job) :
    (upsertCaseCommitTransaction env j).job.progress.CommitSeq = j.progress.CommitSeq := by
  have hu := (updateInMemory_frame env j).2.2.1
  unfold upsertCaseCommitTransaction
  rcases hx : updateInMemory env j with ⟨_ | e, j0⟩ <;> rw [hx] at hu <;> simp only at hu ⊢
  · cases j0.progress.InMemoryData with
    | upsert d =>
      dsimp only
      cases env.NewFeRpc j0.trace .Dest with
      | some e => simp [rollback, hu]
      | none =>
        dsimp only
        cases env.CommitTransaction (j0.log (.NewFeRpc .Dest)).trace d.TxnId d.CommitInfos with
        | error e => simp [rollback, hu]
        | ok status =>
          dsimp only
          split_ifs <;> simp [rollback, hu, committedReturnNil_commitSeq]
    | null => simpa using hu
    | str s => simpa using hu
    | fullSync s => simpa using hu
  · simpa using hu

theorem upsertCaseRollbackTransaction_commitSeq (env : Env) (j : Job) :
    j.progress.CommitSeq ≤ (upsertCaseRollbackTransaction env j).job.progress.CommitSeq := by
  have hu := (updateInMemory_frame env j).2.2.1
  unfold upsertCaseRollbackTransaction
  rcases hx : updateInMemory env j with ⟨_ | e, j0⟩ <;> rw [hx] at hu <;> simp only at hu ⊢
  · cases j0.progress.InMemoryData with
    | upsert d =>
      dsimp only
      cases env.NewFeRpc j0.trace .Dest with
      | some e => simp [hu]
      | none =>
        dsimp only
        cases env.RollbackTransaction (j0.log (.NewFeRpc .Dest)).trace d.TxnId with
        | error e => simp [hu]
        | ok status =>
          have hr := Job.Rollback_commitSeq_le
            ((j0.log (.NewFeRpc .Dest)).log (.RollbackTransaction d.TxnId)) j0.SkipError
          simp only [Job.log_progress, hu] at hr
          dsimp only
          split_ifs
          · simpa using hr
          · simpa using hr
          · simp [committedReturnNil_commitSeq, hu]
          · simp [hu]
          · simpa using hr
    | null => simp [hu]
    | str s => simp [hu]
    | fullSync s => simp [hu]
  · simp [hu]

theorem handleUpsertStep_commitSeq (env : Env) (j : Job) (b : Option TBinlog) :
    j.progress.CommitSeq ≤ (handleUpsertStep env j b).job.progress.CommitSeq := by
  unfold handleUpsertStep
  split_ifs
  · exact le_of_eq (upsertCaseDone_commitSeq env j b).symm
  · exact le_of_eq (upsertCaseBeginTransaction_commitSeq env j).symm
  · exact le_of_eq (upsertCaseIngestBinlog_commitSeq env j).symm
  · exact le_of_eq (upsertCaseCommitTransaction_commitSeq env j).symm
  · exact upsertCaseRollbackTransaction_commitSeq env j
  · exact le_refl _

theorem handleUpsert_commitSeq (env : Env) (fuel : Nat) (j : Job) (b : Option TBinlog) :
    j.progress.CommitSeq ≤ (handleUpsert env fuel j b).job.progress.CommitSeq := by
  induction fuel generalizing j with
  | zero => simp [handleUpsert]
  | succ fuel ih =>
    have hs := handleUpsertStep_commitSeq env j b
    unfold handleUpsert
    cases hx : handleUpsertStep env j b with
    | recurse j1 =>
      rw [hx] at hs
      exact le_trans hs (ih j1)
    | done o =>
      rw [hx] at hs
      exact hs

theorem handleAddPartition_commitSeq (env : Env) (j : Job) (b : TBinlog) :
    (handleAddPartition env j b).job.progress.CommitSeq = j.progress.CommitSeq := by
  unfold handleAddPartition
  cases env.NewAddPartitionFromJson b.Data with
  | error e => simp
  | ok addPartition =>
    have hg := destTableNameOf_commitSeq env j addPartition.TableId
    dsimp only
    rcases hx : destTableNameOf env j addPartition.TableId with ⟨e | name, j1⟩ <;>
      rw [hx] at hg <;> simp only at hg ⊢
    · simpa using hg
    · simpa using hg

theorem handleDropPartition_commitSeq (env : Env) (j : Job) (b : TBinlog) :
    (handleDropPartition env j b).job.progress.CommitSeq = j.progress.CommitSeq := by
  unfold handleDropPartition
  cases env.NewDropPartitionFromJson b.Data with
  | error e => simp
  | ok dropPartition =>
    have hg := destTableNameOf_commitSeq env j dropPartition.TableId
    dsimp only
    rcases hx : destTableNameOf env j dropPartition.TableId with ⟨e | name, j1⟩ <;>
      rw [hx] at hg <;> simp only at hg ⊢
    · simpa using hg
    · simpa using hg

theorem handleCreateTable_commitSeq (env : Env) (j : Job) (b : TBinlog) :
    (handleCreateTable env j b).job.progress.CommitSeq = j.progress.CommitSeq := by
  unfold handleCreateTable
  repeat' (first | split | (dsimp only; split))
  all_goals simp

theorem handleDropTable_commitSeq (env : Env) (j : Job) (b : TBinlog) :
    (handleDropTable env j b).job.progress.CommitSeq = j.progress.CommitSeq := by
  unfold handleDropTable
  split_ifs
  · simp
  · cases env.NewDropTableFromJson b.Data with
    | error e => simp
    | ok dropTable =>
      dsimp only
      have hn : ∀ named : Except GoError String × Job,
          named.2.progress = j.progress →
          (match named with
            | (.error e, j1) => Outcome.ret (some e) j1
            | (.ok tableName, j1) =>
              match env.DbExec j1.trace ("DROP TABLE " ++ tableName ++ " FORCE") with
              | some e => Outcome.ret (some e) (j1.log (.DbExec ("DROP TABLE " ++ tableName ++ " FORCE")))
              | none =>
                match (((j1.log (.DbExec ("DROP TABLE " ++ tableName ++ " FORCE"))).log
                    (.GetTables .Src)).log (.GetTables .Dest)).progress.TableMapping with
                | some tableMapping =>
                  Outcome.ret none
                    (Job.Done { ((j1.log (.DbExec ("DROP TABLE " ++ tableName ++ " FORCE"))).log
                        (.GetTables .Src)).log (.GetTables .Dest) with
                      progress := { (((j1.log (.DbExec ("DROP TABLE " ++ tableName ++ " FORCE"))).log
                        (.GetTables .Src)).log (.GetTables .Dest)).progress with
                        TableMapping := some (GoMap.delete tableMapping dropTable.TableId) } })
                | none => Outcome.ret none (((j1.log (.DbExec ("DROP TABLE " ++ tableName ++ " FORCE"))).log
                    (.GetTables .Src)).log (.GetTables .Dest))).job.progress.CommitSeq =
            j.progress.CommitSeq := by
        rintro ⟨e | tableName, j1⟩ h1 <;> simp only at h1 ⊢
        · simp [h1]
        · repeat' split
          all_goals simp [h1]
      apply hn
      split_ifs
      · split <;> simp
      · rfl

theorem dropUntilDone_commitSeq (env : Env) (sql : String) (fuel : Nat) (j : Job) :
    (dropUntilDone env sql fuel j).job.progress.CommitSeq = j.progress.CommitSeq := by
  induction fuel generalizing j with
  | zero => simp [dropUntilDone]
  | succ fuel ih =>
    unfold dropUntilDone
    dsimp only
    split
    · simp
    · rw [ih]
      simp

theorem newSnapshot_same_commitSeq (j : Job) :
    (newSnapshot j j.progress.CommitSeq).job.progress.CommitSeq = j.progress.CommitSeq := by
  rcases newSnapshot_commitSeq j j.progress.CommitSeq with h | h <;> exact h

theorem dropThenSnapshot_commitSeq (env : Env) (sql : String) (fuel : Nat) (j : Job) :
    (match dropUntilDone env sql fuel j with
      | .ret _ j1 => newSnapshot j1 j1.progress.CommitSeq
      | .panic j1 => .panic j1
      | .outOfFuel j1 => .outOfFuel j1).job.progress.CommitSeq = j.progress.CommitSeq := by
  have hd := dropUntilDone_commitSeq env sql fuel j
  cases hx : dropUntilDone env sql fuel j with
  | ret a j1 =>
    rw [hx] at hd
    simp only [Outcome.job_ret] at hd
    rw [← hd]
    exact newSnapshot_same_commitSeq j1
  | panic j1 =>
    rw [hx] at hd
    simpa using hd
  | outOfFuel j1 =>
    rw [hx] at hd
    simpa using hd

theorem handleAlterJob_commitSeq (env : Env) (fuel : Nat) (j : Job) (b : TBinlog) :
    (handleAlterJob env fuel j b).job.progress.CommitSeq = j.progress.CommitSeq := by
  unfold handleAlterJob
  cases env.NewAlterJobV2FromJson b.Data with
  | error e => simp
  | ok alterJob =>
    dsimp only
    split_ifs
    · simp
    · simp
    · exact dropThenSnapshot_commitSeq env _ fuel j
    · exact dropThenSnapshot_commitSeq env _ fuel j

theorem handleLightningSchemaChange_commitSeq (env : Env) (j : Job) (b : TBinlog) :
    (handleLightningSchemaChange env j b).job.progress.CommitSeq = j.progress.CommitSeq := by
  unfold handleLightningSchemaChange
  repeat' (first | split | (dsimp only; split))
  all_goals simp

theorem handleTruncateTable_commitSeq (env : Env) (j : Job) (b : TBinlog) :
    (handleTruncateTable env j b).job.progress.CommitSeq = j.progress.CommitSeq := by
  unfold handleTruncateTable
  repeat' (first | split | (dsimp only; split))
  all_goals simp

/-- After `handleBinlog` has dispatched a record carrying the commit seq `c`, `CommitSeq` is
at least `c`; a nil record or one without commit seq leaves `CommitSeq` as it was. -/
theorem handleBinlog_commitSeq (env : Env) (fuel : Nat) (j : Job) (binlog : Option TBinlog) :
    (∀ b c, binlog = some b → b.CommitSeq = some c →
      c ≤ (handleBinlog env fuel j binlog).job.progress.CommitSeq) ∧
    ((binlog = none ∨ ∃ b, binlog = some b ∧ b.CommitSeq = none) →
      (handleBinlog env fuel j binlog).job.progress.CommitSeq = j.progress.CommitSeq) := by
  constructor
  · rintro b c rfl hc
    have hget : b.GetCommitSeq = c := by simp [TBinlog.GetCommitSeq, hc]
    have hs : (j.StartHandle b.GetCommitSeq).progress.CommitSeq = c := by simp [hget]
    simp only [handleBinlog, hc, reduceCtorEq, if_false]
    cases b.Type_ with
    | UPSERT =>
      have := handleUpsert_commitSeq env fuel (j.StartHandle b.GetCommitSeq) (some b)
      rw [hs] at this
      exact this
    | ADD_PARTITION => simp only [handleAddPartition_commitSeq, hs, le_refl]
    | CREATE_TABLE => simp only [handleCreateTable_commitSeq, hs, le_refl]
    | DROP_PARTITION => simp only [handleDropPartition_commitSeq, hs, le_refl]
    | DROP_TABLE => simp only [handleDropTable_commitSeq, hs, le_refl]
    | ALTER_JOB => simp only [handleAlterJob_commitSeq, hs, le_refl]
    | MODIFY_TABLE_ADD_OR_DROP_COLUMNS =>
      simp only [handleLightningSchemaChange_commitSeq, hs, le_refl]
    | DUMMY =>
      simp only [handleDummy]
      rcases newSnapshot_commitSeq (j.StartHandle b.GetCommitSeq) b.GetCommitSeq with h | h
      · rw [h, hget]
      · rw [h, hs]
    | ALTER_DATABASE_PROPERTY => simp only [Outcome.job_ret, hs, le_refl]
    | MODIFY_TABLE_PROPERTY => simp only [Outcome.job_ret, hs, le_refl]
    | BARRIER => simp only [Outcome.job_ret, hs, le_refl]
    | TRUNCATE_TABLE => simp only [handleTruncateTable_commitSeq, hs, le_refl]
    | Other n => simp only [Outcome.job_ret, hs, le_refl]
  · rintro (rfl | ⟨b, rfl, hb⟩)
    · simp [handleBinlog]
    · simp [handleBinlog, hb]

theorem afterHandle_commitSeq (j : Job) (c : Int) :
    (afterHandle j c).2.progress.CommitSeq = j.progress.CommitSeq := by
  unfold afterHandle
  repeat' (first | split | (dsimp only; split))
  all_goals simp

theorem handleBinlogs_single_commitSeq (env : Env) (fuel : Nat) (j : Job)
    (binlog : Option TBinlog) :
    (handleBinlogs env fuel j [binlog]).job.progress.CommitSeq =
      (handleBinlog env fuel j binlog).job.progress.CommitSeq := by
  unfold handleBinlogs
  cases hx : handleBinlog env fuel j binlog with
  | ret a j1 =>
    cases a with
    | some e => simp
    | none =>
      have ha := afterHandle_commitSeq j1 ((binlog.map TBinlog.GetCommitSeq).getD 0)
      dsimp only
      rcases hy : afterHandle j1 ((binlog.map TBinlog.GetCommitSeq).getD 0) with ⟨_ | _, j2⟩ <;>
        rw [hy] at ha <;> simp only at ha ⊢
      · simpa [handleBinlogs] using ha
      · simpa using ha
  | panic j1 => simp
  | outOfFuel j1 => simp

/-- C1 as stated fails.  A `DBSync` job that has reached `CommitSeq` 500 and runs the
`AddExtraInfo` sub-step of `fullSync` on a snapshot whose tables were last written at commit
seqs 120 and 80 leaves the step with `CommitSeq` 80; the whole `fullSync` started by
`newSnapshot(500)` on such a snapshot ends without error at `CommitSeq` 80; and
`handleBinlog` on a record of commit seq 400 leaves a job that stood at 500 with
`CommitSeq` 400. -/
theorem commitSeq_regresses :
    (fullSyncStep envOk 1 rebootstrapJob).job.progress.CommitSeq = 80 ∧
    (fullSyncStep envOk 1 rebootstrapJob).job.progress.CommitSeq <
      rebootstrapJob.progress.CommitSeq ∧
    (fullSync envTwoTables 5
        (dbJob ⟨.DBFullSync, BeginCreateSnapshot, 500, "", .null, none, none⟩)).value? =
      some none ∧
    (fullSync envTwoTables 5
        (dbJob ⟨.DBFullSync, BeginCreateSnapshot, 500, "", .null, none, none⟩)).job.progress.CommitSeq
      = 80 ∧
    (handleBinlog envOk 1 (dbJob ⟨.DBIncrementalSync, Done, 500, "", .null, none, none⟩)
        (some (binlogOf .BARRIER 400))).job.progress.CommitSeq = 400 := by
  decide

/-- C1 (amended): a single step does not lower `CommitSeq` when the value it installs is
not below it.  For every job, if in the `AddExtraInfo` sub-state the restore commit seq of
the snapshot in memory is at least `CommitSeq`, and the commit seq of the record is at least
`CommitSeq`, then `CommitSeq` after one sub-step of `fullSync`, after `handleBinlog`, and
after `handleBinlogs` on that one record (whatever the outcome and the fuel) is at least
`CommitSeq` before. -/
theorem commitSeq_monotone_step (env : Env) (fuel : Nat) (j : Job) (binlog : Option TBinlog)
    (hbase : ∀ d, j.progress.SubSyncState = AddExtraInfo →
      j.progress.InMemoryData = .fullSync d →
      j.progress.CommitSeq ≤ restoreCommitSeq j.SyncType d.TableCommitSeqMap j.Src.TableId)
    (hrec : ∀ b c, binlog = some b → b.CommitSeq = some c → j.progress.CommitSeq ≤ c) :
    j.progress.CommitSeq ≤ (fullSyncStep env fuel j).job.progress.CommitSeq ∧
    j.progress.CommitSeq ≤ (handleBinlog env fuel j binlog).job.progress.CommitSeq ∧
    j.progress.CommitSeq ≤ (handleBinlogs env fuel j [binlog]).job.progress.CommitSeq := by
  have hb : j.progress.CommitSeq ≤ (handleBinlog env fuel j binlog).job.progress.CommitSeq := by
    have h := handleBinlog_commitSeq env fuel j binlog
    cases binlog with
    | none => exact le_of_eq (h.2 (Or.inl rfl)).symm
    | some b =>
      cases hc : b.CommitSeq with
      | none => exact le_of_eq (h.2 (Or.inr ⟨b, rfl, hc⟩)).symm
      | some c => exact le_trans (hrec b c rfl hc) (h.1 b c rfl hc)
  refine ⟨?_, hb, ?_⟩
  · rcases fullSyncStep_commitSeq env fuel j with h | ⟨hs, d, hd, h⟩
    · exact le_of_eq h.symm
    · rw [h]
      exact hbase d hs hd
  · rw [handleBinlogs_single_commitSeq]
    exact hb

/-- Witness of C1: a `TableSync` job in its first full sync at `AddExtraInfo` with
`CommitSeq` 0 and a snapshot holding `{100: 500}`, and a record of commit seq 130. -/
theorem commitSeq_monotone_step_witness :
    firstSyncJob.progress.CommitSeq ≤ (fullSyncStep envOk 1 firstSyncJob).job.progress.CommitSeq ∧
    firstSyncJob.progress.CommitSeq ≤
      (handleBinlog envOk 1 firstSyncJob (some (binlogOf .BARRIER 130))).job.progress.CommitSeq ∧
    firstSyncJob.progress.CommitSeq ≤
      (handleBinlogs envOk 1 firstSyncJob [some (binlogOf .BARRIER 130)]).job.progress.CommitSeq :=
  commitSeq_monotone_step envOk 1 firstSyncJob (some (binlogOf .BARRIER 130))
    (fun d _ hd => by
      have : d = snapshotData [(100, 500)] := by
        simp only [firstSyncJob, tableJob] at hd
        exact (InMemoryData.fullSync.inj hd).symm
      subst this
      decide)
    (fun b c hb hc => by
      have : b = binlogOf .BARRIER 130 := (Option.some.inj hb).symm
      subst this
      have : c = 130 := (Option.some.inj hc).symm
      subst this
      decide)
/-! ## C2: the table floor in `getDbSyncTableRecords` -/

theorem mem_filterTableRecords (commitSeq : Int) (m : GoMap Int) (records : GoMap TableRecord)
    (r : TableRecord) :
    r ∈ filterTableRecords commitSeq (some m) records ↔
      ∃ tableId floor, (tableId, r) ∈ records ∧ GoMap.lookup m tableId = some floor ∧
        floor < commitSeq := by
  induction records with
  | nil => simp [filterTableRecords]
  | cons e rest ih =>
    obtain ⟨tableId, tableRecord⟩ := e
    simp only [filterTableRecords]
    cases hl : GoMap.lookup m tableId with
    | none =>
      simp only [ih, List.mem_cons, Prod.mk.injEq]
      constructor
      · rintro ⟨t, f, h1, h2, h3⟩
        exact ⟨t, f, Or.inr h1, h2, h3⟩
      · rintro ⟨t, f, h1 | h1, h2, h3⟩
        · obtain ⟨rfl, rfl⟩ := h1
          rw [hl] at h2
          cases h2
        · exact ⟨t, f, h1, h2, h3⟩
    | some floor0 =>
      by_cases hc : commitSeq > floor0
      · simp only [hc, if_true, List.mem_cons, ih, Prod.mk.injEq]
        constructor
        · rintro (rfl | ⟨t, f, h1, h2, h3⟩)
          · exact ⟨tableId, floor0, Or.inl ⟨rfl, rfl⟩, hl, hc⟩
          · exact ⟨t, f, Or.inr h1, h2, h3⟩
        · rintro ⟨t, f, h1 | h1, h2, h3⟩
          · exact Or.inl h1.2
          · exact Or.inr ⟨t, f, h1, h2, h3⟩
      · simp only [hc, if_false, ih, List.mem_cons, Prod.mk.injEq]
        constructor
        · rintro ⟨t, f, h1, h2, h3⟩
          exact ⟨t, f, Or.inr h1, h2, h3⟩
        · rintro ⟨t, f, h1 | h1, h2, h3⟩
          · obtain ⟨rfl, rfl⟩ := h1
            rw [hl] at h2
            cases h2
            exact absurd h3 hc
          · exact ⟨t, f, h1, h2, h3⟩

theorem filterTableRecords_none (commitSeq : Int) (records : GoMap TableRecord) :
    filterTableRecords commitSeq none records = records.map Prod.snd := by
  induction records with
  | nil => simp [filterTableRecords]
  | cons e rest ih =>
    obtain ⟨tableId, tableRecord⟩ := e
    simp [filterTableRecords, ih]

/-- C2 (table floor honoured): with a non-nil `TableCommitSeqMap`, a table record is
returned by `getDbSyncTableRecords` exactly when it is stored in the upsert under a table
id that is a key of `TableCommitSeqMap` whose floor is strictly below the upsert's
`CommitSeq`, so no table with `tableCommitSeq >= CommitSeq` is passed on; with a nil
`TableCommitSeqMap` every table record of the upsert is returned; the error is nil. -/
theorem getDbSyncTableRecords_table_floor (j : Job) (upsert : Upsert) :
    (∀ m, j.progress.TableCommitSeqMap = some m →
      ∀ r, r ∈ (getDbSyncTableRecords j upsert).1 ↔
        ∃ tableId floor, (tableId, r) ∈ upsert.TableRecords ∧
          GoMap.lookup m tableId = some floor ∧ floor < upsert.CommitSeq) ∧
    (j.progress.TableCommitSeqMap = none →
      (getDbSyncTableRecords j upsert).1 = upsert.TableRecords.map Prod.snd) ∧
    (getDbSyncTableRecords j upsert).2 = none := by
  refine ⟨?_, ?_, rfl⟩
  · intro m hm r
    simp only [getDbSyncTableRecords, hm]
    exact mem_filterTableRecords _ _ _ _
  · intro hm
    simp only [getDbSyncTableRecords, hm]
    exact filterTableRecords_none _ _

/-- Witness of C2 (scenario 2 of the spec): with the floors `{1: 120, 2: 80}` the record of
table 2 in the upsert of commit seq 85 is returned (85 > 80), and the record of table 1 in
the upsert of commit seq 100 is dropped (100 < 120). -/
theorem getDbSyncTableRecords_table_floor_witness :
    (getDbSyncTableRecords scenarioJob (upsertOf 85 2)).1 = [⟨2, []⟩] ∧
    (getDbSyncTableRecords scenarioJob (upsertOf 100 1)).1 = [] ∧
    (getDbSyncTableRecords scenarioJob (upsertOf 100 1)).2 = none :=
  ⟨by decide, by decide, (getDbSyncTableRecords_table_floor scenarioJob (upsertOf 100 1)).2.2⟩
/-! ## C3: the switch to `DBIncrementalSync` in `handleBinlogs` -/

theorem reachSwitchToDBIncrementalSync_iff (commitSeq : Int) (m : GoMap Int) :
    reachSwitchToDBIncrementalSync commitSeq m = true ↔ ∀ e ∈ m, e.2 ≤ commitSeq := by
  induction m with
  | nil => simp [reachSwitchToDBIncrementalSync]
  | cons e rest ih =>
    obtain ⟨k, v⟩ := e
    by_cases hv : v > commitSeq
    · simp only [reachSwitchToDBIncrementalSync, hv, if_true, List.mem_cons]
      constructor
      · intro h
        cases h
      · intro h
        have := h (k, v) (Or.inl rfl)
        simp only at this
        omega
    · simp only [reachSwitchToDBIncrementalSync, hv, if_false, ih, List.mem_cons]
      constructor
      · rintro h e (rfl | he)
        · simp only
          omega
        · exact h e he
      · intro h e he
        exact h e (Or.inr he)

theorem handleBinlogs_single (env : Env) (fuel : Nat) (j j1 : Job) (b : TBinlog)
    (hb : handleBinlog env fuel j (some b) = .ret none j1) :
    (handleBinlogs env fuel j [some b]).job = (afterHandle j1 b.GetCommitSeq).2 ∧
    ∃ back, handleBinlogs env fuel j [some b] = .ret (none, back) (afterHandle j1 b.GetCommitSeq).2 := by
  simp only [handleBinlogs, hb, Option.map_some', Option.getD_some]
  cases h : afterHandle j1 b.GetCommitSeq with
  | mk back j2 =>
    cases back
    · exact ⟨rfl, false, rfl⟩
    · exact ⟨rfl, true, rfl⟩

/-- C3 (auto-promotion): when `handleBinlogs` has dispatched a record of commit seq `c`
without error and the job is `DBSync` with a non-nil `TableCommitSeqMap` `m` at that point,
then the job ends the record in `DBIncrementalSync` / `Done` with `TableCommitSeqMap` nil if
and only if every floor of `m` is `<= c`; otherwise `TableCommitSeqMap` and the major state
are what the dispatch left. -/
theorem handleBinlogs_auto_promotion (env : Env) (fuel : Nat) (j j1 : Job) (b : TBinlog)
    (m : GoMap Int)
    (hb : handleBinlog env fuel j (some b) = .ret none j1)
    (hs : j1.SyncType = .DBSync) (hm : j1.progress.TableCommitSeqMap = some m) :
    (((handleBinlogs env fuel j [some b]).job.progress.SyncState = .DBIncrementalSync ∧
        (handleBinlogs env fuel j [some b]).job.progress.SubSyncState = Done ∧
        (handleBinlogs env fuel j [some b]).job.progress.TableCommitSeqMap = none) ↔
      ∀ e ∈ m, e.2 ≤ b.GetCommitSeq) ∧
    (¬ (∀ e ∈ m, e.2 ≤ b.GetCommitSeq) →
      (handleBinlogs env fuel j [some b]).job.progress.TableCommitSeqMap = some m ∧
      (handleBinlogs env fuel j [some b]).job.progress.SyncState = j1.progress.SyncState) := by
  rw [(handleBinlogs_single env fuel j j1 b hb).1]
  by_cases hr : reachSwitchToDBIncrementalSync b.GetCommitSeq m = true
  · have hall := (reachSwitchToDBIncrementalSync_iff _ _).mp hr
    refine ⟨⟨fun _ => hall, fun _ => ?_⟩, fun h => absurd hall h⟩
    simp [afterHandle, hs, hm, hr, Job.NextWithPersist, JobProgress.NextWithPersist,
      JobProgress.IsDone]
  · have hall : ¬ ∀ e ∈ m, e.2 ≤ b.GetCommitSeq :=
      fun h => hr ((reachSwitchToDBIncrementalSync_iff _ _).mpr h)
    have hkeep : (afterHandle j1 b.GetCommitSeq).2.progress.TableCommitSeqMap = some m ∧
        (afterHandle j1 b.GetCommitSeq).2.progress.SyncState = j1.progress.SyncState := by
      simp only [afterHandle, hs, hm, hr]
      by_cases hd : j1.progress.IsDone = true <;>
        simp [hd, Job.Done, JobProgress.Done, hm]
    refine ⟨⟨fun h => ?_, fun h => absurd h hall⟩, fun _ => hkeep⟩
    rw [hkeep.1] at h
    exact absurd h.2.2 (by simp)

/-- Witness of C3: a `DBSync` job in `DBTablesIncrementalSync` with the floor `{1: 120}`
handles a `BARRIER` record of commit seq 130. -/
theorem handleBinlogs_auto_promotion_witness :
    (handleBinlogs envOk 5
        (dbJob ⟨.DBTablesIncrementalSync, Done, 100, "", .null, some [(1, 120)], none⟩)
        [some (binlogOf .BARRIER 130)]).job.progress.SyncState = .DBIncrementalSync ∧
    (handleBinlogs envOk 5
        (dbJob ⟨.DBTablesIncrementalSync, Done, 100, "", .null, some [(1, 120)], none⟩)
        [some (binlogOf .BARRIER 130)]).job.progress.TableCommitSeqMap = none :=
  have h := (handleBinlogs_auto_promotion envOk 5
    (dbJob ⟨.DBTablesIncrementalSync, Done, 100, "", .null, some [(1, 120)], none⟩) _
    (binlogOf .BARRIER 130) [(1, 120)] rfl rfl rfl).1.mpr (by decide)
  ⟨h.1, h.2.2⟩
/-! ## C4: the DbSync bootstrap scenario -/

/-- C4 as stated fails: in the scenario the fourth record (commit seq 130) is not the first
record after which the major state is `DBIncrementalSync`. -/
theorem scenario_not_first_after_130 :
    ¬ firstInDBIncrementalSyncAfter envScenario 5 scenarioJob scenarioBinlogs 4 := by
  decide

/-- C4 (amended): in the scenario the switch to `DBIncrementalSync` takes place when the
third record (commit seq 125) is handled: both floors, 120 and 80, are `<= 125`.  Records
85 and 100 leave the job in `DBTablesIncrementalSync`; record 130 is handled in
`DBIncrementalSync` and the whole batch ends there at `CommitSeq` 130 with
`TableCommitSeqMap` nil. -/
theorem scenario_first_after_125 :
    firstInDBIncrementalSyncAfter envScenario 5 scenarioJob scenarioBinlogs 3 ∧
    (handleBinlogs envScenario 5 scenarioJob scenarioBinlogs).value? = some (none, false) ∧
    (handleBinlogs envScenario 5 scenarioJob scenarioBinlogs).job.progress.SyncState =
      .DBIncrementalSync ∧
    (handleBinlogs envScenario 5 scenarioJob scenarioBinlogs).job.progress.CommitSeq = 130 ∧
    (handleBinlogs envScenario 5 scenarioJob scenarioBinlogs).job.progress.TableCommitSeqMap =
      none := by
  decide
/-! ## C5: a `DUMMY` record in `handleBinlogs` -/

/-- Where the claim of C5 holds: a `DUMMY` record of commit seq `c` stops the batch with
`backToRunLoop = true` and leaves the full-sync major state of the sync type at
`CommitSeq = c`, for a `TableSync` job and for a `DBSync` job whose `TableCommitSeqMap` is
nil or has a floor above `c`. -/
theorem handleBinlogs_dummy_full_sync (env : Env) (fuel : Nat) (j : Job) (c : Int)
    (data : String) (rest : List (Option TBinlog))
    (h : j.SyncType = .TableSync ∨
      (j.SyncType = .DBSync ∧ (j.progress.TableCommitSeqMap = none ∨
        ∃ m, j.progress.TableCommitSeqMap = some m ∧ ¬ ∀ e ∈ m, e.2 ≤ c))) :
    (handleBinlogs env fuel j (some ⟨some c, .DUMMY, data⟩ :: rest)).value? = some (none, true) ∧
    (handleBinlogs env fuel j (some ⟨some c, .DUMMY, data⟩ :: rest)).job.progress.CommitSeq = c ∧
    (handleBinlogs env fuel j (some ⟨some c, .DUMMY, data⟩ :: rest)).job.progress.SyncState =
      (if j.SyncType = .TableSync then SyncState.TableFullSync else SyncState.DBFullSync) := by
  rcases h with h | ⟨h, hm | ⟨m, hm, hall⟩⟩
  · simp [handleBinlogs, handleBinlog, handleDummy, newSnapshot, Job.StartHandle, h,
      afterHandle, Job.NextWithPersist, JobProgress.NextWithPersist, JobProgress.IsDone,
      isIncrementalSync, TBinlog.GetCommitSeq, Job.Done, JobProgress.Done, Done,
      BeginCreateSnapshot, JobProgress.StartHandle, Outcome.value?, Outcome.job]
  · simp [handleBinlogs, handleBinlog, handleDummy, newSnapshot, Job.StartHandle, h, hm,
      afterHandle, Job.NextWithPersist, JobProgress.NextWithPersist, JobProgress.IsDone,
      isIncrementalSync, TBinlog.GetCommitSeq, Job.Done, JobProgress.Done, Done,
      BeginCreateSnapshot, JobProgress.StartHandle, Outcome.value?, Outcome.job]
  · have hr : reachSwitchToDBIncrementalSync c m = false := by
      cases hx : reachSwitchToDBIncrementalSync c m with
      | false => rfl
      | true => exact absurd ((reachSwitchToDBIncrementalSync_iff c m).mp hx) hall
    simp [handleBinlogs, handleBinlog, handleDummy, newSnapshot, Job.StartHandle, h, hm, hr,
      afterHandle, Job.NextWithPersist, JobProgress.NextWithPersist, JobProgress.IsDone,
      isIncrementalSync, TBinlog.GetCommitSeq, Job.Done, JobProgress.Done, Done,
      BeginCreateSnapshot, JobProgress.StartHandle, Outcome.value?, Outcome.job]

/-- C5 (where the code departs from the claim): a `DBSync` job in
`DBTablesIncrementalSync` with the floor `{1: 120}` handles a `DUMMY` record of commit seq
130.  `handleDummy` starts a new snapshot (`DBFullSync` / `BeginCreateSnapshot`), and the
switch check that follows it in `handleBinlogs` finds every floor `<= 130` and overwrites
the state with `DBIncrementalSync` / `Done`: the batch goes on (`backToRunLoop = false`)
and no full sync is left to run. -/
theorem handleBinlogs_dummy_overridden :
    ∃ j1, handleBinlogs envOk 5
        (dbJob ⟨.DBTablesIncrementalSync, Done, 100, "", .null, some [(1, 120)], some [(1, 11)]⟩)
        [some (binlogOf .DUMMY 130)] = .ret (none, false) j1 ∧
      j1.progress.SyncState = .DBIncrementalSync ∧ j1.progress.SubSyncState = Done ∧
      j1.progress.CommitSeq = 130 ∧ j1.progress.TableCommitSeqMap = none :=
  ⟨(handleBinlogs envOk 5
      (dbJob ⟨.DBTablesIncrementalSync, Done, 100, "", .null, some [(1, 120)], some [(1, 11)]⟩)
      [some (binlogOf .DUMMY 130)]).job, by decide, by decide, by decide, by decide, by decide⟩
/-! ## C6: resuming `handleUpsert` at `IngestBinlog` -/

theorem committed_noBegin (j : Job) :
    ∃ new, Extends j (committed j).job new ∧ NoBeginTransaction new := by
  unfold committed
  split
  · split
    · exact ⟨[.progress .Persist, .progress .Done], by simp [Extends, Outcome.job],
        by simp [NoBeginTransaction]⟩
    · exact ⟨[.progress .Done], by simp [Extends, Outcome.job], by simp [NoBeginTransaction]⟩
  · exact ⟨[], by simp [Extends, Outcome.job], by simp [NoBeginTransaction]⟩

theorem upsertCaseIngestBinlog_noBegin (env : Env) (j : Job) :
    (∃ new, Extends j (upsertCaseIngestBinlog env j).job new ∧ NoBeginTransaction new) ∧
    ∀ j1, upsertCaseIngestBinlog env j = .recurse j1 → PastBegin j1 := by
  have hu := (updateInMemory_frame env j).1
  unfold upsertCaseIngestBinlog
  rcases hx : updateInMemory env j with ⟨_ | e, j0⟩ <;> rw [hx] at hu <;> simp only at hu ⊢
  · cases hm : j0.progress.InMemoryData with
    | upsert d =>
      simp only [ingestBinlog]
      cases hi : env.Ingest j0.trace d.TxnId d.TableRecords j0.progress.TableMapping with
      | error e =>
        refine ⟨⟨[.IngestBinlog d.TxnId d.TableRecords,
          .progress (.NextSubCheckpoint RollbackTransaction)], ?_, ?_⟩, ?_⟩
        · simp [Extends, Step.job, rollback, hu]
        · simp [NoBeginTransaction]
        · intro j1 h1
          cases h1
          exact Or.inr (Or.inr rfl)
      | ok infos =>
        refine ⟨⟨[.IngestBinlog d.TxnId d.TableRecords,
          .progress (.NextSubCheckpoint CommitTransaction)], ?_, ?_⟩, ?_⟩
        · simp [Extends, Step.job, hu]
        · simp [NoBeginTransaction]
        · intro j1 h1
          cases h1
          exact Or.inr (Or.inl rfl)
    | null => exact ⟨⟨[], by simp [Extends, Step.job, Outcome.job, hu], by simp [NoBeginTransaction]⟩,
        fun j1 h1 => by cases h1⟩
    | str s => exact ⟨⟨[], by simp [Extends, Step.job, Outcome.job, hu], by simp [NoBeginTransaction]⟩,
        fun j1 h1 => by cases h1⟩
    | fullSync s => exact ⟨⟨[], by simp [Extends, Step.job, Outcome.job, hu], by simp [NoBeginTransaction]⟩,
        fun j1 h1 => by cases h1⟩
  · exact ⟨⟨[], by simp [Extends, Step.job, Outcome.job, hu], by simp [NoBeginTransaction]⟩,
      fun j1 h1 => by cases h1⟩

theorem committedReturnNil_noBegin (j0 j : Job) (pre : List Event) (h : Extends j0 j pre)
    (hp : NoBeginTransaction pre) :
    (∃ new, Extends j0 (committedReturnNil j).job new ∧ NoBeginTransaction new) ∧
    ∀ j1, committedReturnNil j = .recurse j1 → PastBegin j1 := by
  obtain ⟨new, h1, h2⟩ := committed_noBegin j
  rw [committedReturnNil_job]
  refine ⟨⟨pre ++ new, h.trans h1, ?_⟩, fun j1 hj => absurd hj (committedReturnNil_not_recurse j j1)⟩
  intro l ids hm
  rcases List.mem_append.mp hm with hm | hm
  · exact hp l ids hm
  · exact h2 l ids hm

theorem upsertCaseCommitTransaction_noBegin (env : Env) (j : Job) :
    (∃ new, Extends j (upsertCaseCommitTransaction env j).job new ∧ NoBeginTransaction new) ∧
    ∀ j1, upsertCaseCommitTransaction env j = .recurse j1 → PastBegin j1 := by
  have hu := (updateInMemory_frame env j).1
  have stop : ∀ j0 : Job, j0.trace = j.trace →
      (∃ new, Extends j j0 new ∧ NoBeginTransaction new) := fun j0 h =>
    ⟨[], by simp [Extends, h], by simp [NoBeginTransaction]⟩
  unfold upsertCaseCommitTransaction
  rcases hx : updateInMemory env j with ⟨_ | e, j0⟩ <;> rw [hx] at hu <;> simp only at hu ⊢
  · cases hm : j0.progress.InMemoryData with
    | upsert d =>
      simp only
      cases hn : env.NewFeRpc j0.trace .Dest with
      | some e =>
        refine ⟨⟨[.NewFeRpc .Dest, .progress (.NextSubCheckpoint RollbackTransaction)], ?_, ?_⟩, ?_⟩
        · simp [Extends, Step.job, rollback, hu]
        · simp [NoBeginTransaction]
        · intro j1 h1
          cases h1
          exact Or.inr (Or.inr rfl)
      | none =>
        simp only
        cases hc : env.CommitTransaction (j0.log (.NewFeRpc .Dest)).trace d.TxnId d.CommitInfos with
        | error e =>
          refine ⟨⟨[.NewFeRpc .Dest, .CommitTransaction d.TxnId d.CommitInfos,
            .progress (.NextSubCheckpoint RollbackTransaction)], ?_, ?_⟩, ?_⟩
          · simp [Extends, Step.job, rollback, hu]
          · simp [NoBeginTransaction]
          · intro j1 h1
            cases h1
            exact Or.inr (Or.inr rfl)
        | ok status =>
          simp only
          by_cases hp : status.StatusCode = .PUBLISH_TIMEOUT
          · rw [if_pos hp]
            exact committedReturnNil_noBegin j _ [.NewFeRpc .Dest,
              .CommitTransaction d.TxnId d.CommitInfos, .WaitTransactionDone d.TxnId]
              (by simp [Extends, hu]) (by simp [NoBeginTransaction])
          · rw [if_neg hp]
            by_cases ho : status.StatusCode ≠ .OK
            · rw [if_pos ho]
              refine ⟨⟨[.NewFeRpc .Dest, .CommitTransaction d.TxnId d.CommitInfos,
                .progress (.NextSubCheckpoint RollbackTransaction)], ?_, ?_⟩, ?_⟩
              · simp [Extends, Step.job, rollback, hu]
              · simp [NoBeginTransaction]
              · intro j1 h1
                cases h1
                exact Or.inr (Or.inr rfl)
            · rw [if_neg ho]
              exact committedReturnNil_noBegin j _ [.NewFeRpc .Dest,
                .CommitTransaction d.TxnId d.CommitInfos]
                (by simp [Extends, hu]) (by simp [NoBeginTransaction])
    | null => exact ⟨stop j0 hu, fun j1 h1 => by cases h1⟩
    | str s => exact ⟨stop j0 hu, fun j1 h1 => by cases h1⟩
    | fullSync s => exact ⟨stop j0 hu, fun j1 h1 => by cases h1⟩
  · exact ⟨stop j0 hu, fun j1 h1 => by cases h1⟩

theorem upsertCaseRollbackTransaction_noBegin (env : Env) (j : Job) :
    (∃ new, Extends j (upsertCaseRollbackTransaction env j).job new ∧ NoBeginTransaction new) ∧
    ∀ j1, upsertCaseRollbackTransaction env j = .recurse j1 → PastBegin j1 := by
  have hu := (updateInMemory_frame env j).1
  have stop : ∀ j0 : Job, j0.trace = j.trace →
      (∃ new, Extends j j0 new ∧ NoBeginTransaction new) := fun j0 h =>
    ⟨[], by simp [Extends, h], by simp [NoBeginTransaction]⟩
  unfold upsertCaseRollbackTransaction
  rcases hx : updateInMemory env j with ⟨_ | e, j0⟩ <;> rw [hx] at hu <;> simp only at hu ⊢
  · cases hm : j0.progress.InMemoryData with
    | upsert d =>
      simp only
      cases hn : env.NewFeRpc j0.trace .Dest with
      | some e =>
        exact ⟨⟨[.NewFeRpc .Dest], by simp [Extends, Step.job, Outcome.job, hu],
          by simp [NoBeginTransaction]⟩, fun j1 h1 => by cases h1⟩
      | none =>
        simp only
        cases hc : env.RollbackTransaction (j0.log (.NewFeRpc .Dest)).trace d.TxnId with
        | error e =>
          exact ⟨⟨[.NewFeRpc .Dest, .RollbackTransaction d.TxnId],
            by simp [Extends, Step.job, Outcome.job, hu], by simp [NoBeginTransaction]⟩,
            fun j1 h1 => by cases h1⟩
        | ok status =>
          have hroll : (∃ new, Extends j (Step.done (.ret none
              (((j0.log (.NewFeRpc .Dest)).log (.RollbackTransaction d.TxnId)).Rollback
                ((j0.log (.NewFeRpc .Dest)).log (.RollbackTransaction d.TxnId)).SkipError))).job new ∧
              NoBeginTransaction new) :=
            ⟨[.NewFeRpc .Dest, .RollbackTransaction d.TxnId, .progress (.Rollback j0.SkipError)],
              by simp [Extends, Step.job, Outcome.job, hu], by simp [NoBeginTransaction]⟩
          simp only
          split_ifs
          · exact ⟨hroll, fun j1 h1 => by cases h1⟩
          · exact ⟨hroll, fun j1 h1 => by cases h1⟩
          · exact committedReturnNil_noBegin j _ [.NewFeRpc .Dest, .RollbackTransaction d.TxnId]
              (by simp [Extends, hu]) (by simp [NoBeginTransaction])
          · exact ⟨⟨[.NewFeRpc .Dest, .RollbackTransaction d.TxnId],
              by simp [Extends, Step.job, Outcome.job, hu], by simp [NoBeginTransaction]⟩,
              fun j1 h1 => by cases h1⟩
          · exact ⟨hroll, fun j1 h1 => by cases h1⟩
    | null => exact ⟨stop j0 hu, fun j1 h1 => by cases h1⟩
    | str s => exact ⟨stop j0 hu, fun j1 h1 => by cases h1⟩
    | fullSync s => exact ⟨stop j0 hu, fun j1 h1 => by cases h1⟩
  · exact ⟨stop j0 hu, fun j1 h1 => by cases h1⟩

theorem handleUpsertStep_noBegin (env : Env) (j : Job) (b : Option TBinlog) (h : PastBegin j) :
    (∃ new, Extends j (handleUpsertStep env j b).job new ∧ NoBeginTransaction new) ∧
    ∀ j1, handleUpsertStep env j b = .recurse j1 → PastBegin j1 := by
  rcases h with h | h | h
  · rw [handleUpsertStep_ingest env j b h]
    exact upsertCaseIngestBinlog_noBegin env j
  · rw [handleUpsertStep_commit env j b h]
    exact upsertCaseCommitTransaction_noBegin env j
  · rw [handleUpsertStep_rollback env j b h]
    exact upsertCaseRollbackTransaction_noBegin env j

theorem handleUpsert_noBegin (env : Env) (fuel : Nat) (j : Job) (b : Option TBinlog)
    (h : PastBegin j) :
    ∃ new, Extends j (handleUpsert env fuel j b).job new ∧ NoBeginTransaction new := by
  induction fuel generalizing j with
  | zero => exact ⟨[], by simp [Extends, handleUpsert, Outcome.job], by simp [NoBeginTransaction]⟩
  | succ fuel ih =>
    obtain ⟨⟨new, h1, h2⟩, h3⟩ := handleUpsertStep_noBegin env j b h
    simp only [handleUpsert]
    cases hs : handleUpsertStep env j b with
    | recurse j1 =>
      rw [hs] at h1
      obtain ⟨new1, h4, h5⟩ := ih j1 (h3 j1 hs)
      refine ⟨new ++ new1, Extends.trans h1 h4, ?_⟩
      intro l ids hm
      rcases List.mem_append.mp hm with hm | hm
      · exact h2 l ids hm
      · exact h5 l ids hm
    | done o =>
      rw [hs] at h1
      exact ⟨new, h1, h2⟩

/-- C6 (crash between `BeginTransaction` and `IngestBinlog`): when `handleUpsert` is
resumed (with or without a binlog) at sub-state `IngestBinlog`, with nothing in memory and
`PersistData` the serialization of the in-flight data `d` (which `json.Unmarshal` decodes
back to `d`), then for every fuel the first call it makes is the ingest with `d.TxnId` and
`d.TableRecords`, and none of the calls after it is a `BeginTransaction` RPC. -/
theorem handleUpsert_resume_ingest (env : Env) (fuel : Nat) (j : Job) (b : Option TBinlog)
    (d : UpsertData)
    (hsub : j.progress.SubSyncState = IngestBinlog)
    (hmem : j.progress.InMemoryData = .null)
    (hpersist : j.progress.PersistData = env.Json.MarshalUpsert d)
    (hjson : env.Json.UnmarshalUpsert (env.Json.MarshalUpsert d) = some d) :
    ∃ rest, (handleUpsert env (fuel + 1) j b).job.trace =
        j.trace ++ Event.IngestBinlog d.TxnId d.TableRecords :: rest ∧
      NoBeginTransaction rest := by
  have hin : InFlight env j d := Or.inr ⟨hmem, by rw [hpersist, hjson]⟩
  have hstep : ∃ j1, handleUpsertStep env j b = .recurse j1 ∧ PastBegin j1 ∧
      Extends j j1 [.IngestBinlog d.TxnId d.TableRecords,
        .progress (.NextSubCheckpoint j1.progress.SubSyncState)] := by
    rw [handleUpsertStep_ingest env j b hsub]
    simp only [upsertCaseIngestBinlog, updateInMemory_inFlight env j d hin, Job.withUpsert_mem,
      ingestBinlog]
    cases env.Ingest (j.withUpsert d).trace d.TxnId d.TableRecords
        (j.withUpsert d).progress.TableMapping with
    | error e => exact ⟨_, rfl, Or.inr (Or.inr rfl), by simp [Extends, rollback]⟩
    | ok infos => exact ⟨_, rfl, Or.inr (Or.inl rfl), by simp [Extends]⟩
  obtain ⟨j1, h1, h2, h3⟩ := hstep
  obtain ⟨new, h4, h5⟩ := handleUpsert_noBegin env fuel j1 b h2
  refine ⟨.progress (.NextSubCheckpoint j1.progress.SubSyncState) :: new, ?_, ?_⟩
  · simp only [handleUpsert, h1]
    have := Extends.trans h3 h4
    simpa [Extends] using this
  · intro l ids hm
    rcases List.mem_cons.mp hm with hm | hm
    · cases hm
    · exact h5 l ids hm

/-- Witness of C6: the job reloaded at `IngestBinlog` with `PersistData = "txn7"`, the
serialization of `upsertData7` (transaction 7). -/
theorem handleUpsert_resume_ingest_witness :
    ∃ rest, (handleUpsert envCodec 3 (crashedJob IngestBinlog) none).job.trace =
        (crashedJob IngestBinlog).trace ++ Event.IngestBinlog 7 [⟨100, []⟩] :: rest ∧
      NoBeginTransaction rest :=
  handleUpsert_resume_ingest envCodec 2 (crashedJob IngestBinlog) none upsertData7 rfl rfl rfl rfl
/-! ## C7: the status of `CommitTransaction` -/

theorem upsertCaseCommitTransaction_status (env : Env) (j : Job) (d : UpsertData)
    (status : TStatus) (hin : InFlight env j d)
    (hrpc : env.NewFeRpc j.trace .Dest = none)
    (hcommit : env.CommitTransaction (j.trace ++ [.NewFeRpc .Dest]) d.TxnId d.CommitInfos =
      .ok status) :
    upsertCaseCommitTransaction env j =
      if status.StatusCode = .PUBLISH_TIMEOUT then
        committedReturnNil
          ((((j.withUpsert d).log (.NewFeRpc .Dest)).log
            (.CommitTransaction d.TxnId d.CommitInfos)).log (.WaitTransactionDone d.TxnId))
      else if status.StatusCode ≠ .OK then
        .recurse (rollback env (((j.withUpsert d).log (.NewFeRpc .Dest)).log
          (.CommitTransaction d.TxnId d.CommitInfos)) d)
      else
        committedReturnNil (((j.withUpsert d).log (.NewFeRpc .Dest)).log
          (.CommitTransaction d.TxnId d.CommitInfos)) := by
  simp only [upsertCaseCommitTransaction, updateInMemory_inFlight env j d hin, Job.withUpsert_mem,
    Job.withUpsert_trace, hrpc, Job.log_trace, hcommit]

theorem committedReturnNil_of_upsert (j : Job) (d : UpsertData)
    (hd : j.progress.InMemoryData = .upsert d) :
    committedReturnNil j = .done (.ret none (committed j).job) := by
  have h := (committed_of_upsert j d hd).1
  unfold committedReturnNil
  cases hc : committed j with
  | ret a j1 => rfl
  | panic j1 => rw [hc] at h; cases h
  | outOfFuel j1 => rw [hc] at h; cases h

theorem committed_noRollback (j0 j : Job) (d : UpsertData) (pre : List Event)
    (hd : j.progress.InMemoryData = .upsert d) (h : Extends j0 j pre)
    (hp : NoRollbackTransaction pre) :
    ∃ new, Extends j0 (committed j).job new ∧ NoRollbackTransaction new ∧
      ∀ e ∈ pre, e ∈ new := by
  rcases (committed_of_upsert j d hd).2.2.2.2 with ht | ht
  · refine ⟨pre ++ [.progress .Persist, .progress .Done], ?_, ?_, ?_⟩
    · unfold Extends at *
      rw [ht, h, List.append_assoc]
    · intro t hm
      rcases List.mem_append.mp hm with hm | hm
      · exact hp t hm
      · simp at hm
    · intro e he
      exact List.mem_append.mpr (Or.inl he)
  · refine ⟨pre ++ [.progress .Done], ?_, ?_, ?_⟩
    · unfold Extends at *
      rw [ht, h, List.append_assoc]
    · intro t hm
      rcases List.mem_append.mp hm with hm | hm
      · exact hp t hm
      · simp at hm
    · intro e he
      exact List.mem_append.mpr (Or.inl he)

/-- C7 as stated fails: the job reloaded at `CommitTransaction` with transaction 7 in
flight gets a status that is neither `OK` nor `PUBLISH_TIMEOUT` from the commit RPC (no
transport error); the sub-state moves to `RollbackTransaction`, but obtaining the RPC client
for the rollback fails, `handleUpsert` returns that error and no `RollbackTransaction` RPC
is issued. -/
theorem commit_refused_no_rollback_rpc :
    envCommitRefused.CommitTransaction ((crashedJob CommitTransaction).trace ++ [.NewFeRpc .Dest])
        7 [⟨1, 2⟩] = .ok ⟨.Other 1, ["commit refused"]⟩ ∧
    (handleUpsert envCommitRefused 5 (crashedJob CommitTransaction) none).value? =
      some (some (.other "no frontend")) ∧
    (handleUpsert envCommitRefused 5 (crashedJob CommitTransaction) none).job.progress.SubSyncState =
      RollbackTransaction ∧
    Event.RollbackTransaction 7 ∉
      (handleUpsert envCommitRefused 5 (crashedJob CommitTransaction) none).job.trace :=
  ⟨rfl, by decide, by decide, by decide⟩

theorem updateInMemory_of_upsert (env : Env) (j : Job) (d : UpsertData)
    (hd : j.progress.InMemoryData = .upsert d) : updateInMemory env j = (none, j) := by
  simp [updateInMemory, hd]

theorem upsertCaseRollbackTransaction_rpc (env : Env) (j : Job) (d : UpsertData)
    (hd : j.progress.InMemoryData = .upsert d) :
    (env.NewFeRpc j.trace .Dest = none →
      (∃ o, upsertCaseRollbackTransaction env j = .done o) ∧
      ∃ rest, (upsertCaseRollbackTransaction env j).job.trace =
        j.trace ++ [.NewFeRpc .Dest, .RollbackTransaction d.TxnId] ++ rest) ∧
    (∀ e, env.NewFeRpc j.trace .Dest = some e →
      upsertCaseRollbackTransaction env j = .done (.ret (some e) (j.log (.NewFeRpc .Dest)))) := by
  refine ⟨fun hn => ?_, fun e hn => ?_⟩
  · simp only [upsertCaseRollbackTransaction, updateInMemory_of_upsert env j d hd, hd, hn]
    cases env.RollbackTransaction (j.log (.NewFeRpc .Dest)).trace d.TxnId with
    | error e => exact ⟨⟨_, rfl⟩, [], by simp [Step.job, Outcome.job]⟩
    | ok status =>
      have hroll : ∃ rest, (Step.done (.ret none
          (((j.log (.NewFeRpc .Dest)).log (.RollbackTransaction d.TxnId)).Rollback
            ((j.log (.NewFeRpc .Dest)).log (.RollbackTransaction d.TxnId)).SkipError))).job.trace =
          j.trace ++ [.NewFeRpc .Dest, .RollbackTransaction d.TxnId] ++ rest :=
        ⟨[.progress (.Rollback j.SkipError)], by simp [Step.job, Outcome.job]⟩
      simp only
      split_ifs
      · exact ⟨⟨_, rfl⟩, hroll⟩
      · exact ⟨⟨_, rfl⟩, hroll⟩
      · have hd2 : ((j.log (.NewFeRpc .Dest)).log
            (.RollbackTransaction d.TxnId)).progress.InMemoryData = .upsert d := by simpa using hd
        rw [committedReturnNil_of_upsert _ d hd2]
        refine ⟨⟨_, rfl⟩, ?_⟩
        rcases (committed_of_upsert _ d hd2).2.2.2.2 with ht | ht
        · exact ⟨[.progress .Persist, .progress .Done], by simp [ht]⟩
        · exact ⟨[.progress .Done], by simp [ht]⟩
      · exact ⟨⟨_, rfl⟩, [], by simp [Step.job, Outcome.job]⟩
      · exact ⟨⟨_, rfl⟩, hroll⟩
  · simp only [upsertCaseRollbackTransaction, updateInMemory_of_upsert env j d hd, hd, hn]

/-- C7 (amended): for an upsert at sub-state `CommitTransaction` with in-flight data `d`
whose `CommitTransaction` RPC returns a status without transport error: status `OK` returns
nil through the committed path; status `PUBLISH_TIMEOUT` calls `WaitTransactionDone(d.TxnId)`,
issues no `RollbackTransaction` RPC and returns nil with sub-state `Done` and `CommitSeq`
unchanged; every other status moves the sub-state to `RollbackTransaction`, and then the
rollback RPC is issued for `d.TxnId` provided the RPC client of the destination is obtained
again without error; when that fails, `handleUpsert` returns the error at sub-state
`RollbackTransaction` and no rollback RPC has been issued. -/
theorem handleUpsert_commit_status (env : Env) (fuel : Nat) (j : Job) (b : Option TBinlog)
    (d : UpsertData) (status : TStatus)
    (hsub : j.progress.SubSyncState = CommitTransaction)
    (hin : InFlight env j d)
    (hrpc : env.NewFeRpc j.trace .Dest = none)
    (hcommit : env.CommitTransaction (j.trace ++ [.NewFeRpc .Dest]) d.TxnId d.CommitInfos =
      .ok status) :
    (status.StatusCode = .OK →
      handleUpsert env (fuel + 1) j b = .ret none
        (committed (((j.withUpsert d).log (.NewFeRpc .Dest)).log
          (.CommitTransaction d.TxnId d.CommitInfos))).job ∧
      (handleUpsert env (fuel + 1) j b).job.progress.SubSyncState = Done ∧
      (handleUpsert env (fuel + 1) j b).job.progress.CommitSeq = j.progress.CommitSeq) ∧
    (status.StatusCode = .PUBLISH_TIMEOUT →
      (handleUpsert env (fuel + 1) j b).value? = some none ∧
      (handleUpsert env (fuel + 1) j b).job.progress.SubSyncState = Done ∧
      (handleUpsert env (fuel + 1) j b).job.progress.CommitSeq = j.progress.CommitSeq ∧
      ∃ new, Extends j (handleUpsert env (fuel + 1) j b).job new ∧
        Event.WaitTransactionDone d.TxnId ∈ new ∧ NoRollbackTransaction new) ∧
    (status.StatusCode ≠ .OK → status.StatusCode ≠ .PUBLISH_TIMEOUT →
      ∃ j3, handleUpsertStep env j b = .recurse j3 ∧
        j3.progress.SubSyncState = RollbackTransaction ∧
        j3.trace = j.trace ++ [.NewFeRpc .Dest, .CommitTransaction d.TxnId d.CommitInfos,
          .progress (.NextSubCheckpoint RollbackTransaction)] ∧
        (env.NewFeRpc j3.trace .Dest = none →
          ∃ rest, (handleUpsert env (fuel + 2) j b).job.trace =
            j3.trace ++ [.NewFeRpc .Dest, .RollbackTransaction d.TxnId] ++ rest) ∧
        (∀ e, env.NewFeRpc j3.trace .Dest = some e →
          handleUpsert env (fuel + 2) j b = .ret (some e) (j3.log (.NewFeRpc .Dest)))) := by
  have hstep := upsertCaseCommitTransaction_status env j d status hin hrpc hcommit
  rw [← handleUpsertStep_commit env j b hsub] at hstep
  have hd2 : (((j.withUpsert d).log (.NewFeRpc .Dest)).log
      (.CommitTransaction d.TxnId d.CommitInfos)).progress.InMemoryData = .upsert d := rfl
  refine ⟨fun hok => ?_, fun hpt => ?_, fun hok hpt => ?_⟩
  · have hne : ¬ status.StatusCode = .PUBLISH_TIMEOUT := by rw [hok]; simp
    rw [if_neg hne, if_neg (not_not.mpr hok), committedReturnNil_of_upsert _ d hd2] at hstep
    have hc := committed_of_upsert _ d hd2
    have hres : handleUpsert env (fuel + 1) j b = .ret none
        (committed (((j.withUpsert d).log (.NewFeRpc .Dest)).log
          (.CommitTransaction d.TxnId d.CommitInfos))).job := by
      simp only [handleUpsert, hstep]
    rw [hres]
    exact ⟨rfl, hc.2.1, hc.2.2.1⟩
  · have hd3 : ((((j.withUpsert d).log (.NewFeRpc .Dest)).log
        (.CommitTransaction d.TxnId d.CommitInfos)).log
        (.WaitTransactionDone d.TxnId)).progress.InMemoryData = .upsert d := rfl
    rw [if_pos hpt, committedReturnNil_of_upsert _ d hd3] at hstep
    have hc := committed_of_upsert _ d hd3
    have hres : handleUpsert env (fuel + 1) j b = .ret none
        (committed ((((j.withUpsert d).log (.NewFeRpc .Dest)).log
          (.CommitTransaction d.TxnId d.CommitInfos)).log (.WaitTransactionDone d.TxnId))).job := by
      simp only [handleUpsert, hstep]
    rw [hres]
    refine ⟨rfl, hc.2.1, hc.2.2.1, ?_⟩
    obtain ⟨new, h1, h2, h3⟩ := committed_noRollback j _ d
      [.NewFeRpc .Dest, .CommitTransaction d.TxnId d.CommitInfos, .WaitTransactionDone d.TxnId]
      hd3 (by simp [Extends]) (by simp [NoRollbackTransaction])
    exact ⟨new, h1, h3 _ (by simp), h2⟩
  · rw [if_neg hpt, if_pos hok] at hstep
    refine ⟨_, hstep, rfl, by simp [rollback], fun hn => ?_, fun e hn => ?_⟩
    · have hr := (upsertCaseRollbackTransaction_rpc env
        (rollback env (((j.withUpsert d).log (.NewFeRpc .Dest)).log
          (.CommitTransaction d.TxnId d.CommitInfos)) d) d rfl).1 hn
      obtain ⟨⟨o, ho⟩, rest, hrest⟩ := hr
      refine ⟨rest, ?_⟩
      simp only [handleUpsert, hstep]
      rw [handleUpsertStep_rollback env _ b rfl, ho]
      rw [ho] at hrest
      exact hrest
    · have hr := (upsertCaseRollbackTransaction_rpc env
        (rollback env (((j.withUpsert d).log (.NewFeRpc .Dest)).log
          (.CommitTransaction d.TxnId d.CommitInfos)) d) d rfl).2 e hn
      simp only [handleUpsert, hstep]
      rw [handleUpsertStep_rollback env _ b rfl, hr]

/-- Witness of C7 (scenario 3 of the spec): the upsert at `CommitSeq` 700 with transaction
7 in flight gets `PUBLISH_TIMEOUT` from the commit RPC. -/
theorem handleUpsert_commit_status_witness :
    (handleUpsert envPublishTimeout 1 (crashedJob CommitTransaction) none).value? = some none ∧
    (handleUpsert envPublishTimeout 1 (crashedJob CommitTransaction) none).job.progress.SubSyncState
      = Done ∧
    (handleUpsert envPublishTimeout 1 (crashedJob CommitTransaction) none).job.progress.CommitSeq
      = 700 ∧
    ∃ new, Extends (crashedJob CommitTransaction)
        (handleUpsert envPublishTimeout 1 (crashedJob CommitTransaction) none).job new ∧
      Event.WaitTransactionDone 7 ∈ new ∧ NoRollbackTransaction new :=
  (handleUpsert_commit_status envPublishTimeout 0 (crashedJob CommitTransaction) none upsertData7
    ⟨.PUBLISH_TIMEOUT, []⟩ rfl (Or.inr ⟨rfl, rfl⟩) rfl rfl).2.1 rfl
/-! ## C8: the classification of a failed rollback -/

/-- C8 as stated fails: the rollback RPC of transaction 7 answers a non-OK status one of
whose messages contains `is already COMMITTED` and another `is already aborted`;
`isTxnAborted` is asked before `isTxnCommitted`, so `handleUpsert` calls
`progress.Rollback`. -/
theorem rollback_committed_and_aborted :
    envRollbackBoth.RollbackTransaction ((crashedJob RollbackTransaction).trace ++ [.NewFeRpc .Dest])
        7 = .ok ⟨.Other 1,
          ["transaction [7] is already aborted", "transaction [7] is already COMMITTED"]⟩ ∧
    stringsContains "transaction [7] is already COMMITTED" "is already COMMITTED" = true ∧
    (handleUpsert envRollbackBoth 5 (crashedJob RollbackTransaction) none).value? = some none ∧
    Event.progress (.Rollback false) ∈
      (handleUpsert envRollbackBoth 5 (crashedJob RollbackTransaction) none).job.trace :=
  ⟨rfl, by decide, by decide, by decide⟩

theorem committed_noProgressRollback (j0 j : Job) (d : UpsertData) (pre : List Event)
    (hd : j.progress.InMemoryData = .upsert d) (h : Extends j0 j pre)
    (hp : NoProgressRollback pre) :
    ∃ new, Extends j0 (committed j).job new ∧ NoProgressRollback new := by
  rcases (committed_of_upsert j d hd).2.2.2.2 with ht | ht
  · refine ⟨pre ++ [.progress .Persist, .progress .Done], ?_, ?_⟩
    · unfold Extends at *
      rw [ht, h, List.append_assoc]
    · intro t hm
      rcases List.mem_append.mp hm with hm | hm
      · exact hp t hm
      · simp at hm
  · refine ⟨pre ++ [.progress .Done], ?_, ?_⟩
    · unfold Extends at *
      rw [ht, h, List.append_assoc]
    · intro t hm
      rcases List.mem_append.mp hm with hm | hm
      · exact hp t hm
      · simp at hm

/-- C8 (amended): for an upsert at sub-state `RollbackTransaction` with in-flight data `d`
whose `RollbackTransaction` RPC returns a non-OK status at least one of whose messages
contains `is already COMMITTED` and which neither `isTxnNotFound` nor `isTxnAborted`
accepts, `handleUpsert` returns nil through the committed path: the job is the one
`committed` leaves, with sub-state `Done` and `CommitSeq` kept, and `progress.Rollback` is
not called. -/
theorem handleUpsert_rollback_already_committed (env : Env) (fuel : Nat) (j : Job)
    (b : Option TBinlog) (d : UpsertData) (status : TStatus)
    (hsub : j.progress.SubSyncState = RollbackTransaction)
    (hin : InFlight env j d)
    (hrpc : env.NewFeRpc j.trace .Dest = none)
    (hroll : env.RollbackTransaction (j.trace ++ [.NewFeRpc .Dest]) d.TxnId = .ok status)
    (hcode : status.StatusCode ≠ .OK)
    (hmsg : ∃ msg ∈ status.ErrorMsgs, "is already COMMITTED".data <:+: msg.data)
    (hnf : isTxnNotFound status = false) (hab : isTxnAborted status = false) :
    handleUpsert env (fuel + 1) j b = .ret none
      (committed (((j.withUpsert d).log (.NewFeRpc .Dest)).log (.RollbackTransaction d.TxnId))).job ∧
    (handleUpsert env (fuel + 1) j b).job.progress.SubSyncState = Done ∧
    (handleUpsert env (fuel + 1) j b).job.progress.CommitSeq = j.progress.CommitSeq ∧
    ∃ new, Extends j (handleUpsert env (fuel + 1) j b).job new ∧ NoProgressRollback new := by
  have hc : isTxnCommitted status = true := (isTxnCommitted_iff status).mpr hmsg
  have hd2 : (((j.withUpsert d).log (.NewFeRpc .Dest)).log
      (.RollbackTransaction d.TxnId)).progress.InMemoryData = .upsert d := rfl
  have hstep : handleUpsertStep env j b = .done (.ret none
      (committed (((j.withUpsert d).log (.NewFeRpc .Dest)).log
        (.RollbackTransaction d.TxnId))).job) := by
    rw [handleUpsertStep_rollback env j b hsub, ← committedReturnNil_of_upsert _ d hd2]
    simp [upsertCaseRollbackTransaction, updateInMemory_inFlight env j d hin, hrpc, hroll, hcode,
      hnf, hab, hc]
  have hres : handleUpsert env (fuel + 1) j b = .ret none
      (committed (((j.withUpsert d).log (.NewFeRpc .Dest)).log
        (.RollbackTransaction d.TxnId))).job := by
    simp only [handleUpsert, hstep]
  have hcm := committed_of_upsert _ d hd2
  rw [hres]
  exact ⟨rfl, hcm.2.1, hcm.2.2.1,
    committed_noProgressRollback j _ d [.NewFeRpc .Dest, .RollbackTransaction d.TxnId] hd2
      (by simp [Extends]) (by simp [NoProgressRollback])⟩

/-- Witness of C8: the rollback RPC of transaction 7 answers a non-OK status whose only
message says the transaction is already committed. -/
theorem handleUpsert_rollback_already_committed_witness :
    (handleUpsert envRollbackCommitted 1 (crashedJob RollbackTransaction) none).job.progress.SubSyncState
      = Done ∧
    (handleUpsert envRollbackCommitted 1 (crashedJob RollbackTransaction) none).job.progress.CommitSeq
      = 700 ∧
    ∃ new, Extends (crashedJob RollbackTransaction)
        (handleUpsert envRollbackCommitted 1 (crashedJob RollbackTransaction) none).job new ∧
      NoProgressRollback new :=
  (handleUpsert_rollback_already_committed envRollbackCommitted 0 (crashedJob RollbackTransaction)
    none upsertData7 ⟨.Other 1, ["transaction [7] is already COMMITTED"]⟩ rfl (Or.inr ⟨rfl, rfl⟩)
    rfl rfl (by decide)
    ⟨"transaction [7] is already COMMITTED", by simp, (containsChars_iff _ _).mp (by decide)⟩
    (by decide) (by decide)).2
/-! ## C9: floor lifting in `committed` -/

theorem liftTableCommitSeq_keys (commitSeq : Int) (ids : List Int) (m : GoMap Int) :
    (liftTableCommitSeq commitSeq ids m).map Prod.fst = m.map Prod.fst := by
  induction ids generalizing m with
  | nil => rfl
  | cons tableId rest ih =>
    simp only [liftTableCommitSeq]
    cases hl : GoMap.lookup m tableId with
    | none => exact ih m
    | some v =>
      by_cases hv : v < commitSeq
      · simp only [hv, if_true]
        rw [ih, GoMap.keys_set_of_lookup m tableId v commitSeq hl]
      · simp only [hv, if_false]
        exact ih m

theorem liftTableCommitSeq_lookup (commitSeq : Int) (ids : List Int) (m : GoMap Int) (k : Int) :
    GoMap.lookup (liftTableCommitSeq commitSeq ids m) k =
      if k ∈ ids then (GoMap.lookup m k).map (fun v => max v commitSeq) else GoMap.lookup m k := by
  induction ids generalizing m with
  | nil => simp [liftTableCommitSeq]
  | cons tableId rest ih =>
    simp only [liftTableCommitSeq]
    cases hl : GoMap.lookup m tableId with
    | none =>
      rw [ih m]
      by_cases hk : k = tableId
      · subst hk
        simp [hl]
      · simp [hk]
    | some v =>
      by_cases hv : v < commitSeq
      · simp only [hv, if_true]
        rw [ih, GoMap.lookup_set]
        by_cases hk : tableId = k
        · subst hk
          simp [hl, max_eq_right (le_of_lt hv)]
        · have hk2 : ¬ k = tableId := fun h => hk h.symm
          simp [hk, hk2]
      · simp only [hv, if_false]
        rw [ih m]
        by_cases hk : k = tableId
        · subst hk
          have : max v commitSeq = v := max_eq_left (not_lt.mp hv)
          by_cases hr : k ∈ rest <;> simp [hl, hr, this]
        · simp [hk]

/-- C9 (floor lifting on commit): when `committed` runs on a job holding the upsert
in-memory data `d`, it returns with sub-state `Done`; for `DBSync` with a non-empty
`TableCommitSeqMap` `m` the new map has the keys of `m` in the same order, every key listed
in `d.DestTableIds` is sent to `max(old value, CommitSeq)` and every other key keeps its
value; for another sync type or an empty or nil map `TableCommitSeqMap` is untouched. -/
theorem committed_lifts_floors (j : Job) (d : UpsertData)
    (hd : j.progress.InMemoryData = .upsert d) :
    (∃ j1, committed j = .ret () j1 ∧ j1.progress.SubSyncState = Done ∧
      j1.progress.CommitSeq = j.progress.CommitSeq) ∧
    (j.SyncType = .DBSync → ∀ m, j.progress.TableCommitSeqMap = some m → m ≠ [] →
      ∃ m1, (committed j).job.progress.TableCommitSeqMap = some m1 ∧
        m1.map Prod.fst = m.map Prod.fst ∧
        ∀ k, GoMap.lookup m1 k =
          if k ∈ d.DestTableIds then (GoMap.lookup m k).map (fun v => max v j.progress.CommitSeq)
          else GoMap.lookup m k) ∧
    ((j.SyncType ≠ .DBSync ∨ GoMap.len j.progress.TableCommitSeqMap = 0) →
      (committed j).job.progress.TableCommitSeqMap = j.progress.TableCommitSeqMap) := by
  refine ⟨?_, ?_, ?_⟩
  · by_cases hc : j.SyncType = .DBSync ∧ GoMap.len j.progress.TableCommitSeqMap > 0
    · simp only [committed, hd]
      rw [if_pos hc]
      exact ⟨_, rfl, rfl, rfl⟩
    · simp only [committed, hd]
      rw [if_neg hc]
      exact ⟨_, rfl, rfl, rfl⟩
  · intro hs m hm hne
    have hlen : 0 < GoMap.len (some m) := List.length_pos.mpr hne
    refine ⟨liftTableCommitSeq j.progress.CommitSeq d.DestTableIds m, ?_, ?_, ?_⟩
    · simp [committed, hd, hs, hlen, hm, Outcome.job, Job.Persist, Job.Done, JobProgress.Persist,
        JobProgress.Done]
    · exact liftTableCommitSeq_keys _ _ _
    · exact liftTableCommitSeq_lookup _ _ _
  · intro h
    have hc : ¬ (j.SyncType = .DBSync ∧ GoMap.len j.progress.TableCommitSeqMap > 0) := by
      rintro ⟨h1, h2⟩
      rcases h with h | h
      · exact h h1
      · omega
    simp [committed, hd, hc, Outcome.job, Job.Done, JobProgress.Done]

/-- Witness of C9: a `DBSync` job at `CommitSeq` 125 with floors `{11: 120, 2: 80}` and the
destination table id 11 in flight. -/
theorem committed_lifts_floors_witness :
    (committed (dbJob ⟨.DBTablesIncrementalSync, CommitTransaction, 125, "",
        .upsert ⟨125, 7, [11], [], []⟩, some [(11, 120), (2, 80)], none⟩)).job.progress.TableCommitSeqMap
      = some [(11, 125), (2, 80)] ∧
    (∃ j1, committed (dbJob ⟨.DBTablesIncrementalSync, CommitTransaction, 125, "",
        .upsert ⟨125, 7, [11], [], []⟩, some [(11, 120), (2, 80)], none⟩) = .ret () j1 ∧
      j1.progress.SubSyncState = Done ∧ j1.progress.CommitSeq = 125) :=
  ⟨by decide, (committed_lifts_floors _ ⟨125, 7, [11], [], []⟩ rfl).1⟩
/-! ## C10: the TableSync happy path of `fullSync` -/

/-- The polling loop of `RestoreSnapshot`: when the restore is reported finished once
`base + n` polls have been made, and `r` more unfinished answers are due, the loop polls
`r + 1` times and then checkpoints `PersistRestoreInfo` with the restore name. -/
theorem waitRestoreFinished_polls (env : Env) (name : String) (n base : Nat)
    (hpoll : ∀ hist nm, env.CheckRestoreFinished hist nm =
      .ok (decide (base + n ≤ restorePolls hist)))
    (r fuel : Nat) (j : Job) (hr : restorePolls j.trace + r = base + n) (hfuel : r < fuel) :
    waitRestoreFinished env fuel j name =
      .recurse (Job.NextSubCheckpoint env
        { j with trace := (j.trace ++ List.replicate (r + 1) (.CheckRestoreFinished name)) }
        PersistRestoreInfo (.str name)) := by
  induction r generalizing j fuel with
  | zero =>
    obtain ⟨f, rfl⟩ : ∃ f, fuel = f + 1 := ⟨fuel - 1, by omega⟩
    have h : decide (base + n ≤ restorePolls j.trace) = true := by
      simp only [decide_eq_true_eq]; omega
    simp [waitRestoreFinished, hpoll, h, Job.log]
  | succ r ih =>
    obtain ⟨f, rfl⟩ : ∃ f, fuel = f + 1 := ⟨fuel - 1, by omega⟩
    have h : decide (base + n ≤ restorePolls j.trace) = false := by
      simp only [decide_eq_false_iff_not]; omega
    simp only [waitRestoreFinished, hpoll, h]
    rw [ih f (j.log (.CheckRestoreFinished name))
      (by simp [Job.log, restorePolls, List.countP_append] at hr ⊢; omega) (by omega)]
    simp [Job.log, List.replicate_succ]

/-- C10 (TableSync happy path): a `TableSync` job at sub-state `BeginCreateSnapshot` all of
whose collaborators succeed: the snapshot `snapshotName` is created, the RPC clients are
obtained, `GetSnapshot` answers `OK` with a `job_info` whose table commit seq map sends the
source table id to `c`, the job info decodes to a map and is encoded again, master token and
backends are read, the restore answers `OK` and is reported finished at poll `n + 1` (the
first `n` polls say not yet), the destination meta refresh returns a table of id `d`, the job
is persisted.  For every fuel of at least `n + 5`, `fullSync` returns nil; the calls it has
made are, in order, those up to the persisted baseline `c`, the restore RPC for the restore
name with the re-encoded job info, `n + 1` polls of that restore name, the checkpoint of
`PersistRestoreInfo`, the meta refresh, the persisting of the job with the new table id, and
the transition to `TableIncrementalSync` / `Done` at `c`; the progress is
`TableIncrementalSync` / `Done` / `CommitSeq = c`, `Dest.TableId = d` and both table maps
are nil. -/
theorem fullSync_tableSync_happy_path (env : Env) (fuel n : Nat) (j : Job)
    (snapshotName jobInfo token restoreName : String) (snapStatus restoreStatus : TStatus)
    (m : GoMap Int) (c : Int) (jobInfoMap : JobInfoMap) (backends : List Backend)
    (bytesOf : JobInfoMap → String) (destTable : TableMeta)
    (hsync : j.SyncType = .TableSync)
    (hsub : j.progress.SubSyncState = BeginCreateSnapshot)
    (hcreate : ∀ hist, env.CreateSnapshotAndWaitForDone hist [j.Src.Table] = .ok snapshotName)
    (hrpc : ∀ hist side, env.NewFeRpc hist side = none)
    (hsnap : ∀ hist, env.GetSnapshot hist snapshotName = .ok ⟨snapStatus, some jobInfo⟩)
    (hsnapOk : snapStatus.StatusCode = .OK)
    (hextract : env.ExtractTableCommitSeqMap jobInfo = .ok (some m))
    (hseq : GoMap.lookup m j.Src.TableId = some c)
    (hunmarshal : env.UnmarshalJobInfo jobInfo = .ok (some jobInfoMap))
    (htoken : ∀ hist, env.GetMasterToken hist = .ok token)
    (hbackends : ∀ hist, env.GetBackends hist = .ok backends)
    (hmarshal : ∀ x, env.MarshalJobInfo x = .ok (bytesOf x))
    (hname : restoreName = restoreSnapshotName env
      (j.trace ++ fullSyncCallsBeforeRestore j snapshotName c) snapshotName)
    (hrestore : ∀ hist refs name resp, env.RestoreSnapshot hist refs name resp = .ok restoreStatus)
    (hrestoreOk : restoreStatus.StatusCode = .OK)
    (hpoll : ∀ hist name, env.CheckRestoreFinished hist name =
      .ok (decide (restorePolls j.trace + n ≤ restorePolls hist)))
    (hupdate : ∀ hist, env.UpdateTable hist j.Dest.Table 0 = .ok destTable)
    (hpersist : ∀ hist name data, env.UpdateJob hist name data = none) :
    ∃ jf, fullSync env (fuel + n + 5) j = .ret none jf ∧
      jf.trace = j.trace ++ fullSyncCallsBeforeRestore j snapshotName c ++
        [.NewFeRpc .Dest,
         .RestoreSnapshot
           (if j.Src.Table ≠ j.Dest.Table then [⟨j.Src.Table, j.Dest.Table⟩] else [])
           restoreName
           ⟨snapStatus, some (bytesOf { jobInfoMap with
             ExtraInfo := some ⟨backends.foldl (fun bm backend =>
               GoMap.set bm backend.Id ⟨backend.Host, backend.HttpPort⟩) [], token⟩ })⟩] ++
        List.replicate (n + 1) (.CheckRestoreFinished restoreName) ++
        [.progress (.NextSubCheckpoint PersistRestoreInfo), .UpdateTable j.Dest.Table 0,
         .UpdateJob j.Name { j.toJson with Dest := { j.Dest with TableId := destTable.Id } },
         .progress (.NextWithPersist c .TableIncrementalSync Done "")] ∧
      jf.progress.SyncState = .TableIncrementalSync ∧
      jf.progress.SubSyncState = Done ∧
      jf.progress.CommitSeq = c ∧
      jf.Dest.TableId = destTable.Id ∧
      jf.progress.TableCommitSeqMap = none ∧
      jf.progress.TableMapping = none := by
  subst hname
  simp [fullSync, fullSyncStep, fullSyncCaseBeginCreateSnapshot, fullSyncCaseGetSnapshotInfo,
    fullSyncCaseAddExtraInfo, fullSyncCaseRestoreSnapshot,
    genExtraInfo, restoreCommitSeq, hsub, hsync, hcreate, hrpc,
    hsnap, hsnapOk, hextract, hseq, hunmarshal, htoken, hbackends, hmarshal, hrestore, hrestoreOk,
    Done, BeginCreateSnapshot, GetSnapshotInfo, AddExtraInfo,
    RestoreSnapshot, PersistRestoreInfo, Job.log, Job.NextSubCheckpoint, Job.NextSubVolatile,
    Job.CommitNextSubWithPersist, JobProgress.NextSubCheckpoint,
    JobProgress.NextSubVolatile, JobProgress.CommitNextSubWithPersist, persistString]
  have hw := waitRestoreFinished_polls env
    (restoreSnapshotName env (j.trace ++ fullSyncCallsBeforeRestore j snapshotName c)
      snapshotName) n (restorePolls j.trace) hpoll n (fuel + n + 1)
  simp only [fullSyncCallsBeforeRestore, GetSnapshotInfo, AddExtraInfo, RestoreSnapshot] at hw
  rw [hw _ (by simp [restorePolls, List.countP_append, List.countP_cons]) (by omega)]
  simp [fullSync, fullSyncStep, fullSyncCasePersistRestoreInfo, persistJob, hsync, hupdate,
    hpersist, Done, BeginCreateSnapshot, GetSnapshotInfo, AddExtraInfo, RestoreSnapshot,
    PersistRestoreInfo, Job.log, Job.toJson, Job.NextSubCheckpoint, Job.NextWithPersist,
    JobProgress.NextSubCheckpoint, JobProgress.NextWithPersist, persistString,
    fullSyncCallsBeforeRestore]

/-- Witness of C10 (scenario 1 of the spec, with a restore that is finished at the second
poll): source table `T` of id 100, progress `TableFullSync` / `BeginCreateSnapshot` /
`CommitSeq = 0`, snapshot `snap_1` whose job info holds `{100: 500}`, destination table id
200; with fuel 6 `fullSync` returns nil after two polls. -/
theorem fullSync_tableSync_happy_path_witness :
    ∃ jf, fullSync envSlowRestore 6 (tableJob (progress0 .TableFullSync BeginCreateSnapshot)) =
        .ret none jf ∧
      restorePolls jf.trace = 2 ∧
      jf.progress.SyncState = .TableIncrementalSync ∧
      jf.progress.SubSyncState = Done ∧
      jf.progress.CommitSeq = 500 ∧
      jf.Dest.TableId = 200 ∧
      jf.progress.TableCommitSeqMap = none ∧
      jf.progress.TableMapping = none := by
  obtain ⟨jf, h, ht, h1, h2, h3, h4, h5, h6⟩ :=
    fullSync_tableSync_happy_path envSlowRestore 0 1
      (tableJob (progress0 .TableFullSync BeginCreateSnapshot))
      "snap_1" "job_info" "token" "snap_1_r_0" ⟨.OK, []⟩ ⟨.OK, []⟩ [(100, 500)] 500
      ⟨"job_info", none⟩ [] (fun x => x.Rest) ⟨200, "T"⟩ rfl rfl (fun _ => rfl)
      (fun _ _ => rfl) (fun _ => rfl) rfl rfl rfl rfl (fun _ => rfl) (fun _ => rfl)
      (fun _ => rfl) (by decide) (fun _ _ _ _ => rfl) rfl (fun _ _ => rfl) (fun _ => rfl)
      (fun _ _ _ => rfl)
  exact ⟨jf, h, by rw [ht]; decide, h1, h2, h3, h4, h5, h6⟩

/-! ## C11: the restore baseline chosen by `AddExtraInfo` -/

/-- Lowering a start value to every value of a map gives a lower bound of the start value and
of every value of the map. -/
theorem foldl_min_le (m : GoMap Int) (init : Int) :
    m.foldl (fun commitSeq e => min commitSeq e.2) init ≤ init ∧
      ∀ e ∈ m, m.foldl (fun commitSeq e => min commitSeq e.2) init ≤ e.2 := by
  induction m generalizing init with
  | nil => simp
  | cons a m ih =>
    simp only [List.foldl_cons, List.mem_cons, forall_eq_or_imp]
    have h := ih (min init a.2)
    exact ⟨le_trans h.1 (min_le_left _ _), le_trans h.1 (min_le_right _ _), h.2⟩

/-- Lowering a start value to every value of a map gives the start value or a value of the
map. -/
theorem foldl_min_mem (m : GoMap Int) (init : Int) :
    m.foldl (fun commitSeq e => min commitSeq e.2) init = init ∨
      ∃ e ∈ m, e.2 = m.foldl (fun commitSeq e => min commitSeq e.2) init := by
  induction m generalizing init with
  | nil => simp
  | cons a m ih =>
    simp only [List.foldl_cons, List.mem_cons, exists_eq_or_imp]
    rcases ih (min init a.2) with h | ⟨e, he, h⟩
    · rcases min_choice init a.2 with h1 | h1
      · left; rw [h, h1]
      · right; left; rw [h, h1]
    · right; right; exact ⟨e, he, h⟩

/-- For `DBSync` and a non-empty map of int64 values, `restoreCommitSeq` is a value of the map
below every value of the map. -/
theorem restoreCommitSeq_dbSync (m : GoMap Int) (srcTableId : Int) (hne : m ≠ [])
    (hrange : ∀ e ∈ m, e.2 ≤ MaxInt64) :
    (∃ e ∈ m, e.2 = restoreCommitSeq .DBSync (some m) srcTableId) ∧
      ∀ e ∈ m, restoreCommitSeq .DBSync (some m) srcTableId ≤ e.2 := by
  simp only [restoreCommitSeq, Option.getD_some]
  refine ⟨?_, (foldl_min_le m MaxInt64).2⟩
  rcases foldl_min_mem m MaxInt64 with h | h
  · obtain ⟨a, ha⟩ := List.exists_mem_of_ne_nil m hne
    refine ⟨a, ha, ?_⟩
    have h1 := (foldl_min_le m MaxInt64).2 a ha
    have h2 := hrange a ha
    rw [h] at h1 ⊢
    exact le_antisymm h2 h1
  · exact h

/-- C11. Restore baseline: when the `AddExtraInfo` step of `fullSync` gets through (the job
info decodes to a map, the extra info is generated and the job info encodes again), it goes
on to
`RestoreSnapshot` with one `CommitNextSubWithPersist` call carrying the new CommitSeq; for a
`DBSync` job with a non-empty map of int64 values that CommitSeq is a value of the map that is
at most every value of the map, and `TableCommitSeqMap` is set to that map; for a `TableSync`
job it is the map's value at the source table id. -/
theorem addExtraInfo_restore_baseline (env : Env) (j j1 : Job) (d : FullSyncData)
    (jobInfoMap : JobInfoMap) (extraInfo : ExtraInfo) (jobInfoBytes : String)
    (hmem : j.progress.InMemoryData = .fullSync d)
    (hdecode : env.UnmarshalJobInfo (d.SnapshotResp.JobInfo.getD "") = .ok (some jobInfoMap))
    (hextra : genExtraInfo env j = (.ok extraInfo, j1))
    (hencode : env.MarshalJobInfo { jobInfoMap with ExtraInfo := some extraInfo } =
      .ok jobInfoBytes) :
    ∃ j2, fullSyncCaseAddExtraInfo env j = .recurse j2 ∧
      j2.progress.SubSyncState = RestoreSnapshot ∧
      j2.trace = j1.trace ++
        [.progress (.CommitNextSubWithPersist j2.progress.CommitSeq RestoreSnapshot)] ∧
      (j.SyncType = .DBSync → ∀ m, d.TableCommitSeqMap = some m → m ≠ [] →
        (∀ e ∈ m, e.2 ≤ MaxInt64) →
          (∃ e ∈ m, e.2 = j2.progress.CommitSeq) ∧ (∀ e ∈ m, j2.progress.CommitSeq ≤ e.2) ∧
            j2.progress.TableCommitSeqMap = some m) ∧
      (j.SyncType = .TableSync → ∀ m v, d.TableCommitSeqMap = some m →
        GoMap.lookup m j.Src.TableId = some v → j2.progress.CommitSeq = v) := by
  simp only [fullSyncCaseAddExtraInfo, hmem, hdecode, hextra, hencode]
  refine ⟨_, rfl, ?_, ?_, ?_, ?_⟩
  · simp [Job.CommitNextSubWithPersist, JobProgress.CommitNextSubWithPersist]
  · cases hs : j.SyncType <;>
      simp [Job.CommitNextSubWithPersist, JobProgress.CommitNextSubWithPersist]
  · intro hs m hm hne hrange
    have h := restoreCommitSeq_dbSync m j.Src.TableId hne hrange
    simp only [hs, hm, Job.CommitNextSubWithPersist, JobProgress.CommitNextSubWithPersist]
    exact ⟨h.1, h.2, trivial⟩
  · intro hs m v hm hv
    simp [hs, hm, hv, restoreCommitSeq, Job.CommitNextSubWithPersist,
      JobProgress.CommitNextSubWithPersist]

/-- The snapshot of two tables `{1:120, 2:80}` of a `DBSync` job: the baseline is 80. -/
theorem addExtraInfo_restore_baseline_witness :
    ∃ j2, fullSyncCaseAddExtraInfo envOk rebootstrapJob = .recurse j2 ∧
      j2.progress.CommitSeq = 80 ∧ j2.progress.TableCommitSeqMap = some [(1, 120), (2, 80)] := by
  obtain ⟨j2, h, -, -, hdb, -⟩ := addExtraInfo_restore_baseline envOk rebootstrapJob
    ((rebootstrapJob.log .GetMasterToken).log .GetBackends) (snapshotData [(1, 120), (2, 80)])
    ⟨"job_info", none⟩ ⟨[], "token"⟩ "job_info" rfl rfl rfl rfl
  obtain ⟨⟨e, he, heq⟩, hle, hmap⟩ := hdb rfl [(1, 120), (2, 80)] rfl (by simp)
    (by simp [MaxInt64])
  refine ⟨j2, h, ?_, hmap⟩
  have h80 := hle (2, 80) (by simp)
  simp only [List.mem_cons, List.mem_singleton, List.not_mem_nil, or_false] at he
  rcases he with rfl | rfl
  · simp only at heq h80; omega
  · exact heq.symm

/-! ## C12: `PersistRestoreInfo` of a `DBSync` job -/

/-- The loop of `PersistRestoreInfo` leaves the progress alone. -/
theorem buildTableMapping_progress (env : Env) (m : GoMap Int) (j : Job) (acc : GoMap Int) :
    (buildTableMapping env m j acc).2.progress = j.progress := by
  induction m generalizing j acc with
  | nil => simp [buildTableMapping]
  | cons e rest ih =>
    obtain ⟨k, v⟩ := e
    unfold buildTableMapping
    repeat' (first | split | (dsimp only; split))
    · simp
    · simp
    · rw [ih]
      simp

/-- When every lookup succeeds the loop of `PersistRestoreInfo` stores, for every source
table id of the map in turn, the destination id of the table of the same name. -/
theorem buildTableMapping_ok (env : Env) (nameOf : Int → String) (destIdOf : String → Int)
    (m : GoMap Int) (j : Job) (acc : GoMap Int)
    (hname : ∀ hist, ∀ e ∈ m, env.GetTableNameById hist .Src e.1 = .ok (nameOf e.1))
    (hdest : ∀ hist, ∀ e ∈ m, env.GetTableId hist .Dest (nameOf e.1) =
      .ok (destIdOf (nameOf e.1))) :
    (buildTableMapping env m j acc).1 =
      .ok (m.foldl (fun tableMapping e =>
        GoMap.set tableMapping e.1 (destIdOf (nameOf e.1))) acc) := by
  induction m generalizing j acc with
  | nil => simp [buildTableMapping]
  | cons e rest ih =>
    obtain ⟨k, v⟩ := e
    have h1 := hname j.trace (k, v) (by simp)
    have h2 := hdest (j.log (.GetTableNameById .Src k)).trace (k, v) (by simp)
    simp only at h1 h2
    simp only [buildTableMapping, h1, h2, List.foldl_cons]
    exact ih _ _ (fun hist e he => hname hist e (by simp [he]))
      (fun hist e he => hdest hist e (by simp [he]))

/-- The map built by storing `f k` under every key `k` of `m`. -/
theorem lookup_foldl_set (f : Int → Int) (m : GoMap Int) (acc : GoMap Int) (x : Int) :
    GoMap.lookup (m.foldl (fun tableMapping e => GoMap.set tableMapping e.1 (f e.1)) acc) x =
      if x ∈ m.map Prod.fst then some (f x) else GoMap.lookup acc x := by
  induction m generalizing acc with
  | nil => simp
  | cons e rest ih =>
    obtain ⟨k, v⟩ := e
    simp only [List.foldl_cons, List.map_cons, List.mem_cons]
    rw [ih, GoMap.lookup_set]
    by_cases h1 : x ∈ rest.map Prod.fst
    · simp [h1]
    · by_cases h2 : k = x
      · simp [h1, h2]
      · have h3 : ¬ x = k := fun h => h2 h.symm
        simp [h1, h2, h3]

/-- The loop of `PersistRestoreInfo` returns the error of the first lookup that fails. -/
theorem buildTableMapping_error (env : Env) (nameOf : Int → String) (destIdOf : String → Int)
    (pre rest : GoMap Int) (k v : Int) (err : GoError) (j : Job) (acc : GoMap Int)
    (hname : ∀ hist, ∀ e ∈ pre, env.GetTableNameById hist .Src e.1 = .ok (nameOf e.1))
    (hdest : ∀ hist, ∀ e ∈ pre, env.GetTableId hist .Dest (nameOf e.1) =
      .ok (destIdOf (nameOf e.1)))
    (hfail : (∀ hist, env.GetTableNameById hist .Src k = .error err) ∨
      ((∀ hist, env.GetTableNameById hist .Src k = .ok (nameOf k)) ∧
        ∀ hist, env.GetTableId hist .Dest (nameOf k) = .error err)) :
    (buildTableMapping env (pre ++ (k, v) :: rest) j acc).1 = .error err := by
  induction pre generalizing j acc with
  | nil =>
    rcases hfail with h | ⟨h1, h2⟩
    · simp [buildTableMapping, h]
    · simp [buildTableMapping, h1, h2]
  | cons e pre ih =>
    obtain ⟨k0, v0⟩ := e
    have h1 := hname j.trace (k0, v0) (by simp)
    have h2 := hdest (j.log (.GetTableNameById .Src k0)).trace (k0, v0) (by simp)
    simp only at h1 h2
    simp only [List.cons_append, buildTableMapping, h1, h2]
    exact ih _ _ (fun hist e he => hname hist e (by simp [he]))
      (fun hist e he => hdest hist e (by simp [he]))

/-- C12. `PersistRestoreInfo` of a `DBSync` job whose `TableCommitSeqMap` is `m`. When every
meta lookup succeeds (`nameOf` the source table names, `destIdOf` the destination ids by name)
the step returns nil; the resulting `TableMapping` maps every source table id of `m` to the
destination id of the table of the same name and has no other key, `TableCommitSeqMap` and
`CommitSeq` are kept and the progress is `DBTablesIncrementalSync` / `Done`. When the lookups
of the ids before `k` succeed and a lookup of `k` fails with `err`, the step returns `err` and
the whole progress, `TableMapping` and major state included, is unchanged. -/
theorem persistRestoreInfo_dbSync (env : Env) (j : Job) (m : GoMap Int)
    (nameOf : Int → String) (destIdOf : String → Int)
    (hs : j.SyncType = .DBSync) (hm : j.progress.TableCommitSeqMap = some m) :
    ((∀ hist, ∀ e ∈ m, env.GetTableNameById hist .Src e.1 = .ok (nameOf e.1)) →
      (∀ hist, ∀ e ∈ m, env.GetTableId hist .Dest (nameOf e.1) = .ok (destIdOf (nameOf e.1))) →
      ∃ j1 tableMapping, fullSyncCasePersistRestoreInfo env j = .done (.ret none j1) ∧
        j1.progress.TableMapping = some tableMapping ∧
        (∀ e ∈ m, GoMap.lookup tableMapping e.1 = some (destIdOf (nameOf e.1))) ∧
        (∀ x, GoMap.lookup tableMapping x ≠ none → x ∈ m.map Prod.fst) ∧
        j1.progress.TableCommitSeqMap = some m ∧
        j1.progress.CommitSeq = j.progress.CommitSeq ∧
        j1.progress.SyncState = .DBTablesIncrementalSync ∧
        j1.progress.SubSyncState = Done) ∧
    (∀ pre rest k v err, m = pre ++ (k, v) :: rest →
      (∀ hist, ∀ e ∈ pre, env.GetTableNameById hist .Src e.1 = .ok (nameOf e.1)) →
      (∀ hist, ∀ e ∈ pre, env.GetTableId hist .Dest (nameOf e.1) =
        .ok (destIdOf (nameOf e.1))) →
      ((∀ hist, env.GetTableNameById hist .Src k = .error err) ∨
        ((∀ hist, env.GetTableNameById hist .Src k = .ok (nameOf k)) ∧
          ∀ hist, env.GetTableId hist .Dest (nameOf k) = .error err)) →
      ∃ j1, fullSyncCasePersistRestoreInfo env j = .done (.ret (some err) j1) ∧
        j1.progress = j.progress) := by
  constructor
  · intro hname hdest
    have hok := buildTableMapping_ok env nameOf destIdOf m j [] hname hdest
    have hp := buildTableMapping_progress env m j []
    rcases hb : buildTableMapping env m j [] with ⟨r, j0⟩
    rw [hb] at hok hp
    simp only at hok hp
    subst hok
    simp only [fullSyncCasePersistRestoreInfo, hs, hm, Option.getD_some, hb]
    refine ⟨_, _, rfl, rfl, ?_, ?_, ?_, ?_, rfl, rfl⟩
    · intro e he
      rw [lookup_foldl_set (fun k => destIdOf (nameOf k))]
      have : e.1 ∈ m.map Prod.fst := List.mem_map_of_mem _ he
      simp [this]
    · intro x hx
      rw [lookup_foldl_set (fun k => destIdOf (nameOf k))] at hx
      by_contra hn
      simp [hn, GoMap.lookup] at hx
    · simp [Job.NextWithPersist, JobProgress.NextWithPersist, hp, hm]
    · simp [Job.NextWithPersist, JobProgress.NextWithPersist, hp]
  · intro pre rest k v err hsplit hname hdest hfail
    have herr := buildTableMapping_error env nameOf destIdOf pre rest k v err j [] hname hdest
      hfail
    have hp := buildTableMapping_progress env m j []
    rw [← hsplit] at herr
    rcases hb : buildTableMapping env m j [] with ⟨r, j0⟩
    rw [hb] at herr hp
    simp only at herr hp
    subst herr
    simp only [fullSyncCasePersistRestoreInfo, hs, hm, Option.getD_some, hb]
    exact ⟨_, rfl, hp⟩

/-- The restore of the scenario `{1: 120, 2: 80}`: the step ends with
`TableMapping = {1: 11, 2: 22}`. -/
theorem persistRestoreInfo_dbSync_witness :
    ∃ j1 tableMapping, fullSyncCasePersistRestoreInfo envMeta restoredJob = .done (.ret none j1) ∧
      j1.progress.TableMapping = some tableMapping ∧
      (∀ e ∈ [((1 : Int), (120 : Int)), (2, 80)],
        GoMap.lookup tableMapping e.1 = some (scenarioDestIdOf (scenarioNameOf e.1))) ∧
      (∀ x, GoMap.lookup tableMapping x ≠ none →
        x ∈ [((1 : Int), (120 : Int)), (2, 80)].map Prod.fst) ∧
      j1.progress.TableCommitSeqMap = some [(1, 120), (2, 80)] ∧
      j1.progress.CommitSeq = restoredJob.progress.CommitSeq ∧
      j1.progress.SyncState = .DBTablesIncrementalSync ∧
      j1.progress.SubSyncState = Done :=
  (persistRestoreInfo_dbSync envMeta restoredJob [(1, 120), (2, 80)] scenarioNameOf
    scenarioDestIdOf rfl rfl).1 (fun _ _ _ => rfl) (fun _ _ _ => rfl)

/-! ## C13: job validation -/

/-- C13. `valid` returns nil exactly when the store answers, without error, that no job of
that name exists, the name is not empty, the source spec and the destination spec are each
valid, and `Src.Table` is empty exactly when `Dest.Table` is; `NewJobFromService` accepts a
job context exactly when `valid` accepts the job built from it, and the job it returns has
the name and specs of the call, `SyncType` `DBSync` when `Src.Table` is empty and `TableSync`
otherwise, and `State` `JobRunning`. -/
theorem valid_iff_and_new_job (env : Env) (j : Job) (name : String) (ctx : Option JobContext) :
    ((valid env j).1 = none ↔
      env.IsJobExist j.trace j.Name = .ok false ∧ j.Name ≠ "" ∧
      env.SpecValid (j.trace ++ [.IsJobExist j.Name]) .Src = none ∧
      env.SpecValid (j.trace ++ [.IsJobExist j.Name, .SpecValid .Src]) .Dest = none ∧
      (j.Src.Table = "" ↔ j.Dest.Table = "")) ∧
    (∀ job, NewJobFromService env name ctx = .ok job →
      job.Name = name ∧ job.State = .JobRunning ∧
      (job.Src.Table = "" → job.SyncType = .DBSync) ∧
      (job.Src.Table ≠ "" → job.SyncType = .TableSync) ∧
      ∃ c, ctx = some c ∧ job.Src = c.src ∧ job.Dest = c.dest ∧ job.SkipError = c.skipError) ∧
    (∀ c, ctx = some c →
      ((∃ job, NewJobFromService env name ctx = .ok job) ↔
        env.IsJobExist [] name = .ok false ∧ name ≠ "" ∧
        env.SpecValid [.IsJobExist name] .Src = none ∧
        env.SpecValid [.IsJobExist name, .SpecValid .Src] .Dest = none ∧
        (c.src.Table = "" ↔ c.dest.Table = ""))) := by
  have hvalid : ∀ j : Job, ((valid env j).1 = none ↔
      env.IsJobExist j.trace j.Name = .ok false ∧ j.Name ≠ "" ∧
      env.SpecValid (j.trace ++ [.IsJobExist j.Name]) .Src = none ∧
      env.SpecValid (j.trace ++ [.IsJobExist j.Name, .SpecValid .Src]) .Dest = none ∧
      (j.Src.Table = "" ↔ j.Dest.Table = "")) := by
    intro j
    unfold valid
    rcases h1 : env.IsJobExist j.trace j.Name with err | exist
    · simp
    · cases exist
      · by_cases h2 : j.Name = ""
        · simp [h2]
        · rcases h3 : env.SpecValid (j.trace ++ [.IsJobExist j.Name]) .Src with _ | err
          · rcases h4 : env.SpecValid (j.trace ++ [.IsJobExist j.Name, .SpecValid .Src]) .Dest
              with _ | err
            · by_cases h5 : j.Src.Table = "" <;> by_cases h6 : j.Dest.Table = "" <;>
                simp [h2, h3, h4, h5, h6, Job.log]
            · simp [h2, h3, h4, Job.log]
          · simp [h2, h3, Job.log]
      · simp
  have hframe : ∀ j : Job, (valid env j).2.Name = j.Name ∧ (valid env j).2.Src = j.Src ∧
      (valid env j).2.Dest = j.Dest ∧ (valid env j).2.SkipError = j.SkipError ∧
      (valid env j).2.State = j.State := by
    intro j
    unfold valid
    repeat' (first | split | (dsimp only; split))
    all_goals simp [Job.log]
  refine ⟨hvalid j, ?_, ?_⟩
  · intro job hjob
    cases ctx with
    | none => simp [NewJobFromService] at hjob
    | some c =>
      simp only [NewJobFromService] at hjob
      have hf := hframe ⟨.DBSync, name, c.src, c.dest, c.skipError, .JobRunning, nilProgress,
        false, false, []⟩
      rcases hv : valid env ⟨.DBSync, name, c.src, c.dest, c.skipError, .JobRunning,
        nilProgress, false, false, []⟩ with ⟨e | e, job1⟩
      · rw [hv] at hjob hf
        simp only at hjob hf
        obtain ⟨hn, hsrc, hdest, hskip, hstate⟩ := hf
        split_ifs at hjob with ht
        · cases hjob
          simp only at ht ⊢
          exact ⟨hn, hstate, fun _ => trivial, fun h => absurd ht h, c, rfl, hsrc, hdest, hskip⟩
        · cases hjob
          simp only at ht ⊢
          exact ⟨hn, hstate, fun h => absurd h ht, fun _ => trivial, c, rfl, hsrc, hdest, hskip⟩
      · rw [hv] at hjob
        simp at hjob
  · intro c hc
    subst hc
    have hv := hvalid ⟨.DBSync, name, c.src, c.dest, c.skipError, .JobRunning, nilProgress,
      false, false, []⟩
    simp only [List.nil_append] at hv
    rw [← hv]
    simp only [NewJobFromService]
    rcases hr : valid env ⟨.DBSync, name, c.src, c.dest, c.skipError, .JobRunning,
      nilProgress, false, false, []⟩ with ⟨e | e, job1⟩
    · simp only
      constructor
      · intro _; trivial
      · intro _
        split_ifs
        · exact ⟨_, rfl⟩
        · exact ⟨_, rfl⟩
    · simp

/-! ## C14: the transaction label -/

/-- Every digit below 16 is written with one of the characters `0`..`9`, `a`..`f`. -/
theorem digitChar_hex (k : Nat) (h : k < 16) : Nat.digitChar k ∈ "0123456789abcdef".data := by
  interval_cases k <;> decide

/-- Every character written by the digit loop in base 16 is a hexadecimal character. -/
theorem toDigitsCore_hex (f n : Nat) (ds : List Char)
    (h : ∀ c ∈ ds, c ∈ "0123456789abcdef".data) :
    ∀ c ∈ Nat.toDigitsCore 16 f n ds, c ∈ "0123456789abcdef".data := by
  induction f generalizing n ds with
  | zero => simpa [Nat.toDigitsCore] using h
  | succ f ih =>
    have hd : ∀ c ∈ Nat.digitChar (n % 16) :: ds, c ∈ "0123456789abcdef".data := by
      intro c hc
      rcases List.mem_cons.mp hc with rfl | hc
      · exact digitChar_hex _ (Nat.mod_lt _ (by decide))
      · exact h c hc
    simp only [Nat.toDigitsCore]
    split
    · exact hd
    · exact ih _ _ hd

/-- The digit loop only adds characters. -/
theorem toDigitsCore_length_ge (b f n : Nat) (ds : List Char) :
    ds.length ≤ (Nat.toDigitsCore b f n ds).length := by
  induction f generalizing n ds with
  | zero => simp [Nat.toDigitsCore]
  | succ f ih =>
    simp only [Nat.toDigitsCore]
    split
    · simp
    · exact le_trans (by simp) (ih _ _)

/-- The `%x` rendering of a number below 65536 has between one and four characters, all of
them hexadecimal. -/
theorem fmtHex_shape (n : Nat) (h : n < 65536) :
    1 ≤ (fmtHex n).length ∧ (fmtHex n).length ≤ 4 ∧
      ∀ c ∈ (fmtHex n).data, c ∈ "0123456789abcdef".data := by
  refine ⟨?_, ?_, ?_⟩
  · simp only [fmtHex, String.length, Nat.toDigits, Nat.toDigitsCore]
    split
    · simp
    · exact le_trans (by simp) (toDigitsCore_length_ge _ _ _ _)
  · simp only [fmtHex, String.length, Nat.toDigits]
    exact Nat.toDigitsCore_length 16 (by decide) (n + 1) n 4 (by simpa using h) (by decide)
  · simp only [fmtHex, Nat.toDigits]
    exact toDigitsCore_hex _ _ _ (by simp)

/-- What `newLabel` yields. The salt of a label is below 65536 and is written by `%x`, in
lower-case hexadecimal without padding: between one and four hexadecimal characters. The
label is `ccrj-<salt>:db_sync:<srcDbId>:<destDbId>:<commitSeq>` for `DBSync` and
`ccrj-<salt>:table_sync:<srcDbId>_<srcTableId>:<destDbId>_<destTableId>:<commitSeq>` for
`TableSync`, the ids and the commit seq in decimal. -/
theorem newLabel_format (env : Env) (j : Job) (commitSeq : Int) :
    env.RandIntn j.trace % 65536 < 65536 ∧
    1 ≤ (fmtHex (env.RandIntn j.trace % 65536)).length ∧
    (fmtHex (env.RandIntn j.trace % 65536)).length ≤ 4 ∧
    (∀ c ∈ (fmtHex (env.RandIntn j.trace % 65536)).data, c ∈ "0123456789abcdef".data) ∧
    (j.SyncType = .DBSync → newLabel env j commitSeq =
      "ccrj-" ++ fmtHex (env.RandIntn j.trace % 65536) ++ ":" ++ "db_sync" ++ ":" ++
        fmtInt j.Src.DbId ++ ":" ++ fmtInt j.Dest.DbId ++ ":" ++ fmtInt commitSeq) ∧
    (j.SyncType = .TableSync → newLabel env j commitSeq =
      "ccrj-" ++ fmtHex (env.RandIntn j.trace % 65536) ++ ":" ++ "table_sync" ++ ":" ++
        fmtInt j.Src.DbId ++ "_" ++ fmtInt j.Src.TableId ++ ":" ++ fmtInt j.Dest.DbId ++ "_" ++
        fmtInt j.Dest.TableId ++ ":" ++ fmtInt commitSeq) := by
  have hlt : env.RandIntn j.trace % 65536 < 65536 := Nat.mod_lt _ (by decide)
  obtain ⟨h1, h2, h3⟩ := fmtHex_shape _ hlt
  refine ⟨hlt, h1, h2, h3, ?_, ?_⟩
  · intro hs
    simp [newLabel, hs, SyncType.String]
  · intro hs
    simp [newLabel, hs, SyncType.String]

/-- The digit loop writes at least `e + 1` characters for a number of at least `b ^ e`. -/
theorem toDigitsCore_length_lower (b : Nat) (hb : 1 < b) (e f n : Nat) (ds : List Char)
    (hf : n < f) (hn : b ^ e ≤ n) :
    ds.length + e + 1 ≤ (Nat.toDigitsCore b f n ds).length := by
  induction e generalizing f n ds with
  | zero =>
    obtain ⟨f, rfl⟩ : ∃ g, f = g + 1 := ⟨f - 1, by omega⟩
    simp only [Nat.toDigitsCore]
    split
    · simp
    · exact le_trans (by simp) (toDigitsCore_length_ge _ _ _ _)
  | succ e ih =>
    obtain ⟨f, rfl⟩ : ∃ g, f = g + 1 := ⟨f - 1, by omega⟩
    have hpos : 0 < b := by omega
    have hdiv : b ^ e ≤ n / b := by
      rw [Nat.le_div_iff_mul_le hpos, ← Nat.pow_succ]
      exact hn
    have hne : n / b ≠ 0 := by
      have : 0 < b ^ e := pow_pos hpos e
      omega
    have hnpos : 0 < n := lt_of_lt_of_le (pow_pos hpos (e + 1)) hn
    have hlt : n / b < f := by
      have : n / b < n := Nat.div_lt_self hnpos hb
      omega
    simp only [Nat.toDigitsCore, hne, if_false]
    have := ih f (n / b) (Nat.digitChar (n % b) :: ds) hlt hdiv
    simp only [List.length_cons] at this
    omega

/-- Where the claim of C14 holds: a salt of at least 4096 is written with exactly four
hexadecimal characters. -/
theorem fmtHex_four_chars (n : Nat) (hlow : 4096 ≤ n) (hhigh : n < 65536) :
    (fmtHex n).length = 4 := by
  have h1 := (fmtHex_shape n hhigh).2.1
  have h2 : 0 + 3 + 1 ≤ (Nat.toDigitsCore 16 (n + 1) n []).length :=
    toDigitsCore_length_lower 16 (by decide) 3 (n + 1) n [] (by omega) (by simpa using hlow)
  simp only [fmtHex, String.length, Nat.toDigits] at h1 ⊢
  omega

/-- C14 (where the code departs from the claim, and from its own comment `hex 4 chars` on
the salt): the salt is written by `%x` without padding, so a salt below 4096 takes fewer
than four characters.  With salt 0 the label of a `DBSync` job with database ids 10 and 20
at commit seq 5 is `ccrj-0:db_sync:10:20:5`: the salt takes one character, and the label is
not `ccrj-` followed by four characters and the rest. -/
theorem newLabel_salt_not_four_chars :
    newLabel envOk (dbJob (progress0 .DBIncrementalSync Done)) 5 = "ccrj-0:db_sync:10:20:5" ∧
      ¬ ∃ salt : String, salt.length = 4 ∧
        newLabel envOk (dbJob (progress0 .DBIncrementalSync Done)) 5 =
          "ccrj-" ++ salt ++ ":db_sync:10:20:5" := by
  have h : newLabel envOk (dbJob (progress0 .DBIncrementalSync Done)) 5 =
      "ccrj-0:db_sync:10:20:5" := by decide
  refine ⟨h, ?_⟩
  rintro ⟨salt, hlen, heq⟩
  rw [h] at heq
  have := congrArg String.length heq
  simp only [String.length_append, hlen] at this
  revert this
  decide

/-! ## C15: the name of the restore snapshot -/

/-- For the empty snapshot name `restoreSnapshotName` answers the empty string, not
`_r_` followed by the clock reading. -/
theorem restoreSnapshotName_empty :
    restoreSnapshotName envOk [] "" = "" ∧
      restoreSnapshotName envOk [] "" ≠ "" ++ "_r_" ++ fmtInt (envOk.Now []) := by
  decide

/-- C15, as the code has it. For every non-empty snapshot name `s` and every clock reading
of `t` seconds, `restoreSnapshotName s` is `s` followed by `_r_` followed by `t` in decimal;
for the empty name it is the empty string. -/
theorem restoreSnapshotName_format (env : Env) (hist : List Event) (s : String) :
    (s ≠ "" → restoreSnapshotName env hist s = s ++ "_r_" ++ fmtInt (env.Now hist)) ∧
      (s = "" → restoreSnapshotName env hist s = "") := by
  constructor
  · intro h
    simp [restoreSnapshotName, h]
  · intro h
    simp [restoreSnapshotName, h]

/-! ## C16: `restoreSnapshotName` is injective at a fixed clock reading -/

/-- Two strings followed by the same suffix are equal only if they are equal. -/
theorem string_append_right_cancel (a b s : String) (h : a ++ s = b ++ s) : a = b := by
  have hd := congrArg String.data h
  simp only [String.data_append] at hd
  exact String.ext (List.append_cancel_right hd)

/-- C16. At a fixed clock reading `restoreSnapshotName` is injective: if two calls read the
same time and give the same result for the snapshot names `a` and `b`, then `a = b`. -/
theorem restoreSnapshotName_injective (env : Env) (hist1 hist2 : List Event) (a b : String)
    (hclock : env.Now hist1 = env.Now hist2)
    (h : restoreSnapshotName env hist1 a = restoreSnapshotName env hist2 b) : a = b := by
  unfold restoreSnapshotName at h
  rw [hclock] at h
  by_cases ha : a = "" <;> by_cases hb : b = ""
  · rw [ha, hb]
  · rw [if_pos ha, if_neg hb] at h
    have hl := congrArg String.length h
    simp only [String.length_append] at hl
    have : ("_r_" : String).length = 3 := by decide
    have h0 : ("" : String).length = 0 := by decide
    omega
  · rw [if_neg ha, if_pos hb] at h
    have hl := congrArg String.length h
    simp only [String.length_append] at hl
    have : ("_r_" : String).length = 3 := by decide
    have h0 : ("" : String).length = 0 := by decide
    omega
  · rw [if_neg ha, if_neg hb] at h
    exact string_append_right_cancel _ _ _ (string_append_right_cancel _ _ _ h)

/-- Two calls at clock reading 0 with the same result `snap_1_r_0`. -/
theorem restoreSnapshotName_injective_witness :
    restoreSnapshotName envOk [] "snap_1" = "snap_1_r_0" ∧ "snap_1" = "snap_1" :=
  ⟨by decide, restoreSnapshotName_injective envOk [] [.GetMasterToken] "snap_1" "snap_1" rfl
    (by decide)⟩

/-! ## C17: `BINLOG_TOO_NEW_COMMIT_SEQ` ends the tick -/

/-- C17. For a job whose sub-state is `Done`: when the RPC client of the source is obtained
and `GetBinlog` answers with status `BINLOG_TOO_NEW_COMMIT_SEQ`, `incrementalSync` returns
nil after these two calls and no other, whatever records the response carries, and the whole
progress (major state, sub-state, CommitSeq, table maps) is unchanged. -/
theorem incrementalSync_too_new (env : Env) (fuel : Nat) (j : Job) (resp : TGetBinlogResult)
    (hdone : j.progress.SubSyncState = Done)
    (hrpc : env.NewFeRpc j.trace .Src = none)
    (hget : env.GetBinlog (j.trace ++ [.NewFeRpc .Src]) j.progress.CommitSeq = .ok resp)
    (hstatus : resp.Status.StatusCode = .BINLOG_TOO_NEW_COMMIT_SEQ) :
    (incrementalSync env (fuel + 1) j).value? = some none ∧
      (incrementalSync env (fuel + 1) j).job.progress = j.progress ∧
      (incrementalSync env (fuel + 1) j).job.trace =
        j.trace ++ [.NewFeRpc .Src, .GetBinlog j.progress.CommitSeq] := by
  have h : incrementalSync env (fuel + 1) j =
      .ret none ((j.log (.NewFeRpc .Src)).log (.GetBinlog j.progress.CommitSeq)) := by
    simp [incrementalSync, incrementalSyncLoop, JobProgress.IsDone, hdone, hrpc, Job.log, hget,
      hstatus]
  rw [h]
  simp [Outcome.value?, Job.log]

/-- A `TableSync` job at `TableIncrementalSync` / `Done` and a source that answers
`BINLOG_TOO_NEW_COMMIT_SEQ` together with a record: nothing is handled. -/
theorem incrementalSync_too_new_witness :
    (incrementalSync envTooNew 1 (tableJob (progress0 .TableIncrementalSync Done))).value? =
        some none ∧
      (incrementalSync envTooNew 1 (tableJob (progress0 .TableIncrementalSync Done))).job.progress =
        progress0 .TableIncrementalSync Done ∧
      (incrementalSync envTooNew 1 (tableJob (progress0 .TableIncrementalSync Done))).job.trace =
        [.NewFeRpc .Src, .GetBinlog 0] :=
  incrementalSync_too_new envTooNew 0 (tableJob (progress0 .TableIncrementalSync Done))
    ⟨⟨.BINLOG_TOO_NEW_COMMIT_SEQ, []⟩, [some (binlogOf .UPSERT 5)]⟩ rfl rfl rfl rfl

/-! ## C18: recovery of a job that stopped in the middle of a record -/

theorem getBinlogCalls_append (t1 t2 : List Event) :
    getBinlogCalls (t1 ++ t2) = getBinlogCalls t1 ++ getBinlogCalls t2 := by
  simp [getBinlogCalls, List.filterMap_append]

theorem committed_getBinlogCalls (j : Job) :
    getBinlogCalls (committed j).job.trace = getBinlogCalls j.trace := by
  unfold committed
  repeat' split
  all_goals simp [Job.Done, Job.Persist, getBinlogCalls, List.filterMap_append]

theorem upsertCaseBeginTransaction_getBinlogCalls (env : Env) (j : Job) :
    getBinlogCalls (upsertCaseBeginTransaction env j).job.trace = getBinlogCalls j.trace := by
  unfold upsertCaseBeginTransaction
  repeat' (first | split | (dsimp only; split))
  all_goals simp [Job.log, Job.NextSubCheckpoint, getBinlogCalls, List.filterMap_append]

theorem upsertCaseIngestBinlog_getBinlogCalls (env : Env) (j : Job) :
    getBinlogCalls (upsertCaseIngestBinlog env j).job.trace = getBinlogCalls j.trace := by
  have hu := (updateInMemory_frame env j).1
  unfold upsertCaseIngestBinlog
  rcases hx : updateInMemory env j with ⟨_ | e, j0⟩ <;> rw [hx] at hu <;> simp only at hu ⊢
  · cases j0.progress.InMemoryData with
    | upsert d =>
      dsimp only [ingestBinlog]
      cases env.Ingest j0.trace d.TxnId d.TableRecords j0.progress.TableMapping <;>
        simp [rollback, hu, Job.log, Job.NextSubCheckpoint, getBinlogCalls,
          List.filterMap_append]
    | null => simp [hu]
    | str s => simp [hu]
    | fullSync s => simp [hu]
  · simp [hu]

theorem upsertCaseCommitTransaction_getBinlogCalls (env : Env) (j : Job) :
    getBinlogCalls (upsertCaseCommitTransaction env j).job.trace = getBinlogCalls j.trace := by
  have hu := (updateInMemory_frame env j).1
  unfold upsertCaseCommitTransaction
  rcases hx : updateInMemory env j with ⟨_ | e, j0⟩ <;> rw [hx] at hu <;> simp only at hu ⊢
  · cases j0.progress.InMemoryData with
    | upsert d =>
      dsimp only
      cases env.NewFeRpc j0.trace .Dest with
      | some e =>
        simp [rollback, hu, Job.log, Job.NextSubCheckpoint, getBinlogCalls,
          List.filterMap_append]
      | none =>
        dsimp only
        cases env.CommitTransaction (j0.log (.NewFeRpc .Dest)).trace d.TxnId d.CommitInfos with
        | error e =>
          simp [rollback, hu, Job.log, Job.NextSubCheckpoint, getBinlogCalls,
            List.filterMap_append]
        | ok status =>
          dsimp only
          split_ifs <;>
            simp [rollback, hu, Job.log, Job.NextSubCheckpoint, committedReturnNil_job,
              committed_getBinlogCalls, getBinlogCalls_append] <;>
            simp [getBinlogCalls]
    | null => simp [hu]
    | str s => simp [hu]
    | fullSync s => simp [hu]
  · simp [hu]

theorem upsertCaseRollbackTransaction_getBinlogCalls (env : Env) (j : Job) :
    getBinlogCalls (upsertCaseRollbackTransaction env j).job.trace = getBinlogCalls j.trace := by
  have hu := (updateInMemory_frame env j).1
  unfold upsertCaseRollbackTransaction
  rcases hx : updateInMemory env j with ⟨_ | e, j0⟩ <;> rw [hx] at hu <;> simp only at hu ⊢
  · cases j0.progress.InMemoryData with
    | upsert d =>
      dsimp only
      cases env.NewFeRpc j0.trace .Dest with
      | some e => simp [hu, Job.log, getBinlogCalls, List.filterMap_append]
      | none =>
        dsimp only
        cases env.RollbackTransaction (j0.log (.NewFeRpc .Dest)).trace d.TxnId with
        | error e => simp [hu, Job.log, getBinlogCalls, List.filterMap_append]
        | ok status =>
          dsimp only
          split_ifs <;>
            simp [hu, Job.log, Job.Rollback, committedReturnNil_job,
              committed_getBinlogCalls, getBinlogCalls_append] <;>
            simp [getBinlogCalls]
    | null => simp [hu]
    | str s => simp [hu]
    | fullSync s => simp [hu]
  · simp [hu]

/-- One pass of `handleUpsert` without a record issues no `GetBinlog` call. -/
theorem handleUpsertStep_getBinlogCalls (env : Env) (j : Job) :
    getBinlogCalls (handleUpsertStep env j none).job.trace = getBinlogCalls j.trace := by
  unfold handleUpsertStep
  split_ifs
  · simp [upsertCaseDone]
  · exact upsertCaseBeginTransaction_getBinlogCalls env j
  · exact upsertCaseIngestBinlog_getBinlogCalls env j
  · exact upsertCaseCommitTransaction_getBinlogCalls env j
  · exact upsertCaseRollbackTransaction_getBinlogCalls env j
  · simp

/-- The call `handleUpsert(nil)` issues no `GetBinlog` call. -/
theorem handleUpsert_getBinlogCalls (env : Env) (fuel : Nat) (j : Job) :
    getBinlogCalls (handleUpsert env fuel j none).job.trace = getBinlogCalls j.trace := by
  induction fuel generalizing j with
  | zero => simp [handleUpsert]
  | succ fuel ih =>
    have hs := handleUpsertStep_getBinlogCalls env j
    unfold handleUpsert
    cases hx : handleUpsertStep env j none with
    | recurse j1 =>
      rw [hx] at hs
      simp only [Step.job_recurse] at hs
      rw [ih j1, hs]
    | done o =>
      rw [hx] at hs
      simpa using hs

/-- C18. Mid-step recovery: for a job whose sub-state is not `Done`, `incrementalSync` issues
no `GetBinlog` call; when the binlog tag of the sub-state is `BinlogUpsert` it is the call
`handleUpsert(nil)` on the job as it stands, so the upsert resumes from the current sub-state;
for every other tag it returns nil after the single call `progress.Rollback(j.SkipError)`,
with no SQL and no RPC. -/
theorem incrementalSync_recover (env : Env) (fuel : Nat) (j : Job)
    (hsub : j.progress.SubSyncState ≠ Done) :
    getBinlogCalls (incrementalSync env fuel j).job.trace = getBinlogCalls j.trace ∧
    (j.progress.SubSyncState.BinlogType = .BinlogUpsert →
      incrementalSync env fuel j = handleUpsert env fuel j none) ∧
    (j.progress.SubSyncState.BinlogType ≠ .BinlogUpsert →
      (incrementalSync env fuel j).value? = some none ∧
      (incrementalSync env fuel j).job.trace = j.trace ++ [.progress (.Rollback j.SkipError)] ∧
      (incrementalSync env fuel j).job.progress = j.progress.Rollback j.SkipError) := by
  have h : incrementalSync env fuel j = recoverIncrementalSync env fuel j := by
    simp [incrementalSync, JobProgress.IsDone, hsub]
  rw [h]
  by_cases ht : j.progress.SubSyncState.BinlogType = .BinlogUpsert
  · have hr : recoverIncrementalSync env fuel j = handleUpsert env fuel j none := by
      simp [recoverIncrementalSync, ht]
    rw [hr]
    exact ⟨handleUpsert_getBinlogCalls env fuel j, fun _ => rfl, fun hn => absurd ht hn⟩
  · have hr : recoverIncrementalSync env fuel j = .ret none (j.Rollback j.SkipError) := by
      unfold recoverIncrementalSync
      split
      · rename_i heq
        exact absurd heq ht
      · rfl
    rw [hr]
    refine ⟨?_, fun hn => absurd hn ht, fun _ => ⟨rfl, ?_, ?_⟩⟩
    · simp [Job.Rollback, getBinlogCalls, List.filterMap_append]
    · simp [Job.Rollback]
    · simp [Job.Rollback]

/-- A job that stopped in the middle of a DDL record: one `Rollback(false)` and nothing
else. -/
theorem incrementalSync_recover_witness :
    getBinlogCalls (incrementalSync envOk 3 midDdlJob).job.trace = [] ∧
      (incrementalSync envOk 3 midDdlJob).value? = some none ∧
      (incrementalSync envOk 3 midDdlJob).job.trace = [.progress (.Rollback false)] ∧
      (incrementalSync envOk 3 midDdlJob).job.progress = progress0 .TableIncrementalSync Done := by
  have h := incrementalSync_recover envOk 3 midDdlJob (by decide)
  exact ⟨h.1, (h.2.2 (by decide)).1, (h.2.2 (by decide)).2.1, (h.2.2 (by decide)).2.2⟩

/-! ## C19: error triage -/

/-- With a panic error recorded, `run` goes through its wake-ups without touching the
progress; all it may still do is remove a deleted job from the store. -/
theorem run_after_panic (env : Env) (fuel : Nat) (j : Job) (e : GoError) (wakes : List Wake) :
    ∃ returned j1, run env fuel j (some e) wakes = .ret (some e, returned) j1 ∧
      j1.progress = j.progress ∧
      (j1.trace = j.trace ∨ j1.trace = j.trace ++ [.RemoveJob j.Name]) := by
  induction wakes generalizing j with
  | nil => exact ⟨false, j, by simp [run], rfl, Or.inl rfl⟩
  | cons wake wakes ih =>
    by_cases hd : j.isDeleted = true
    · exact ⟨true, j.log (.RemoveJob j.Name), by simp [run, maybeDeleted, hd], rfl,
        Or.inr (by simp [Job.log])⟩
    · cases wake with
      | stop => exact ⟨true, j, by simp [run, maybeDeleted, hd], rfl, Or.inl rfl⟩
      | tick =>
        have ht : runTick env fuel j (some e) = .ret (some e) j := by
          unfold runTick
          split_ifs <;> simp_all
        obtain ⟨returned, j1, h1, h2, h3⟩ := ih j
        exact ⟨returned, j1, by simp [run, maybeDeleted, hd, ht, h1], h2, h3⟩

/-- C19. Error triage, for a job of sync type `DBSync` or `TableSync`. `handleError` returns
its argument when that is an XError flagged panic, and nil in every other case; it starts a
new snapshot at the current CommitSeq (one `NextWithPersist` to the full-sync major state of
the sync type and sub-state `BeginCreateSnapshot`) exactly when the argument is a non-panic
XError of category `Meta`, and otherwise leaves the job as it is. A tick of `run` whose
`sync` returns an error records what `handleError` returns, and once a panic error is
recorded no tick calls `sync`: `run` does not change the progress any more. -/
theorem handleError_triage (env : Env) (fuel : Nat) (j : Job) (err : GoError)
    (hknown : j.SyncType ≠ .UnknownSync) :
    (∃ r, (handleError j err).value? = some r ∧
      (r ≠ none ↔ ∃ x, err = .xerror x ∧ x.IsPanic = true) ∧ (r ≠ none → r = some err)) ∧
    ((∃ x, err = .xerror x ∧ x.IsPanic = false ∧ x.Category = .Meta) →
      (handleError j err).job.trace = j.trace ++
        [.progress (.NextWithPersist j.progress.CommitSeq
          (if j.SyncType = .DBSync then .DBFullSync else .TableFullSync)
          BeginCreateSnapshot "")] ∧
      (handleError j err).job.progress.CommitSeq = j.progress.CommitSeq ∧
      (handleError j err).job.progress.SyncState =
        (if j.SyncType = .DBSync then .DBFullSync else .TableFullSync) ∧
      (handleError j err).job.progress.SubSyncState = BeginCreateSnapshot) ∧
    ((¬ ∃ x, err = .xerror x ∧ x.IsPanic = false ∧ x.Category = .Meta) →
      (handleError j err).job = j) ∧
    (∀ j1 e, sync env fuel j = .ret (some e) j1 → j.State = .JobRunning →
      runTick env fuel j none = handleError j1 e) ∧
    (∀ e wakes, ∃ returned j1, run env fuel j (some e) wakes = .ret (some e, returned) j1 ∧
      j1.progress = j.progress ∧
      (j1.trace = j.trace ∨ j1.trace = j.trace ++ [.RemoveJob j.Name])) := by
  refine ⟨?_, ?_, ?_, ?_, fun e wakes => run_after_panic env fuel j e wakes⟩
  · cases err with
    | other msg => exact ⟨none, by simp [handleError, Outcome.value?], by simp, by simp⟩
    | xerror x =>
      by_cases hp : x.IsPanic = true
      · exact ⟨some (.xerror x), by simp [handleError, hp, Outcome.value?], by simp [hp],
          fun _ => rfl⟩
      · by_cases hm : x.Category = .Meta
        · refine ⟨none, ?_, by simp [hp], by simp⟩
          cases hs : j.SyncType with
          | UnknownSync => exact absurd hs hknown
          | DBSync => simp [handleError, hp, hm, newSnapshot, hs, Outcome.value?]
          | TableSync => simp [handleError, hp, hm, newSnapshot, hs, Outcome.value?]
        · exact ⟨none, by simp [handleError, hp, hm, Outcome.value?], by simp [hp], by simp⟩
  · rintro ⟨x, rfl, hp, hm⟩
    cases hs : j.SyncType with
    | UnknownSync => exact absurd hs hknown
    | DBSync =>
      simp [handleError, hp, hm, newSnapshot, hs, Job.NextWithPersist,
        JobProgress.NextWithPersist]
    | TableSync =>
      simp [handleError, hp, hm, newSnapshot, hs, Job.NextWithPersist,
        JobProgress.NextWithPersist]
  · intro hn
    cases err with
    | other msg => simp [handleError]
    | xerror x =>
      by_cases hp : x.IsPanic = true
      · simp [handleError, hp]
      · have hm : ¬ x.Category = .Meta := fun hm => hn ⟨x, rfl, by simpa using hp, hm⟩
        simp [handleError, hp, hm]
  · intro j1 e hsync hstate
    simp [runTick, getJobState, hstate, hsync]

/-- A `DBSync` job at `CommitSeq` 0 whose `sync` failed with a `Meta` error: `handleError`
returns nil and the job starts over at `DBFullSync` / `BeginCreateSnapshot`. -/
theorem handleError_triage_witness :
    (handleError (dbJob (progress0 .DBIncrementalSync Done)) (Errorf .Meta "no table")).value? =
        some none ∧
      (handleError (dbJob (progress0 .DBIncrementalSync Done))
        (Errorf .Meta "no table")).job.progress.CommitSeq = 0 ∧
      (handleError (dbJob (progress0 .DBIncrementalSync Done))
        (Errorf .Meta "no table")).job.progress.SyncState = .DBFullSync ∧
      (handleError (dbJob (progress0 .DBIncrementalSync Done))
        (Errorf .Meta "no table")).job.progress.SubSyncState = BeginCreateSnapshot := by
  obtain ⟨⟨r, hr, hiff, -⟩, hmeta, -, -, -⟩ :=
    handleError_triage envOk 1 (dbJob (progress0 .DBIncrementalSync Done))
      (Errorf .Meta "no table") (by decide)
  obtain ⟨-, h1, h2, h3⟩ := hmeta ⟨⟨.Meta, "no table", false⟩, rfl, rfl, rfl⟩
  refine ⟨?_, h1, h2, h3⟩
  rw [hr]
  by_contra hne
  have hr0 : r ≠ none := fun h0 => hne (by rw [h0])
  obtain ⟨x, hx, hp⟩ := hiff.mp hr0
  cases hx
  exact absurd hp (by decide)

/-! ## C20: `Pause`, `Resume` and `UpdateSkipError` are all-or-nothing -/

/-- C20. `changeJobState` with a target equal to `State` persists nothing and returns nil
with the job untouched; otherwise it makes one `UpdateJob` call with the job data carrying
the target state, and either that succeeds, nil is returned and `State` is the target, or it
fails, its error is returned and `State` is what it was before the call. `Pause` and
`Resume` are `changeJobState` with targets `JobPaused` and `JobRunning`. `UpdateSkipError`
behaves in the same way for `SkipError`. No other field of the job changes. -/
theorem changeJobState_all_or_nothing (env : Env) (j : Job) (state : JobState)
    (skipError : Bool) :
    (j.State = state → changeJobState env j state = (none, j)) ∧
    (j.State ≠ state →
      (changeJobState env j state).2.trace =
        j.trace ++ [.UpdateJob j.Name { j.toJson with State := state }] ∧
      (changeJobState env j state).1 =
        env.UpdateJob j.trace j.Name { j.toJson with State := state } ∧
      ((changeJobState env j state).1 = none →
        (changeJobState env j state).2 =
          { j with State := state,
                   trace := j.trace ++ [.UpdateJob j.Name { j.toJson with State := state }] }) ∧
      ((changeJobState env j state).1 ≠ none →
        (changeJobState env j state).2 =
          { j with trace := j.trace ++ [.UpdateJob j.Name { j.toJson with State := state }] })) ∧
    Pause env j = changeJobState env j .JobPaused ∧
    Resume env j = changeJobState env j .JobRunning ∧
    (j.SkipError = skipError → UpdateSkipError env j skipError = (none, j)) ∧
    (j.SkipError ≠ skipError →
      (UpdateSkipError env j skipError).2.trace =
        j.trace ++ [.UpdateJob j.Name { j.toJson with SkipError := skipError }] ∧
      (UpdateSkipError env j skipError).1 =
        env.UpdateJob j.trace j.Name { j.toJson with SkipError := skipError } ∧
      ((UpdateSkipError env j skipError).1 = none →
        (UpdateSkipError env j skipError).2 =
          { j with SkipError := skipError,
                   trace := j.trace ++
                     [.UpdateJob j.Name { j.toJson with SkipError := skipError }] }) ∧
      ((UpdateSkipError env j skipError).1 ≠ none →
        (UpdateSkipError env j skipError).2 =
          { j with trace := j.trace ++
              [.UpdateJob j.Name { j.toJson with SkipError := skipError }] })) := by
  refine ⟨?_, ?_, rfl, rfl, ?_, ?_⟩
  · intro h
    simp [changeJobState, h]
  · intro h
    simp only [changeJobState, if_neg h, persistJob, Job.toJson, Job.log]
    cases env.UpdateJob j.trace j.Name ⟨j.SyncType, j.Name, j.Src, j.Dest, j.SkipError, state⟩
      <;> simp
  · intro h
    simp [UpdateSkipError, h]
  · intro h
    simp only [UpdateSkipError, if_neg h, persistJob, Job.toJson, Job.log]
    cases env.UpdateJob j.trace j.Name ⟨j.SyncType, j.Name, j.Src, j.Dest, skipError, j.State⟩
      <;> simp

/-! ## C21: the SQL of a lightning schema change -/

/-- When `old` occurs in `s`, `removeFirst` removes its first occurrence. -/
theorem removeFirst_of_contains (s old : List Char) (h : containsChars s old = true) :
    RemovedFirstOccurrence s old (removeFirst s old) := by
  induction s with
  | nil =>
    have hold : old = [] := by
      simpa [containsChars, startsWith_iff] using h
    subst hold
    exact ⟨[], [], by simp, by simp [removeFirst], fun _ _ _ => Nat.zero_le _⟩
  | cons c s ih =>
    by_cases hp : startsWith (c :: s) old = true
    · obtain ⟨t, ht⟩ := (startsWith_iff _ _).mp hp
      refine ⟨[], t, by simp [ht], ?_, fun _ _ _ => Nat.zero_le _⟩
      simp only [removeFirst, hp, if_true, List.nil_append]
      rw [← ht]
      simp
    · have hc : containsChars s old = true := by
        simpa [containsChars, hp] using h
      obtain ⟨pre, post, h1, h2, h3⟩ := ih hc
      refine ⟨c :: pre, post, by simp [h1], ?_, ?_⟩
      · simp only [removeFirst, hp]
        simp [h2]
      · intro pre1 post1 hs
        cases pre1 with
        | nil =>
          exfalso
          apply hp
          rw [startsWith_iff]
          exact ⟨post1, by simpa using hs.symm⟩
        | cons c1 pre1 =>
          simp only [List.cons_append, List.cons.injEq] at hs
          have := h3 pre1 post1 (by simpa using hs.2)
          simp only [List.length_cons]
          omega

/-- When `old` does not occur in `s`, `removeFirst` leaves `s` as it is. -/
theorem removeFirst_of_not_contains (s old : List Char) (h : containsChars s old = false) :
    removeFirst s old = s := by
  induction s with
  | nil => simp [removeFirst]
  | cons c s ih =>
    simp only [containsChars, Bool.or_eq_false_iff] at h
    simp [removeFirst, h.1, ih h.2]

/-- C21. Lightning schema change rewriting, for a record that decodes to the raw SQL
`RawSql` in a job whose source database is `db`: `handleLightningSchemaChange` makes exactly
one destination call, `DbExec`, and returns its error. The SQL executed is `RawSql` with the
first occurrence of the qualifier of `default_cluster:db` removed when `RawSql` contains it;
otherwise `RawSql` with the first occurrence of the qualifier of `db` removed when that one
occurs, and `RawSql` itself when neither occurs. -/
theorem handleLightningSchemaChange_sql (env : Env) (j : Job) (binlog : TBinlog)
    (change : ModifyTableAddOrDropColumns)
    (hdecode : env.NewModifyTableAddOrDropColumnsFromJson binlog.Data = .ok change) :
    ∃ sql : String,
      handleLightningSchemaChange env j binlog =
        .ret (env.DbExec j.trace sql) (j.log (.DbExec sql)) ∧
      (("`default_cluster:" ++ j.Src.Database ++ "`.").data <:+: change.RawSql.data →
        RemovedFirstOccurrence change.RawSql.data
          ("`default_cluster:" ++ j.Src.Database ++ "`.").data sql.data) ∧
      (¬ ("`default_cluster:" ++ j.Src.Database ++ "`.").data <:+: change.RawSql.data →
        ("`" ++ j.Src.Database ++ "`.").data <:+: change.RawSql.data →
        RemovedFirstOccurrence change.RawSql.data ("`" ++ j.Src.Database ++ "`.").data
          sql.data) ∧
      (¬ ("`default_cluster:" ++ j.Src.Database ++ "`.").data <:+: change.RawSql.data →
        ¬ ("`" ++ j.Src.Database ++ "`.").data <:+: change.RawSql.data →
        sql = change.RawSql) := by
  by_cases h1 : stringsContains change.RawSql ("`default_cluster:" ++ j.Src.Database ++ "`.")
      = true
  · refine ⟨stringsRemoveFirst change.RawSql ("`default_cluster:" ++ j.Src.Database ++ "`."),
      by simp [handleLightningSchemaChange, hdecode, h1], ?_, ?_, ?_⟩
    · intro _
      exact removeFirst_of_contains _ _ h1
    · intro hn
      exact absurd ((stringsContains_iff _ _).mp h1) hn
    · intro hn
      exact absurd ((stringsContains_iff _ _).mp h1) hn
  · refine ⟨stringsRemoveFirst change.RawSql ("`" ++ j.Src.Database ++ "`."),
      by simp [handleLightningSchemaChange, hdecode, h1], ?_, ?_, ?_⟩
    · intro hc
      exact absurd ((stringsContains_iff _ _).mpr hc) h1
    · intro _ hc
      exact removeFirst_of_contains _ _ ((containsChars_iff _ _).mpr hc)
    · intro _ hn
      have hf : containsChars change.RawSql.data ("`" ++ j.Src.Database ++ "`.").data = false := by
        rw [← Bool.not_eq_true]
        exact fun hc => hn ((containsChars_iff _ _).mp hc)
      exact String.ext (removeFirst_of_not_contains _ _ hf)

/-- The example of the source: in a job on the database `ccr` the raw SQL
``ALTER TABLE `default_cluster:ccr`.`test_ddl` ADD COLUMN `nid1` int(11) NULL`` is executed as
``ALTER TABLE `test_ddl` ADD COLUMN `nid1` int(11) NULL``. -/
theorem handleLightningSchemaChange_sql_witness :
    (handleLightningSchemaChange envDdl ccrJob
        ⟨some 5, .MODIFY_TABLE_ADD_OR_DROP_COLUMNS,
          "ALTER TABLE `default_cluster:ccr`.`test_ddl` ADD COLUMN `nid1` int(11) NULL"⟩).job.trace =
        [.DbExec "ALTER TABLE `test_ddl` ADD COLUMN `nid1` int(11) NULL"] ∧
      ∃ sql : String,
        handleLightningSchemaChange envDdl ccrJob
            ⟨some 5, .MODIFY_TABLE_ADD_OR_DROP_COLUMNS,
              "ALTER TABLE `default_cluster:ccr`.`test_ddl` ADD COLUMN `nid1` int(11) NULL"⟩ =
          .ret (envDdl.DbExec ccrJob.trace sql) (ccrJob.log (.DbExec sql)) ∧
        RemovedFirstOccurrence
          "ALTER TABLE `default_cluster:ccr`.`test_ddl` ADD COLUMN `nid1` int(11) NULL".data
          "`default_cluster:ccr`.".data sql.data := by
  refine ⟨by decide, ?_⟩
  obtain ⟨sql, h1, h2, -, -⟩ := handleLightningSchemaChange_sql envDdl ccrJob
    ⟨some 5, .MODIFY_TABLE_ADD_OR_DROP_COLUMNS,
      "ALTER TABLE `default_cluster:ccr`.`test_ddl` ADD COLUMN `nid1` int(11) NULL"⟩
    ⟨"ALTER TABLE `default_cluster:ccr`.`test_ddl` ADD COLUMN `nid1` int(11) NULL"⟩ rfl
  exact ⟨sql, h1, h2 ((containsChars_iff _ _).mp (by decide))⟩

/-! ## C22: `ALTER_JOB` records -/

/-- When the drop fails on the first `n` attempts and succeeds on the next one, the drop loop
returns after exactly `n + 1` executions of the statement. -/
theorem dropUntilDone_attempts (env : Env) (sql : String) (n fuel : Nat) (j : Job)
    (hfuel : n < fuel)
    (hfail : ∀ i, i < n →
      env.MetaDbExec (j.trace ++ List.replicate i (.MetaDbExec sql)) sql ≠ none)
    (hok : env.MetaDbExec (j.trace ++ List.replicate n (.MetaDbExec sql)) sql = none) :
    dropUntilDone env sql fuel j =
      .ret () { j with trace := j.trace ++ List.replicate (n + 1) (.MetaDbExec sql) } := by
  induction n generalizing j fuel with
  | zero =>
    obtain ⟨f, rfl⟩ : ∃ f, fuel = f + 1 := ⟨fuel - 1, by omega⟩
    simp only [List.replicate_zero, List.append_nil] at hok
    simp [dropUntilDone, hok, Job.log]
  | succ n ih =>
    obtain ⟨f, rfl⟩ : ∃ f, fuel = f + 1 := ⟨fuel - 1, by omega⟩
    have h0 := hfail 0 (by omega)
    simp only [List.replicate_zero, List.append_nil] at h0
    obtain ⟨e, he⟩ := Option.ne_none_iff_exists'.mp h0
    simp only [dropUntilDone, he]
    rw [ih f (j.log (.MetaDbExec sql)) (by omega)]
    · simp [Job.log, List.replicate_succ]
    · intro i hi
      have := hfail (i + 1) (by omega)
      simpa [Job.log, List.replicate_succ] using this
    · simpa [Job.log, List.replicate_succ] using hok

/-- An unfinished `ALTER_JOB` record with an empty table name does not return nil: the check
of the table name comes first and returns an error. -/
theorem handleAlterJob_unfinished_empty_name :
    (handleAlterJob { envOk with NewAlterJobV2FromJson := fun _ => .ok ⟨"", false⟩ } 3
        (dbJob (progress0 .DBIncrementalSync Done)) (binlogOf .ALTER_JOB 5)).value? =
      some (some (Errorf .Normal "invalid alter job")) := by
  decide

/-- C22, as the code has it. For an `ALTER_JOB` record that decodes to the table name `T` and
a finished flag: with `T` empty `handleAlterJob` returns an error without executing SQL,
finished or not; with `T` not empty and the job unfinished it returns nil and changes
nothing; with `T` not empty and the job finished, in a `DBSync` job whose destination drop
fails on the first `n` attempts and succeeds on the next one, it executes
`DROP TABLE T FORCE` exactly `n + 1` times and nothing else, and then calls `newSnapshot`:
the progress is `DBFullSync` / `BeginCreateSnapshot` with `CommitSeq` unchanged and nil is
returned (for every fuel above `n`). -/
theorem handleAlterJob_cases (env : Env) (fuel : Nat) (j : Job) (binlog : TBinlog)
    (alterJob : AlterJobV2) (hdecode : env.NewAlterJobV2FromJson binlog.Data = .ok alterJob) :
    (alterJob.TableName = "" →
      ∃ err, handleAlterJob env fuel j binlog = .ret (some err) j) ∧
    (alterJob.TableName ≠ "" → alterJob.IsFinished = false →
      handleAlterJob env fuel j binlog = .ret none j) ∧
    (alterJob.TableName ≠ "" → alterJob.IsFinished = true → j.SyncType = .DBSync →
      ∀ n, n < fuel →
      (∀ i, i < n → env.MetaDbExec (j.trace ++ List.replicate i
        (.MetaDbExec ("DROP TABLE " ++ alterJob.TableName ++ " FORCE")))
        ("DROP TABLE " ++ alterJob.TableName ++ " FORCE") ≠ none) →
      env.MetaDbExec (j.trace ++ List.replicate n
        (.MetaDbExec ("DROP TABLE " ++ alterJob.TableName ++ " FORCE")))
        ("DROP TABLE " ++ alterJob.TableName ++ " FORCE") = none →
      (handleAlterJob env fuel j binlog).value? = some none ∧
      (handleAlterJob env fuel j binlog).job.trace =
        j.trace ++ List.replicate (n + 1)
          (.MetaDbExec ("DROP TABLE " ++ alterJob.TableName ++ " FORCE")) ++
          [.progress (.NextWithPersist j.progress.CommitSeq .DBFullSync
            BeginCreateSnapshot "")] ∧
      (handleAlterJob env fuel j binlog).job.progress.SyncState = .DBFullSync ∧
      (handleAlterJob env fuel j binlog).job.progress.SubSyncState = BeginCreateSnapshot ∧
      (handleAlterJob env fuel j binlog).job.progress.CommitSeq = j.progress.CommitSeq) := by
  refine ⟨?_, ?_, ?_⟩
  · intro hname
    exact ⟨Errorf .Normal "invalid alter job", by simp [handleAlterJob, hdecode, hname]⟩
  · intro hname hfin
    simp [handleAlterJob, hdecode, hname, hfin]
  · intro hname hfin hs n hfuel hfail hok
    have hdrop := dropUntilDone_attempts env _ n fuel j hfuel hfail hok
    have h : handleAlterJob env fuel j binlog =
        newSnapshot { j with trace := (j.trace ++ List.replicate (n + 1)
          (.MetaDbExec ("DROP TABLE " ++ alterJob.TableName ++ " FORCE"))) } j.progress.CommitSeq := by
      simp [handleAlterJob, hdecode, hname, hfin, hs, hdrop]
    rw [h]
    simp [newSnapshot, hs, Job.NextWithPersist, JobProgress.NextWithPersist, Outcome.value?]

/-- A finished alter job of the table `t1` in a `DBSync` job whose destination drop succeeds
at once: one `DROP TABLE t1 FORCE`, then `DBFullSync` / `BeginCreateSnapshot`. -/
theorem handleAlterJob_cases_witness :
    (handleAlterJob envDdl 1 ccrJob ⟨some 5, .ALTER_JOB, "t1"⟩).value? = some none ∧
      (handleAlterJob envDdl 1 ccrJob ⟨some 5, .ALTER_JOB, "t1"⟩).job.trace =
        [] ++ List.replicate (0 + 1) (.MetaDbExec ("DROP TABLE " ++ "t1" ++ " FORCE")) ++
          [.progress (.NextWithPersist 0 .DBFullSync BeginCreateSnapshot "")] ∧
      (handleAlterJob envDdl 1 ccrJob ⟨some 5, .ALTER_JOB, "t1"⟩).job.progress.SyncState =
        .DBFullSync ∧
      (handleAlterJob envDdl 1 ccrJob ⟨some 5, .ALTER_JOB, "t1"⟩).job.progress.SubSyncState =
        BeginCreateSnapshot ∧
      (handleAlterJob envDdl 1 ccrJob ⟨some 5, .ALTER_JOB, "t1"⟩).job.progress.CommitSeq = 0 :=
  (handleAlterJob_cases envDdl 1 ccrJob ⟨some 5, .ALTER_JOB, "t1"⟩ ⟨"t1", true⟩ rfl).2.2
    (by decide) rfl rfl 0 (by decide) (fun i hi => absurd hi (Nat.not_lt_zero i)) rfl

/-! ## C23: the lazy table mapping -/

/-- C23. Lazy table mapping, for every source table id `s`. When `TableMapping` has an entry
`d` for `s`, `getDestTableIdBySrc` returns `d` and leaves the job as it is: no meta call, no
change of `TableMapping`. When it has none (the map is nil or lacks `s`): if both meta
lookups succeed, with `name` the source table name and `d` the destination id of `name`, it
returns `d` after these two calls, and afterwards `TableMapping` maps `s` to `d` and every
other id to what it was mapped to before; if a lookup fails it returns the error and
`TableMapping` has no entry for `s` and maps every other id as before. -/
theorem getDestTableIdBySrc_lazy (env : Env) (j : Job) (s : Int) :
    (∀ tableMapping d, j.progress.TableMapping = some tableMapping →
      GoMap.lookup tableMapping s = some d →
      getDestTableIdBySrc env j s = (.ok d, j)) ∧
    (GoMap.lookup (j.progress.TableMapping.getD []) s = none →
      (∀ name d, env.GetTableNameById j.trace .Src s = .ok name →
        env.GetTableId (j.trace ++ [.GetTableNameById .Src s]) .Dest name = .ok d →
        (getDestTableIdBySrc env j s).1 = .ok d ∧
        (getDestTableIdBySrc env j s).2.trace =
          j.trace ++ [.GetTableNameById .Src s, .GetTableId .Dest name] ∧
        ∃ tableMapping, (getDestTableIdBySrc env j s).2.progress.TableMapping =
            some tableMapping ∧
          GoMap.lookup tableMapping s = some d ∧
          ∀ x, x ≠ s → GoMap.lookup tableMapping x =
            GoMap.lookup (j.progress.TableMapping.getD []) x) ∧
      (∀ err, (env.GetTableNameById j.trace .Src s = .error err ∨
          ∃ name, env.GetTableNameById j.trace .Src s = .ok name ∧
            env.GetTableId (j.trace ++ [.GetTableNameById .Src s]) .Dest name = .error err) →
        (getDestTableIdBySrc env j s).1 = .error err ∧
        ∀ x, GoMap.lookup ((getDestTableIdBySrc env j s).2.progress.TableMapping.getD []) x =
          GoMap.lookup (j.progress.TableMapping.getD []) x)) := by
  refine ⟨?_, ?_⟩
  · intro tableMapping d hm hl
    simp [getDestTableIdBySrc, hm, hl]
  · intro hnone
    have hlook : (match j.progress.TableMapping with
        | some tableMapping => GoMap.lookup tableMapping s
        | none => none) = none := by
      cases hm : j.progress.TableMapping with
      | none => rfl
      | some tm => simpa [hm] using hnone
    refine ⟨?_, ?_⟩
    · intro name d hname hdest
      cases hm : j.progress.TableMapping with
      | none =>
        simp [getDestTableIdBySrc, hm, Job.log, hname, hdest, GoMap.lookup_set, GoMap.lookup]
        intro x hx
        simp [Ne.symm hx]
      | some tm =>
        simp only [hm] at hlook
        simp [getDestTableIdBySrc, hm, hlook, Job.log, hname, hdest, GoMap.lookup_set]
        intro x hx
        simp [Ne.symm hx]
    · rintro err (hname | ⟨name, hname, hdest⟩)
      · cases hm : j.progress.TableMapping with
        | none => simp [getDestTableIdBySrc, hm, Job.log, hname, GoMap.lookup]
        | some tm =>
          simp only [hm] at hlook
          simp [getDestTableIdBySrc, hm, hlook, Job.log, hname]
      · cases hm : j.progress.TableMapping with
        | none => simp [getDestTableIdBySrc, hm, Job.log, hname, hdest, GoMap.lookup]
        | some tm =>
          simp only [hm] at hlook
          simp [getDestTableIdBySrc, hm, hlook, Job.log, hname, hdest]

/-! ## C24: `xerror.Errorf` -/

/-- C24. For every category `c` and message `m`, `errors.As` recovers from `Errorf c m` an
XError whose `ErrType` is `c` and whose inner `Err` has the message `m`; for
`Errorf(Normal, "test error")` these are `Normal` and `test error`, as the test reads
them. -/
theorem errorf_as (c : ErrType) (m : String) :
    (∃ xerr, errorsAs (some (Errorf c m)) = some xerr ∧ xerr.ErrType = c ∧ xerr.Err = m) ∧
    ∃ xerr, errorsAs (some (Errorf .Normal "test error")) = some xerr ∧
      xerr.ErrType = .Normal ∧ xerr.Err = "test error" :=
  ⟨⟨⟨c, m, false⟩, rfl, rfl, rfl⟩, ⟨⟨.Normal, "test error", false⟩, rfl, rfl, rfl⟩⟩

/-! ## C25: `xerror.Wrap` and `xerror.Wrapf` -/

/-- C25. For every error `e`, category `c`, wrap message, format and arguments, `errors.As`
recovers from `Wrap(e, c, message)` and from `Wrapf(e, c, format, args)` an XError whose
`ErrType` is `c` and whose inner `Err` has the message of `e`, whatever the wrap message;
for the two errors of the test the inner messages are `db open error` and `fe test error`,
not the wrap messages. -/
theorem wrap_as (e : GoError) (c : ErrType) (message format : String) (args : List String) :
    (∃ xerr, errorsAs (some (xerrorWrap e c message)) = some xerr ∧ xerr.ErrType = c ∧
      xerr.Err = e.Error) ∧
    (∃ xerr, errorsAs (some (xerrorWrapf e c format args)) = some xerr ∧ xerr.ErrType = c ∧
      xerr.Err = e.Error) ∧
    (∃ xerr, errorsAs (some (xerrorWrap (.other "db open error") .DB "wrapped error")) =
        some xerr ∧
      xerr.ErrType = .DB ∧ xerr.Err = "db open error" ∧ xerr.Err ≠ "wrapped error") ∧
    ∃ xerr, errorsAs (some (xerrorWrapf (.other "fe test error") .FE "wrapped error: %s"
        ["foo"])) = some xerr ∧
      xerr.ErrType = .FE ∧ xerr.Err = "fe test error" ∧ xerr.Err ≠ "wrapped error: foo" :=
  ⟨⟨⟨c, e.Error, false⟩, rfl, rfl, rfl⟩, ⟨⟨c, e.Error, false⟩, rfl, rfl, rfl⟩,
    ⟨⟨.DB, "db open error", false⟩, rfl, rfl, rfl, by decide⟩,
    ⟨⟨.FE, "fe test error", false⟩, rfl, rfl, rfl, by decide⟩⟩

/-! ## C26: an empty snapshot in a `DBSync` job -/

/-- When `genExtraInfo` succeeds it has read the master token and the backends, in that
order, and nothing else. -/
theorem genExtraInfo_ok_trace (env : Env) (j : Job) (extraInfo : ExtraInfo) (j1 : Job)
    (h : genExtraInfo env j = (.ok extraInfo, j1)) :
    j1.trace = j.trace ++ [.GetMasterToken, .GetBackends] := by
  unfold genExtraInfo at h
  cases h1 : env.GetMasterToken j.trace with
  | error e =>
    rw [h1] at h
    simp at h
  | ok token =>
    rw [h1] at h
    simp only at h
    cases h2 : env.GetBackends (j.log .GetMasterToken).trace with
    | error e =>
      rw [h2] at h
      simp at h
    | ok backends =>
      rw [h2] at h
      simp only [Prod.mk.injEq] at h
      rw [← h.2]
      simp [Job.log]

/-- C26. The `AddExtraInfo` step of a `DBSync` job whose table commit seq map is empty or
nil, once the extra info is generated. When the job info decodes to a map and encodes again,
the step goes on to `RestoreSnapshot` with the single progress call
`CommitNextSubWithPersist(math.MaxInt64, RestoreSnapshot, ...)`: the CommitSeq it persists is
`2^63 - 1`, whatever the CommitSeq before the step. When the job info decodes to the nil map
(the document `null`) the step panics on the assignment of `extra_info` and persists
nothing: the progress is as before the step. -/
theorem addExtraInfo_empty_map (env : Env) (j j1 : Job) (d : FullSyncData)
    (extraInfo : ExtraInfo)
    (hs : j.SyncType = .DBSync)
    (hmem : j.progress.InMemoryData = .fullSync d)
    (hempty : d.TableCommitSeqMap = some [] ∨ d.TableCommitSeqMap = none)
    (hextra : genExtraInfo env j = (.ok extraInfo, j1)) :
    (∀ jobInfoMap jobInfoBytes,
      env.UnmarshalJobInfo (d.SnapshotResp.JobInfo.getD "") = .ok (some jobInfoMap) →
      env.MarshalJobInfo { jobInfoMap with ExtraInfo := some extraInfo } = .ok jobInfoBytes →
      ∃ j2, fullSyncCaseAddExtraInfo env j = .recurse j2 ∧
        j2.progress.CommitSeq = 2 ^ 63 - 1 ∧
        j2.progress.CommitSeq = MaxInt64 ∧
        j2.progress.SubSyncState = RestoreSnapshot ∧
        j2.trace =
          j1.trace ++ [.progress (.CommitNextSubWithPersist MaxInt64 RestoreSnapshot)]) ∧
    (env.UnmarshalJobInfo (d.SnapshotResp.JobInfo.getD "") = .ok none →
      fullSyncCaseAddExtraInfo env j = .done (.panic j1) ∧ j1.progress = j.progress ∧
        j1.trace = j.trace ++ [.GetMasterToken, .GetBackends]) := by
  constructor
  · intro jobInfoMap jobInfoBytes hdecode hencode
    simp only [fullSyncCaseAddExtraInfo, hmem, hdecode, hextra, hencode]
    refine ⟨_, rfl, ?_, ?_, ?_, ?_⟩ <;>
      rcases hempty with h | h <;>
      simp [hs, h, restoreCommitSeq, MaxInt64, Job.CommitNextSubWithPersist,
        JobProgress.CommitNextSubWithPersist]
  · intro hdecode
    have hp := genExtraInfo_progress env j
    rw [hextra] at hp
    refine ⟨by simp only [fullSyncCaseAddExtraInfo, hmem, hdecode, hextra], hp, ?_⟩
    exact genExtraInfo_ok_trace env j extraInfo j1 hextra

/-- A `DBSync` job at `CommitSeq` 500 whose snapshot holds no table: after `AddExtraInfo` the
CommitSeq is 9223372036854775807. -/
theorem addExtraInfo_empty_map_witness :
    ∃ j2, fullSyncCaseAddExtraInfo envOk emptySnapshotJob = .recurse j2 ∧
      emptySnapshotJob.progress.CommitSeq = 500 ∧
      j2.progress.CommitSeq = 9223372036854775807 := by
  obtain ⟨j2, h, h1, -, -, -⟩ := (addExtraInfo_empty_map envOk emptySnapshotJob
    ((emptySnapshotJob.log .GetMasterToken).log .GetBackends) (snapshotData [])
    ⟨[], "token"⟩ rfl rfl (Or.inl rfl) rfl).1 ⟨"job_info", none⟩ "job_info" rfl rfl
  exact ⟨j2, h, rfl, by rw [h1]; decide⟩

/-! ## C27: an empty batch and the error statuses of `GetBinlog` -/

/-- C27. For a job whose sub-state is `Done`, once the RPC client of the source is obtained
and `GetBinlog` has answered: when the status is `OK` or `BINLOG_TOO_OLD_COMMIT_SEQ` and the
record list is empty, and when the status is `BINLOG_DISABLE`, `BINLOG_NOT_FOUND_DB`,
`BINLOG_NOT_FOUND_TABLE` or any status other than `OK`, `BINLOG_TOO_OLD_COMMIT_SEQ` and
`BINLOG_TOO_NEW_COMMIT_SEQ` (whatever records come with it), `incrementalSync` returns an
error after these two calls and no other, and the whole progress is unchanged. -/
theorem incrementalSync_empty_batch (env : Env) (fuel : Nat) (j : Job)
    (resp : TGetBinlogResult)
    (hdone : j.progress.SubSyncState = Done)
    (hrpc : env.NewFeRpc j.trace .Src = none)
    (hget : env.GetBinlog (j.trace ++ [.NewFeRpc .Src]) j.progress.CommitSeq = .ok resp)
    (hcase : ((resp.Status.StatusCode = .OK ∨
          resp.Status.StatusCode = .BINLOG_TOO_OLD_COMMIT_SEQ) ∧ resp.Binlogs = []) ∨
        (resp.Status.StatusCode ≠ .OK ∧
          resp.Status.StatusCode ≠ .BINLOG_TOO_OLD_COMMIT_SEQ ∧
          resp.Status.StatusCode ≠ .BINLOG_TOO_NEW_COMMIT_SEQ)) :
    (∃ err, (incrementalSync env (fuel + 1) j).value? = some (some err)) ∧
      (incrementalSync env (fuel + 1) j).job.progress = j.progress ∧
      (incrementalSync env (fuel + 1) j).job.trace =
        j.trace ++ [.NewFeRpc .Src, .GetBinlog j.progress.CommitSeq] := by
  have h : ∃ err, incrementalSync env (fuel + 1) j =
      .ret (some err) ((j.log (.NewFeRpc .Src)).log (.GetBinlog j.progress.CommitSeq)) := by
    rcases hcase with ⟨hst | hst, hnil⟩ | ⟨h1, h2, h3⟩
    · exact ⟨_, by simp [incrementalSync, incrementalSyncLoop, JobProgress.IsDone, hdone, hrpc,
        Job.log, hget, hst, hnil]; rfl⟩
    · exact ⟨_, by simp [incrementalSync, incrementalSyncLoop, JobProgress.IsDone, hdone, hrpc,
        Job.log, hget, hst, hnil]; rfl⟩
    · simp only [incrementalSync, incrementalSyncLoop, JobProgress.IsDone, hdone, hrpc,
        Job.log, hget]
      cases hc : resp.Status.StatusCode with
      | OK => exact absurd hc h1
      | BINLOG_TOO_OLD_COMMIT_SEQ => exact absurd hc h2
      | BINLOG_TOO_NEW_COMMIT_SEQ => exact absurd hc h3
      | PUBLISH_TIMEOUT => exact ⟨_, by simp; rfl⟩
      | BINLOG_DISABLE => exact ⟨_, by simp; rfl⟩
      | BINLOG_NOT_FOUND_DB => exact ⟨_, by simp; rfl⟩
      | BINLOG_NOT_FOUND_TABLE => exact ⟨_, by simp; rfl⟩
      | Other n => exact ⟨_, by simp; rfl⟩
  obtain ⟨err, h⟩ := h
  rw [h]
  exact ⟨⟨err, rfl⟩, by simp [Job.log], by simp [Job.log]⟩

/-- A `TableSync` job at `TableIncrementalSync` / `Done` and a source that answers `OK`
with no record: an error, and the progress is where it was. -/
theorem incrementalSync_empty_batch_witness :
    (∃ err, (incrementalSync envOk 1
        (tableJob (progress0 .TableIncrementalSync Done))).value? = some (some err)) ∧
      (incrementalSync envOk 1 (tableJob (progress0 .TableIncrementalSync Done))).job.progress =
        progress0 .TableIncrementalSync Done ∧
      (incrementalSync envOk 1 (tableJob (progress0 .TableIncrementalSync Done))).job.trace =
        [.NewFeRpc .Src, .GetBinlog 0] :=
  incrementalSync_empty_batch envOk 0 (tableJob (progress0 .TableIncrementalSync Done))
    ⟨⟨.OK, []⟩, []⟩ rfl rfl rfl (Or.inl ⟨Or.inl rfl, rfl⟩)

/-! ## C28: the lookup failure that `handleUpsert` swallows -/

/-- C28. For a `TableSync` job at sub-state `Done` and an upsert record of commit seq `c`
whose table records do not contain the source table id: `getReleatedTableRecords` returns an
error and no record; `handleUpsert` all the same returns nil and leaves the job as it is (no
transaction is begun, the sub-state is unchanged), which is what it does for every upsert
with no related table record; and `handleBinlogs` on that record returns no error with the
sub-state `Done` and the cursor on `c`, after the single progress call `StartHandle(c)`. -/
theorem handleUpsert_swallows_lookup_failure (env : Env) (fuel : Nat) (j : Job) (b : TBinlog)
    (upsert : Upsert) (c : Int)
    (hs : j.SyncType = .TableSync)
    (hdone : j.progress.SubSyncState = Done)
    (htype : b.Type_ = .UPSERT)
    (hseq : b.CommitSeq = some c)
    (hdecode : env.NewUpsertFromJson b.Data = .ok upsert)
    (hmiss : GoMap.lookup upsert.TableRecords j.Src.TableId = none) :
    (getReleatedTableRecords j upsert).2 ≠ none ∧
    (getReleatedTableRecords j upsert).1 = [] ∧
    handleUpsert env (fuel + 1) j (some b) = .ret none j ∧
    (∀ j0 : Job, j0.progress.SubSyncState = Done →
      (getReleatedTableRecords j0 upsert).1 = [] →
      handleUpsert env (fuel + 1) j0 (some b) = .ret none j0) ∧
    (handleBinlogs env (fuel + 1) j [some b]).value? = some (none, !isIncrementalSync j) ∧
    (handleBinlogs env (fuel + 1) j [some b]).job.progress =
      { j.progress with CommitSeq := c } ∧
    (handleBinlogs env (fuel + 1) j [some b]).job.trace =
      j.trace ++ [.progress (.StartHandle c)] := by
  have hempty : ∀ j0 : Job, j0.progress.SubSyncState = Done →
      (getReleatedTableRecords j0 upsert).1 = [] →
      handleUpsert env (fuel + 1) j0 (some b) = .ret none j0 := by
    intro j0 h0 hr
    simp [handleUpsert, handleUpsertStep, h0, upsertCaseDone, hdecode, hr]
  have hrel : getReleatedTableRecords j upsert =
      ([], some (Errorf .Normal "table record not found")) := by
    simp [getReleatedTableRecords, hs, hmiss]
  have hup := hempty (j.StartHandle c) (by simpa [Job.StartHandle, JobProgress.StartHandle]
    using hdone) (by simp [getReleatedTableRecords, Job.StartHandle, hs, hmiss])
  have hb : handleBinlog env (fuel + 1) j (some b) = .ret none (j.StartHandle c) := by
    simp [handleBinlog, hseq, htype, TBinlog.GetCommitSeq, hup]
  have hafter : afterHandle (j.StartHandle c) c =
      (!isIncrementalSync j, j.StartHandle c) := by
    simp [afterHandle, Job.StartHandle, JobProgress.StartHandle, hs, JobProgress.IsDone, hdone,
      isIncrementalSync]
  have hbs : handleBinlogs env (fuel + 1) j [some b] =
      .ret (none, !isIncrementalSync j) (j.StartHandle c) := by
    simp only [handleBinlogs, hb, Option.map_some', TBinlog.GetCommitSeq, hseq, Option.getD_some,
      hafter]
    cases isIncrementalSync j <;> simp [handleBinlogs]
  refine ⟨by simp [hrel], by simp [hrel], ?_, hempty, ?_, ?_, ?_⟩
  · exact hempty j hdone (by simp [hrel])
  · rw [hbs]; rfl
  · rw [hbs]; simp [Job.StartHandle, JobProgress.StartHandle]
  · rw [hbs]; simp [Job.StartHandle]

/-- A `TableSync` job on the source table 100 and an upsert of commit seq 85 that touches
table 2 only: the lookup fails, `handleUpsert` returns nil, and `handleBinlogs` leaves the
job at `Done` with the cursor on 85. -/
theorem handleUpsert_swallows_lookup_failure_witness :
    (getReleatedTableRecords (tableJob (progress0 .TableIncrementalSync Done))
        (upsertOf 85 2)).2 ≠ none ∧
      handleUpsert envScenario 1 (tableJob (progress0 .TableIncrementalSync Done))
          (some ⟨some 85, .UPSERT, "85"⟩) =
        .ret none (tableJob (progress0 .TableIncrementalSync Done)) ∧
      (handleBinlogs envScenario 1 (tableJob (progress0 .TableIncrementalSync Done))
          [some ⟨some 85, .UPSERT, "85"⟩]).job.progress =
        { progress0 .TableIncrementalSync Done with CommitSeq := 85 } := by
  have h := handleUpsert_swallows_lookup_failure envScenario 0
    (tableJob (progress0 .TableIncrementalSync Done)) ⟨some 85, .UPSERT, "85"⟩ (upsertOf 85 2)
    85 rfl rfl rfl rfl rfl (by decide)
  exact ⟨h.1, h.2.2.1, h.2.2.2.2.2.1⟩

/-! ## C29: `Stop` and `Delete` close the stop channel once -/

/-- C29. With the stop channel as an open/closed flag: on a job whose stop channel is open,
`Stop` closes it and changes nothing else, and `Delete` sets the deleted marker and closes
it; on a job whose stop channel is closed `Stop` panics with the job as it was and `Delete`
panics after it has set the deleted marker. So `Stop` followed by `Delete`, and `Stop` or
`Delete` followed by `Stop`, panic, the first with the deleted marker set. -/
theorem stop_delete_once (j : Job) :
    (j.stopClosed = false →
      Stop j = .ret () { j with stopClosed := true } ∧
      Delete j = .ret () { j with isDeleted := true, stopClosed := true } ∧
      Delete (Stop j).job = .panic { j with isDeleted := true, stopClosed := true } ∧
      Stop (Stop j).job = .panic { j with stopClosed := true } ∧
      Stop (Delete j).job = .panic { j with isDeleted := true, stopClosed := true } ∧
      Delete (Delete j).job = .panic { j with isDeleted := true, stopClosed := true }) ∧
    (j.stopClosed = true →
      Stop j = .panic j ∧
      Delete j = .panic { j with isDeleted := true } ∧
      (Delete j).job.isDeleted = true) := by
  constructor
  · intro h
    simp [Stop, Delete, h]
  · intro h
    simp [Stop, Delete, h]

end Ccr
